import Mathlib

/-!
# pretty-go-log: the line formatter of `logrus/pretty/formatters.go`

A shallow embedding of `CustomFormatter.Format` and of the helpers it calls
(`formatCommon`, `formatCallerInfo`, `coloredTagWithPadding`, `centerTag`,
`rightPadTag`, `appendFields`, `stripANSI`), followed by the dispatcher of `hooks.go`
(`MultiWriter`), the resolver of `config.go` and `New` of `logger.go`.

Conventions of the embedding:

* A Go `string` is a list of Unicode code points (`GoStr`), that is, valid UTF-8
  text; `len` is the UTF-8 byte length, as Go's builtin `len`.
* Go's `int` is `Int` with exact arithmetic: the widths handled here are far from the
  64-bit limits, and allocation limits are not modelled. The section on 64-bit machine
  integers repeats `Format` and the tag functions with wrapping arithmetic and the
  failures of `strings.Repeat` (`Format64`); `Format64_eq` shows that the two agree
  while the tag width fits the allocation limit.
* A Go run-time panic (negative `strings.Repeat` count, slice bounds out of
  range) is the result `none`.
* A Go map (`logrus.Fields`) is an association list with distinct keys; the
  order of the list is the iteration order of `range`.
* The file system calls of `formatCallerInfo` are read from an `Env` record.
-/

namespace Pretty

/-- A Go string: a sequence of Unicode code points (valid UTF-8 text). -/
abbrev GoStr := List Char

/-- Go's builtin `len` on a string: its length in bytes (UTF-8). -/
def len (s : GoStr) : Nat := (s.map Char.utf8Size).sum

/-- Slice expression `s[i:j]`; `none` models the bounds panic. Offsets count code
points; every offset used by the formatter comes from a match on the same string. -/
def slice (s : GoStr) (i j : Nat) : Option GoStr :=
  if i ≤ j ∧ j ≤ s.length then some ((s.take j).drop i) else none

/-- Go's `<` on strings: bytewise lexicographic order, which for UTF-8 text is the
lexicographic order of the code points. -/
def strLess : GoStr → GoStr → Bool
  | [], [] => false
  | [], _ :: _ => true
  | _ :: _, [] => false
  | a :: as, b :: bs =>
    if a.toNat < b.toNat then true
    else if b.toNat < a.toNat then false
    else strLess as bs

/-- Go's `<=` on strings. -/
def strLe (a b : GoStr) : Prop := strLess b a = false

instance strLe.decidable : DecidableRel strLe := fun a b =>
  inferInstanceAs (Decidable (strLess b a = false))

/-! ## Library functions used by the formatter -/

namespace strings

/-- Go `strings.Repeat(s, count)`: panics on a negative count. -/
def Repeat (s : GoStr) (count : Int) : Option GoStr :=
  if count < 0 then none else some (List.replicate count.toNat s).flatten

/-- Go `strings.Trim(s, cutset)`: drops leading and trailing code points that are in
`cutset`. -/
def Trim (s cutset : GoStr) : GoStr :=
  (s.dropWhile (fun c => cutset.contains c)).rdropWhile (fun c => cutset.contains c)

/-- Go `unicode.IsSpace`: the code points with the White_Space property. -/
def isSpace (c : Char) : Bool :=
  let n := c.toNat
  (0x09 ≤ n && n ≤ 0x0D) || n == 0x20 || n == 0x85 || n == 0xA0 || n == 0x1680 ||
  (0x2000 ≤ n && n ≤ 0x200A) || n == 0x2028 || n == 0x2029 || n == 0x202F ||
  n == 0x205F || n == 0x3000

/-- Go `strings.TrimSpace(s)`: drops leading and trailing white space. -/
def TrimSpace (s : GoStr) : GoStr :=
  (s.dropWhile isSpace).rdropWhile isSpace

/-- Go `strings.ToUpper(s)` on the ASCII level names it is applied to. -/
def ToUpper (s : GoStr) : GoStr := s.map Char.toUpper

end strings

namespace fmt

/-- Verb `%d` of `fmt.Sprintf`: decimal rendering of an integer. -/
def d (i : Int) : GoStr :=
  if i < 0 then '-' :: Nat.toDigits 10 i.natAbs else Nat.toDigits 10 i.toNat

end fmt

namespace sort

/-- Go `sort.Strings(keys)`: the keys in ascending order. The order of a sorted
list is unique, so an insertion sort stands for the library's algorithm. -/
def Strings (keys : List GoStr) : List GoStr := keys.insertionSort strLe

end sort

/-! ## logrus data: levels, time, fields, entries -/

/-- The type `logrus.Level` (a `uint32`). -/
abbrev Level := Nat

def PanicLevel : Level := 0
def FatalLevel : Level := 1
def ErrorLevel : Level := 2
def WarnLevel : Level := 3
def InfoLevel : Level := 4
def DebugLevel : Level := 5
def TraceLevel : Level := 6

/-- Method `logrus.Level.String`: the lower-case level name, `unknown` for a value
that is not a level. -/
def Level.String (level : Level) : GoStr :=
  match level with
  | 0 => "panic".toList
  | 1 => "fatal".toList
  | 2 => "error".toList
  | 3 => "warning".toList
  | 4 => "info".toList
  | 5 => "debug".toList
  | 6 => "trace".toList
  | _ => "unknown".toList

/-- A `time.Time` as its civil date and clock fields (`month` and `day` count from
zero: January is `0`, the first day of a month is `0`). -/
structure Time where
  year : Nat
  month : Fin 12
  day : Fin 31
  hour : Fin 24
  minute : Fin 60
  second : Fin 60
  deriving DecidableEq

/-- Decimal rendering zero-padded on the left to at least `width` digits, as
`time.Time.Format` does for its numeric fields. -/
def Time.appendInt (x width : Nat) : GoStr :=
  let ds := Nat.toDigits 10 x
  List.replicate (width - ds.length) '0' ++ ds

/-- The call `t.Format("2006-01-02 15:04:05")`. -/
def Time.Format (t : Time) : GoStr :=
  Time.appendInt t.year 4 ++ "-".toList ++ Time.appendInt (t.month.val + 1) 2 ++
  "-".toList ++ Time.appendInt (t.day.val + 1) 2 ++ " ".toList ++
  Time.appendInt t.hour.val 2 ++ ":".toList ++ Time.appendInt t.minute.val 2 ++
  ":".toList ++ Time.appendInt t.second.val 2

/-- A field value (`interface{}`) of one of the primitive kinds. -/
inductive Value where
  | str (s : GoStr)
  | int (i : Int)
  | bool (b : Bool)
  deriving DecidableEq

/-- Verb `%v` of `fmt.Sprintf` on the value found in the map (`none` is the nil
interface a missing key yields). -/
def fmt.v : Option Value → GoStr
  | some (Value.str s) => s
  | some (Value.int i) => fmt.d i
  | some (Value.bool true) => "true".toList
  | some (Value.bool false) => "false".toList
  | none => "<nil>".toList

/-- The type `logrus.Fields`: a map from field name to value, as an association
list; a well-formed map has distinct keys. -/
abbrev Fields := List (GoStr × Value)

/-- Map index expression `data[k]`. -/
def Fields.get (data : Fields) (k : GoStr) : Option Value :=
  data.lookup k

/-- A `runtime.Frame`, reduced to the two fields the formatter reads. -/
structure Frame where
  File : GoStr
  Line : Int
  deriving DecidableEq

/-- A `logrus.Entry`, reduced to the fields the formatter reads. -/
structure Entry where
  Time : Time
  Level : Level
  Message : GoStr
  Data : Fields
  Caller : Option Frame
  deriving DecidableEq

/-- The process environment read by `formatCallerInfo`: `filepath.Abs`, `os.Getwd`
and `filepath.Rel`, each `none` when the call returns an error. -/
structure Env where
  Abs : GoStr → Option GoStr
  Getwd : Option GoStr
  Rel : GoStr → GoStr → Option GoStr

/-! ## The formatter -/

/-- The type `TagStyle` (an `int`). -/
abbrev TagStyle := Int

def StyleDefault : TagStyle := 0
def StyleCenter : TagStyle := 1
def StyleRight : TagStyle := 2

structure CustomFormatter where
  UseColors : Bool
  ShowCaller : Bool
  ShowTimestamp : Bool
  CallerLevel : Level
  UseRelativePath : Bool
  BracketPadding : Int
  ColorBrackets : Bool
  TagStyle : TagStyle
  PaddingChar : GoStr
  deriving DecidableEq

def ColorReset : GoStr := "\x1b[0m".toList
def ColorRed : GoStr := "\x1b[31m".toList
def ColorGreen : GoStr := "\x1b[32m".toList
def ColorYellow : GoStr := "\x1b[33m".toList
def ColorMagenta : GoStr := "\x1b[35m".toList
def ColorCyan : GoStr := "\x1b[36m".toList
def ColorGray : GoStr := "\x1b[90m".toList
def ColorVeryDimGray : GoStr := "\x1b[38;5;242m".toList

/-- The escape character `\x1b`. -/
def ESC : Char := Char.ofNat 27

/-- A Go `error` value. -/
abbrev GoError := GoStr

/-! ### The three regular expressions, translated by hand

`bracketRegex` is `\[(.*?)\]`, `parenthesesRegex` is `\((.*?)\)` and the one of
`stripANSI` is `\x1b\[[0-9;]*[a-zA-Z]`. Go's matching is leftmost-first, `.` matches
every code point but the newline, and `*?` prefers the shortest run. -/

/-- Matching `(.*?)` and then the closing delimiter: the number of code points before
the nearest `close`, provided no newline stands in between. -/
def lazyUntil (close : Char) : GoStr → Option Nat
  | [] => none
  | c :: cs =>
    if c = close then some 0
    else if c = '\n' then none
    else (lazyUntil close cs).map (· + 1)

/-- Leftmost match of `lb(.*?)rb`: its start and end offsets. -/
def findDelimited (lb rb : Char) : GoStr → Option (Nat × Nat)
  | [] => none
  | c :: cs =>
    match (if c = lb then lazyUntil rb cs else none) with
    | some k => some (0, k + 2)
    | none => (findDelimited lb rb cs).map (fun loc => (loc.1 + 1, loc.2 + 1))

/-- All successive matches of `lb(.*?)rb` replaced by `repl` of the matched text;
`skip` counts the code points of the current match that are still to be passed. -/
def replaceDelimited (lb rb : Char) (repl : GoStr → GoStr) : Nat → GoStr → GoStr
  | _, [] => []
  | skip + 1, _ :: cs => replaceDelimited lb rb repl skip cs
  | 0, c :: cs =>
    match (if c = lb then lazyUntil rb cs else none) with
    | some k => repl (c :: cs.take (k + 1)) ++ replaceDelimited lb rb repl (k + 1) cs
    | none => c :: replaceDelimited lb rb repl 0 cs

/-- The call `bracketRegex.FindStringIndex(s)`. -/
def bracketRegex.FindStringIndex (s : GoStr) : Option (Nat × Nat) :=
  findDelimited '[' ']' s

/-- The call `parenthesesRegex.ReplaceAllStringFunc(s, repl)`. -/
def parenthesesRegex.ReplaceAllStringFunc (s : GoStr) (repl : GoStr → GoStr) : GoStr :=
  replaceDelimited '(' ')' repl 0 s

/-- Matching `[0-9;]*[a-zA-Z]`: the number of code points matched. The two classes are
disjoint, so the greedy star never gives a character back. -/
def ansiParams : GoStr → Option Nat
  | [] => none
  | c :: cs =>
    if c.isDigit || c = ';' then (ansiParams cs).map (· + 1)
    else if c.isAlpha then some 1
    else none

/-- Removal of every match of `\x1b\[[0-9;]*[a-zA-Z]`; `skip` counts the code points
of the current match that are still to be dropped. -/
def stripANSI.go : Nat → GoStr → GoStr
  | _, [] => []
  | skip + 1, _ :: cs => stripANSI.go skip cs
  | 0, c :: cs =>
    match (if c = ESC then (match cs with
        | '[' :: t => ansiParams t
        | _ => none) else none) with
    | some k => stripANSI.go (k + 1) cs
    | none => c :: stripANSI.go 0 cs

def stripANSI (str : GoStr) : GoStr := stripANSI.go 0 str

/-! ### Methods of `CustomFormatter` -/

def CustomFormatter.formatCommon (f : CustomFormatter) (entry : Entry) :
    GoStr × GoStr × GoStr × GoStr × GoStr :=
  let timestamp := entry.Time.Format
  let level := strings.ToUpper entry.Level.String
  let level := if level = "WARNING".toList then "WARN".toList else level
  let message := entry.Message
  let colorCode : GoStr :=
    if f.UseColors then
      match entry.Level with
      | 0 => ColorMagenta
      | 6 => ColorCyan
      | 5 => ColorCyan
      | 4 => ColorGreen
      | 3 => ColorYellow
      | 2 => ColorRed
      | 1 => ColorMagenta
      | _ => ColorReset
    else []
  let resetCode : GoStr := if f.UseColors then ColorReset else []
  (timestamp, level, message, colorCode, resetCode)

def CustomFormatter.formatCallerInfo (f : CustomFormatter) (env : Env) (entry : Entry) :
    GoStr :=
  match entry.Caller with
  | none => []
  | some caller =>
    let filePath := caller.File
    let filePath :=
      if !f.UseRelativePath then
        match env.Abs filePath with
        | some absFile => absFile
        | none => filePath
      else
        match env.Getwd with
        | some wd =>
          match env.Rel wd filePath with
          | some relPath => relPath
          | none => filePath
        | none => filePath
    let callerInfo := "└─ at (".toList ++ filePath ++ ":".toList ++ fmt.d caller.Line ++ ")".toList
    if f.UseColors then
      parenthesesRegex.ReplaceAllStringFunc callerInfo
        (fun bracketed => ColorVeryDimGray ++ bracketed ++ ColorReset)
    else callerInfo

def CustomFormatter.coloredTagWithPadding (f : CustomFormatter) (inner : GoStr)
    (maxPadding : Int) (style : Pretty.TagStyle) : Option GoStr :=
  let tagColor := ColorYellow
  let padColor := ColorVeryDimGray
  let fill := if f.PaddingChar = [] then "•".toList else f.PaddingChar
  if style = StyleCenter then
    let availableSpace := maxPadding - 2
    if (len inner : Int) ≥ availableSpace - 2 then
      some (tagColor ++ "[".toList ++ inner ++ "]".toList ++ ColorReset)
    else
      let totalDots := availableSpace - (len inner : Int) - 2
      let leftDots := Int.tdiv totalDots 2
      let rightDots := totalDots - leftDots
      (strings.Repeat fill leftDots).bind fun left =>
      (strings.Repeat fill rightDots).bind fun right =>
      some (tagColor ++ ['['] ++ padColor ++ left ++ tagColor ++ [' '] ++ inner ++ [' '] ++
        padColor ++ right ++ tagColor ++ [']'] ++ ColorReset)
  else if style = StyleRight then
    let availableSpace := maxPadding - 2
    if (len inner : Int) ≥ availableSpace - 1 then
      some (tagColor ++ "[".toList ++ inner ++ "]".toList ++ ColorReset)
    else
      let totalDots := availableSpace - (len inner : Int) - 1
      (strings.Repeat fill totalDots).bind fun dots =>
      some (tagColor ++ ['['] ++ inner ++ [']'] ++ padColor ++ dots ++ tagColor ++ [' '] ++
        ColorReset)
  else
    some (tagColor ++ "[".toList ++ inner ++ "]".toList ++ ColorReset)

def CustomFormatter.centerTag (f : CustomFormatter) (inner : GoStr) (maxPadding : Int) :
    Option GoStr :=
  let availableSpace := maxPadding - 2
  if (len inner : Int) ≥ availableSpace - 2 then
    some ("[".toList ++ inner ++ "]".toList)
  else
    let totalDots := availableSpace - (len inner : Int) - 2
    let leftDots := Int.tdiv totalDots 2
    let rightDots := totalDots - leftDots
    let fill := if f.PaddingChar = [] then "•".toList else f.PaddingChar
    (strings.Repeat fill leftDots).bind fun left =>
    (strings.Repeat fill rightDots).bind fun right =>
    some ("[".toList ++ left ++ " ".toList ++ inner ++ " ".toList ++ right ++ "]".toList)

def CustomFormatter.rightPadTag (f : CustomFormatter) (inner : GoStr) (maxPadding : Int) :
    Option GoStr :=
  let availableSpace := maxPadding - 2
  if (len inner : Int) ≥ availableSpace - 1 then
    some ("[".toList ++ inner ++ "]".toList)
  else
    let totalDots := availableSpace - (len inner : Int) - 1
    let fill := if f.PaddingChar = [] then "•".toList else f.PaddingChar
    (strings.Repeat fill totalDots).bind fun dots =>
    some ("[".toList ++ inner ++ "]".toList ++ dots ++ " ".toList)

/-- The loop `for i, k := range keys` of `appendFields`; `n` is `len(keys)`. -/
def CustomFormatter.appendFields.loop (f : CustomFormatter) (data : Fields) (n : Nat) :
    Nat → List GoStr → GoStr → GoStr
  | _, [], b => b
  | i, k :: ks, b =>
    let v := data.get k
    let b :=
      if f.UseColors then
        b ++ (ColorVeryDimGray ++ k ++ "=".toList ++ ColorGray ++ fmt.v v ++ ColorReset)
      else
        b ++ (k ++ "=".toList ++ fmt.v v)
    let b := if (i : Int) < (n : Int) - 1 then b ++ [' '] else b
    CustomFormatter.appendFields.loop f data n (i + 1) ks b

/-- The builder `b` is passed in and its new content returned. -/
def CustomFormatter.appendFields (f : CustomFormatter) (b : GoStr) (data : Fields) : GoStr :=
  let keys := sort.Strings (data.map Prod.fst)
  let b := b ++ [' ']
  CustomFormatter.appendFields.loop f data keys.length 0 keys b

/-- The method `Format`. The result is `none` when the Go code panics; otherwise it
is the pair of the returned bytes and the returned error (`none` for `nil`). -/
def CustomFormatter.Format (f : CustomFormatter) (env : Env) (entry : Entry) :
    Option (GoStr × Option GoError) := do
  let (timestamp, level, message, colorCode, resetCode) := f.formatCommon entry
  let b : GoStr := []
  -- 1. Timestamp & Level
  let b := if f.ShowTimestamp then b ++ ("[".toList ++ timestamp ++ "] ".toList) else b
  let b := b ++ (colorCode ++ level)
  let levelPad ← strings.Repeat " ".toList (max 0 (6 - (len level : Int)))
  let b := b ++ (levelPad ++ resetCode ++ " ".toList)
  -- 2. Bracketed Tag Handling
  let maxPadding : Int := if f.BracketPadding ≤ 0 then 15 else f.BracketPadding
  let (displayTag, b, message) ←
    (match bracketRegex.FindStringIndex message with
    | some loc => do
      let matched ← slice message loc.1 loc.2
      let inner := strings.Trim matched "[]".toList
      -- 1. Generate the styled tag string
      let displayTag ←
        (if f.UseColors && f.ColorBrackets then
          if f.TagStyle = StyleCenter ∨ f.TagStyle = StyleRight then
            f.coloredTagWithPadding inner maxPadding f.TagStyle
          else some (ColorYellow ++ "[".toList ++ inner ++ "]".toList ++ ColorReset)
        else if f.TagStyle = StyleCenter then f.centerTag inner maxPadding
        else if f.TagStyle = StyleRight then f.rightPadTag inner maxPadding
        else some ("[".toList ++ inner ++ "]".toList))
      -- 2. Write the tag and clean up the message
      let before ← slice message 0 loc.1
      let after ← slice message loc.2 message.length
      pure (displayTag, b ++ displayTag, strings.TrimSpace (before ++ after))
    | none => pure ([], b, message))
  -- 3. Calculate remaining gutter space
  let visibleLen := len (stripANSI displayTag)
  let b ←
    (if (visibleLen : Int) < maxPadding then
      (strings.Repeat " ".toList (maxPadding - (visibleLen : Int))).map (b ++ ·)
    else some b)
  let b := b ++ [' ']
  -- 3. Message & Fields
  let b := b ++ message
  let b := if entry.Data.length > 0 then f.appendFields b entry.Data else b
  -- 4. Caller Info
  let b ←
    (if f.ShowCaller && decide (entry.Level ≤ f.CallerLevel) then
      let prefixWidth : Int := 0
      let prefixWidth := if f.ShowTimestamp then prefixWidth + 22 else prefixWidth
      let prefixWidth := prefixWidth + 7
      let prefixWidth := prefixWidth + maxPadding
      let prefixWidth := prefixWidth + 1
      (strings.Repeat " ".toList prefixWidth).map fun indent =>
        b ++ ("\n".toList ++ indent ++ f.formatCallerInfo env entry)
    else some b)
  let b := b ++ ['\n']
  pure (b, none)

/-! ## Named parts of the formatted line

The functions below name the successive segments that `Format` writes; theorem
`Format_eq` shows that the output of `Format` is their concatenation. -/

/-- The effective tag width (`maxPadding` in `Format`). -/
def CustomFormatter.maxPadding (f : CustomFormatter) : Int :=
  if f.BracketPadding ≤ 0 then 15 else f.BracketPadding

/-- The fill string used by the padded tag styles. -/
def CustomFormatter.fill (f : CustomFormatter) : GoStr :=
  if f.PaddingChar = [] then "•".toList else f.PaddingChar

/-- The display level name computed by `formatCommon`. -/
def displayLevel (entry : Entry) : GoStr :=
  if strings.ToUpper entry.Level.String = "WARNING".toList then "WARN".toList
  else strings.ToUpper entry.Level.String

/-- Everything `Format` writes before the tag: the optional timestamp and the level
field with its separating space. -/
def CustomFormatter.lineHead (f : CustomFormatter) (entry : Entry) : GoStr :=
  (if f.ShowTimestamp then "[".toList ++ entry.Time.Format ++ "] ".toList else []) ++
  ((f.formatCommon entry).2.2.2.1 ++ displayLevel entry) ++
  (List.replicate (6 - len (displayLevel entry)) ' ' ++ (f.formatCommon entry).2.2.2.2 ++
    " ".toList)

/-- The inner text of the tag of a message: the first bracketed substring, trimmed of
brackets; `none` when the message has no bracketed substring. -/
def tagInner (message : GoStr) : Option GoStr :=
  (bracketRegex.FindStringIndex message).map fun loc =>
    strings.Trim ((message.take loc.2).drop loc.1) "[]".toList

/-- The styled tag `Format` generates for an inner text (`none` on a panic). -/
def CustomFormatter.styleTag (f : CustomFormatter) (inner : GoStr) : Option GoStr :=
  if f.UseColors && f.ColorBrackets then
    if f.TagStyle = StyleCenter ∨ f.TagStyle = StyleRight then
      f.coloredTagWithPadding inner f.maxPadding f.TagStyle
    else some (ColorYellow ++ "[".toList ++ inner ++ "]".toList ++ ColorReset)
  else if f.TagStyle = StyleCenter then f.centerTag inner f.maxPadding
  else if f.TagStyle = StyleRight then f.rightPadTag inner f.maxPadding
  else some ("[".toList ++ inner ++ "]".toList)

/-- The rendered tag (`displayTag` in `Format`), empty for a message without tag. -/
def CustomFormatter.displayTag (f : CustomFormatter) (message : GoStr) : GoStr :=
  match tagInner message with
  | some inner => (f.styleTag inner).getD []
  | none => []

/-- The message text that remains once the tag is cut out. -/
def remainingMessage (message : GoStr) : GoStr :=
  match bracketRegex.FindStringIndex message with
  | some loc => strings.TrimSpace (message.take loc.1 ++ message.drop loc.2)
  | none => message

/-- The blank padding written after the tag, up to the tag width. -/
def CustomFormatter.gutter (f : CustomFormatter) (message : GoStr) : GoStr :=
  List.replicate (f.maxPadding - (len (stripANSI (f.displayTag message)) : Int)).toNat ' '

/-- The text of one field, as `appendFields` writes it. -/
def CustomFormatter.fieldText (f : CustomFormatter) (k : GoStr) (v : Option Value) : GoStr :=
  if f.UseColors then
    ColorVeryDimGray ++ k ++ "=".toList ++ ColorGray ++ fmt.v v ++ ColorReset
  else k ++ "=".toList ++ fmt.v v

/-- What `Format` writes for the fields of an entry. -/
def CustomFormatter.fieldsSegment (f : CustomFormatter) (data : Fields) : GoStr :=
  if data.length > 0 then f.appendFields [] data else []

/-- The indentation of the caller line (`prefixWidth` in `Format`). -/
def CustomFormatter.prefixWidth (f : CustomFormatter) : Int :=
  (if f.ShowTimestamp then 22 else 0) + 7 + f.maxPadding + 1

/-- What `Format` writes for the caller: a new line, the indentation and the caller
information, or nothing. -/
def CustomFormatter.callerSegment (f : CustomFormatter) (env : Env) (entry : Entry) : GoStr :=
  if f.ShowCaller && decide (entry.Level ≤ f.CallerLevel) then
    "\n".toList ++ List.replicate f.prefixWidth.toNat ' ' ++ f.formatCallerInfo env entry
  else []

/-- The whole line, as the concatenation of its segments. -/
def CustomFormatter.line (f : CustomFormatter) (env : Env) (entry : Entry) : GoStr :=
  f.lineHead entry ++ f.displayTag entry.Message ++ f.gutter entry.Message ++ [' '] ++
  remainingMessage entry.Message ++ f.fieldsSegment entry.Data ++
  f.callerSegment env entry ++ ['\n']
/-! ## Sample values -/

namespace Sample

def env : Env :=
  { Abs := fun _ => none, Getwd := none, Rel := fun _ _ => none }

def time : Time :=
  { year := 2024, month := 0, day := 0, hour := 9, minute := 30, second := 0 }

/-- Colors off, caller shown from `Warn` on, width 15, plain style. -/
def formatter : CustomFormatter :=
  { UseColors := false, ShowCaller := true, ShowTimestamp := false, CallerLevel := WarnLevel,
    UseRelativePath := true, BracketPadding := 15, ColorBrackets := true,
    TagStyle := StyleDefault, PaddingChar := "•".toList }

def entry : Entry :=
  { Time := time, Level := InfoLevel, Message := "[Server] Starting".toList, Data := [],
    Caller := none }

def fields : Fields :=
  [("user".toList, Value.str "alice".toList), ("duration".toList, Value.str "150ms".toList)]

def fieldsSwapped : Fields :=
  [("duration".toList, Value.str "150ms".toList), ("user".toList, Value.str "alice".toList)]

end Sample
/-- The text `text` stands in `out` at byte offset `n`. -/
def startsAt (out text : GoStr) (n : Nat) : Prop :=
  ∃ pre post : GoStr, out = pre ++ text ++ post ∧ len pre = n

/-- An entry whose tag text holds a color escape sequence. -/
def Sample.escEntry : Entry :=
  { Sample.entry with Message := "[\x1b[mA]x".toList }

def Sample.caller : Frame := { File := "main.go".toList, Line := 42 }

/-- An entry of level `Error` without caller metadata. -/
def Sample.errorEntry : Entry := { Sample.entry with Level := ErrorLevel }

/-- An entry of level `Error` with caller metadata. -/
def Sample.callerEntry : Entry :=
  { Sample.entry with Level := ErrorLevel, Caller := some Sample.caller }

/-- An entry of level `Error` with caller metadata and an escape sequence in its tag. -/
def Sample.escCallerEntry : Entry :=
  { Sample.escEntry with Level := ErrorLevel, Caller := some Sample.caller }

/-- An entry of level `Error` with caller metadata, dated in the year 10000. -/
def Sample.lateEntry : Entry :=
  { Sample.callerEntry with Time := { Sample.time with year := 10000 } }

/-- The sample formatter with the timestamp shown. -/
def Sample.stampFormatter : CustomFormatter := { Sample.formatter with ShowTimestamp := true }

/-- The printable ASCII characters and the newline: the alphabet of the fixed text that
`Format` writes, apart from the escape character of the color codes and the bullet. -/
def isPlain (c : Char) : Bool := (32 ≤ c.toNat && c.toNat < 127) || c == '\n'

/-- The sample formatter with colors on. -/
def Sample.colorFormatter : CustomFormatter := { Sample.formatter with UseColors := true }

/-- The sample formatter with the caller hidden. -/
def Sample.quietFormatter : CustomFormatter := { Sample.formatter with ShowCaller := false }

/-- An entry whose message ends like the caller marker and whose field key starts with a
parenthesis. -/
def Sample.markEntry : Entry :=
  { Sample.entry with
    Message := "└─ at".toList, Data := [("(k".toList, Value.str "v".toList)] }

/-- The timestamp segment of the line: what `Format` writes before the level field. -/
def CustomFormatter.timestampSegment (f : CustomFormatter) (entry : Entry) : GoStr :=
  if f.ShowTimestamp then "[".toList ++ entry.Time.Format ++ "] ".toList else []

/-- The level segment of the line: color code, display level name, padding, reset code
and the separating space, as `Format` writes them. -/
def CustomFormatter.levelSegment (f : CustomFormatter) (entry : Entry) : GoStr :=
  ((f.formatCommon entry).2.2.2.1 ++ displayLevel entry) ++
  (List.replicate (6 - len (displayLevel entry)) ' ' ++ (f.formatCommon entry).2.2.2.2 ++
    " ".toList)

/-- A formatter of width 5, colors off. -/
def Sample.narrowFormatter : CustomFormatter := { Sample.formatter with BracketPadding := 5 }

/-- An entry whose tag is longer than five characters. -/
def Sample.longTagEntry : Entry :=
  { Sample.entry with Message := "[VeryLongTag] message".toList }

/-- The path `formatCallerInfo` displays for a caller: the file of the frame made
absolute or relative to the working directory, or left as it is when that fails. -/
def CustomFormatter.callerPath (f : CustomFormatter) (env : Env) (caller : Frame) : GoStr :=
  if !f.UseRelativePath then
    match env.Abs caller.File with
    | some absFile => absFile
    | none => caller.File
  else
    match env.Getwd with
    | some wd =>
      match env.Rel wd caller.File with
      | some relPath => relPath
      | none => caller.File
    | none => caller.File

/-- The centered style with a fill string that is a color escape sequence, colors off. -/
def Sample.escFillFormatter : CustomFormatter :=
  { Sample.formatter with TagStyle := StyleCenter, PaddingChar := "\x1b[31m".toList }

/-- Colors on, tag coloring off. -/
def Sample.plainTagFormatter : CustomFormatter :=
  { Sample.formatter with UseColors := true, ColorBrackets := false }

/-- An entry whose tag text holds a color code of its own. -/
def Sample.redTagEntry : Entry := { Sample.entry with Message := "[\x1b[31mA] x".toList }

/-- The sample formatter with `UseColors` set to `b`. -/
def Sample.withColors (b : Bool) : CustomFormatter := { Sample.formatter with UseColors := b }

/-- The sample entry at level `n`. -/
def Sample.atLevel (n : Level) : Entry := { Sample.entry with Level := n }

/-- Noon of the first of January 2024. -/
def Sample.noon : Time :=
  { year := 2024, month := 0, day := 0, hour := 12, minute := 0, second := 0 }

/-- The message splits as `pre`, a bracketed text `[mid]` on one line whose closing
bracket is the nearest one, and `post`. -/
def isTagSplit (message pre mid post : GoStr) : Prop :=
  message = pre ++ '[' :: mid ++ ']' :: post ∧ ']' ∉ mid ∧ '\n' ∉ mid
/-! ## The dispatcher of `hooks.go`, the resolver of `config.go` and `New` of `logger.go`

Conventions of this part:

* An `io.Writer` is a value of `Writer`; a call of its `Write` method is recorded as an
  `Event`, and the error the call returns is read from `Lib.Write`, which may depend on
  the calls made before.
* The two formatters of the logrus library and `unicode.ToLower` on non-ASCII code points
  are taken as given (`Lib`).
* The process environment read by `os.Getenv` is a list of name and value pairs.
* Methods that change the receiver (`AddWriter`, the setters of `logrus.Logger`, the
  options applied to `*Config`) return the new value.
-/

/-- The type `FormatType` (an `int`). -/
abbrev FormatType := Int

def FormatRaw : FormatType := 0
def FormatPlain : FormatType := 1
def FormatJSON : FormatType := 2

/-- The type `OutputType` (an `int`). -/
abbrev OutputType := Int

def OutputConsole : OutputType := 0
def OutputFile : OutputType := 1
def OutputMulti : OutputType := 2

structure LogFileConfig where
  MaxSize : Int
  MaxBackups : Int
  MaxAge : Int
  Compress : Bool
  deriving DecidableEq

/-- The type `lumberjack.Logger`, reduced to the fields this package sets. -/
structure lumberjack.Logger where
  Filename : GoStr
  MaxSize : Int
  MaxBackups : Int
  MaxAge : Int
  Compress : Bool
  deriving DecidableEq

def NewLumberjackLogger (logFileName : GoStr) (config : LogFileConfig) : lumberjack.Logger :=
  { Filename := logFileName, MaxSize := config.MaxSize, MaxBackups := config.MaxBackups,
    MaxAge := config.MaxAge, Compress := config.Compress }

def DefaultLogFileConfig : LogFileConfig :=
  { MaxSize := 10, MaxBackups := 5, MaxAge := 31, Compress := true }

def NewLogFileConfig (maxSize maxBackups maxAge : Int) (compress : Bool) : LogFileConfig :=
  { MaxSize := maxSize, MaxBackups := maxBackups, MaxAge := maxAge, Compress := compress }

/-- An `io.Writer` value: the standard streams, `io.Discard`, a rotating log file, or a
buffer of the caller (told apart by a number). -/
inductive Writer where
  | Stdout
  | Stderr
  | Discard
  | File (l : lumberjack.Logger)
  | Buffer (id : Nat)
  deriving DecidableEq

/-- What `WriteEntry` does to the outside world, in order: a call `w.Write(p)` on the sink
of a destination, or a diagnostic printed with `fmt.Fprintf(os.Stderr, ...)`. -/
inductive Event where
  | write (w : Writer) (p : GoStr)
  | diag (text : GoStr)
  deriving DecidableEq

/-- The library behaviour that is taken as given. -/
structure Lib where
  /-- Function `unicode.ToLower` on the code points above U+007F. -/
  ToLower : Char → Char
  /-- Method `Format` of `*logrus.JSONFormatter`: the bytes and the error. -/
  JSONFormat : Entry → GoStr × Option GoError
  /-- Method `Format` of `*logrus.TextFormatter`, by the field `ForceColors`. -/
  TextFormat : Bool → Entry → GoStr × Option GoError
  /-- The error that the call `w.Write(p)` returns (`none` for `nil`), given the events
  that came before it. -/
  Write : List Event → Writer → GoStr → Option GoError

/-- Go `strings.ToLower(s)`: every code point mapped by `unicode.ToLower`, which turns the
ASCII letters `A`..`Z` into `a`..`z` and leaves the rest of ASCII alone; `lower` is that
function on the code points above U+007F. -/
def strings.ToLower (lower : Char → Char) (s : GoStr) : GoStr :=
  s.map fun c => if c.toNat < 128 then c.toLower else lower c

/-- The process environment: the variables with their values. -/
abbrev Environ := List (GoStr × GoStr)

/-- Go `os.Getenv(key)`: the value of the variable, empty when it is not set. -/
def os.Getenv (environ : Environ) (key : GoStr) : GoStr :=
  (environ.lookup key).getD []

/-- Function `logrus.ParseLevel`: the level named by the string, `none` for the error
`not a valid logrus Level`. -/
def logrus.ParseLevel (lib : Lib) (lvl : GoStr) : Option Level :=
  let s := strings.ToLower lib.ToLower lvl
  if s = "panic".toList then some PanicLevel
  else if s = "fatal".toList then some FatalLevel
  else if s = "error".toList then some ErrorLevel
  else if s = "warn".toList ∨ s = "warning".toList then some WarnLevel
  else if s = "info".toList then some InfoLevel
  else if s = "debug".toList then some DebugLevel
  else if s = "trace".toList then some TraceLevel
  else none

/-- A `logrus.Formatter` value: the three implementations that this package binds
(`&logrus.JSONFormatter{}`, a `*CustomFormatter`, `&logrus.TextFormatter{ForceColors: c}`). -/
inductive Formatter where
  | json
  | custom (f : CustomFormatter)
  | text (ForceColors : Bool)
  deriving DecidableEq

/-- Method `Format` of the interface `logrus.Formatter`. -/
def Formatter.Format (lib : Lib) (env : Env) (fm : Formatter) (e : Entry) :
    Option (GoStr × Option GoError) :=
  match fm with
  | Formatter.json => some (lib.JSONFormat e)
  | Formatter.custom f => f.Format env e
  | Formatter.text c => some (lib.TextFormat c e)

structure MultiWriterWithFormattersConfig where
  format : FormatType
  showCaller : Bool
  customFormat : Option CustomFormatter
  deriving DecidableEq

structure writerPair where
  w : Writer
  f : Formatter
  deriving DecidableEq

structure MultiWriter where
  pairs : List writerPair
  cfg : MultiWriterWithFormattersConfig
  deriving DecidableEq

def NewMultiWriter (cfg : MultiWriterWithFormattersConfig) : MultiWriter :=
  { pairs := [], cfg := cfg }

def MultiWriter.AddWriter (mw : MultiWriter) (w : Writer) (useColors showTime : Bool) :
    MultiWriter :=
  let f : Formatter :=
    match mw.cfg.customFormat with
    | some base =>
      let custom := base
      let custom := { custom with UseColors := useColors }
      let custom := { custom with ShowTimestamp := showTime }
      Formatter.custom custom
    | none =>
      if mw.cfg.format = FormatJSON then Formatter.json
      else if mw.cfg.format = FormatPlain then
        Formatter.custom
          { UseColors := useColors, ShowCaller := mw.cfg.showCaller, ShowTimestamp := showTime,
            CallerLevel := WarnLevel, UseRelativePath := true, BracketPadding := 15,
            ColorBrackets := true, TagStyle := 0, PaddingChar := [] }
      else Formatter.text useColors
  { mw with pairs := mw.pairs ++ [{ w := w, f := f }] }

/-- The loop `for _, p := range mw.pairs` of `WriteEntry`; `log` holds the events so far. -/
def MultiWriter.WriteEntry.loop (lib : Lib) (env : Env) (e : Entry) :
    List writerPair → List Event → Option (List Event)
  | [], log => some log
  | p :: ps, log =>
    match p.f.Format lib env e with
    | none => none
    | some (_, some err) =>
      MultiWriter.WriteEntry.loop lib env e ps
        (log ++ [Event.diag ("log format err: ".toList ++ err ++ "\n".toList)])
    | some (buf, none) =>
      match lib.Write log p.w buf with
      | some err =>
        MultiWriter.WriteEntry.loop lib env e ps
          (log ++ [Event.write p.w buf,
            Event.diag ("log write err: ".toList ++ err ++ "\n".toList)])
      | none => MultiWriter.WriteEntry.loop lib env e ps (log ++ [Event.write p.w buf])

/-- The method `WriteEntry`: the events it causes and the error it returns; `none` when
a formatter panics. -/
def MultiWriter.WriteEntry (mw : MultiWriter) (lib : Lib) (env : Env) (e : Entry) :
    Option (List Event × Option GoError) :=
  (MultiWriter.WriteEntry.loop lib env e mw.pairs []).map fun log => (log, none)

structure CustomHook where
  mw : MultiWriter
  deriving DecidableEq

/-- The value `logrus.AllLevels`. -/
def AllLevels : List Level :=
  [PanicLevel, FatalLevel, ErrorLevel, WarnLevel, InfoLevel, DebugLevel, TraceLevel]

def CustomHook.Levels (_h : CustomHook) : List Level := AllLevels

def CustomHook.Fire (h : CustomHook) (lib : Lib) (env : Env) (e : Entry) :
    Option (List Event × Option GoError) :=
  h.mw.WriteEntry lib env e

/-- A `logrus.Logger`, reduced to the fields this package sets; `Hooks` lists the hooks in
the order of the `AddHook` calls. -/
structure Logger where
  Out : Writer
  Hooks : List CustomHook
  Formatter : Formatter
  ReportCaller : Bool
  Level : Level
  deriving DecidableEq

/-- Function `logrus.New`: output to `os.Stderr`, no hook, the text formatter, level
`Info`. -/
def logrus.New : Logger :=
  { Out := Writer.Stderr, Hooks := [], Formatter := Formatter.text false,
    ReportCaller := false, Level := InfoLevel }

structure FormatterOptions where
  Level : Option Level := none
  Output : Option OutputType := none
  Format : Option FormatType := none
  ShowCaller : Bool := false
  deriving DecidableEq

structure CustomOptions where
  CustomFormat : Option CustomFormatter := none
  deriving DecidableEq

structure Config extends FormatterOptions, CustomOptions where
  EnvLevel : GoStr := []
  EnvOutput : GoStr := []
  EnvFormat : GoStr := []
  Filename : GoStr := []
  Namespace : GoStr := []
  deriving DecidableEq

def Config.setLevel (c : Config) (lib : Lib) (environ : Environ) (l : Logger) : Logger :=
  match c.Level with
  | some lv => { l with Level := lv }
  | none =>
    let env := os.Getenv environ c.EnvLevel
    if env ≠ [] then
      match logrus.ParseLevel lib env with
      | some p => { l with Level := p }
      | none => { l with Level := InfoLevel }
    else { l with Level := InfoLevel }

def parseOutputType (lib : Lib) (env : GoStr) : OutputType :=
  let s := strings.ToLower lib.ToLower (strings.TrimSpace env)
  if s = "file".toList then OutputFile
  else if s = "multi".toList then OutputMulti
  else if s = "console".toList then OutputConsole
  else OutputConsole

def parseFormatType (lib : Lib) (env : GoStr) : FormatType :=
  let s := strings.ToLower lib.ToLower (strings.TrimSpace env)
  if s = "multi".toList then FormatJSON
  else if s = "console".toList then FormatPlain
  else FormatRaw

def Config.getFormat (c : Config) (lib : Lib) (environ : Environ) : FormatType :=
  match c.Format with
  | some fmt => fmt
  | none =>
    let env := os.Getenv environ c.EnvFormat
    if env ≠ [] then parseFormatType lib env else FormatRaw

def Config.setOutput (c : Config) (lib : Lib) (environ : Environ) (l : Logger) : Logger :=
  let out := OutputConsole
  let out :=
    match c.Output with
    | some o => o
    | none =>
      let env := os.Getenv environ c.EnvOutput
      if env ≠ [] then parseOutputType lib env else out
  if out = OutputFile then
    { l with Out := Writer.File (NewLumberjackLogger c.Filename DefaultLogFileConfig) }
  else if out = OutputMulti then
    let logFile := NewLumberjackLogger c.Filename DefaultLogFileConfig
    let mwConfig : MultiWriterWithFormattersConfig :=
      { format := c.getFormat lib environ, showCaller := c.ShowCaller,
        customFormat := c.CustomFormat }
    let mw := NewMultiWriter mwConfig
    let mw := mw.AddWriter Writer.Stdout true false
    let mw := mw.AddWriter (Writer.File logFile) false true
    let l := { l with Hooks := l.Hooks ++ [CustomHook.mk mw] }
    { l with Out := Writer.Discard }
  else { l with Out := Writer.Stdout }

def Config.setFormatter (c : Config) (lib : Lib) (environ : Environ) (l : Logger) : Logger :=
  match c.CustomFormat with
  | some cf =>
    let l := { l with Formatter := Formatter.custom cf }
    { l with ReportCaller := cf.ShowCaller }
  | none =>
    let fType := c.getFormat lib environ
    let l := { l with ReportCaller := c.ShowCaller }
    if fType = FormatJSON then { l with Formatter := Formatter.json }
    else if fType = FormatPlain then
      let isMulti : Bool := decide (c.Output = some OutputMulti)
      if !isMulti then
        let useColors : Bool := decide (c.Output = some OutputConsole)
        let cf : CustomFormatter :=
          { UseColors := useColors, ShowCaller := c.ShowCaller, ShowTimestamp := false,
            CallerLevel := WarnLevel, UseRelativePath := true, BracketPadding := 15,
            ColorBrackets := true, TagStyle := 0, PaddingChar := [] }
        { l with Formatter := Formatter.custom cf }
      else l
    else { l with Formatter := Formatter.text false }

/-- The function `setup`. Its last step, `logInitComplete`, emits one record of level
`Debug` through the logger and leaves the logger as it is; that record is not modelled. -/
def setup (lib : Lib) (environ : Environ) (l : Logger) (cfg : Config) : Logger :=
  let l := cfg.setLevel lib environ l
  let l := cfg.setOutput lib environ l
  let l := cfg.setFormatter lib environ l
  l

/-- The type `Option` of `logger.go`: a function that modifies the `Config`. -/
abbrev LoggerOption := Config → Config

def New (lib : Lib) (environ : Environ) (opts : List LoggerOption) : Logger :=
  let cfg : Config :=
    { Format := some FormatPlain, Output := some OutputConsole, ShowCaller := true,
      Namespace := "Main".toList, EnvLevel := "LOG_LEVEL".toList,
      EnvOutput := "LOG_OUTPUT".toList, EnvFormat := "LOG_FORMAT".toList }
  let cfg := opts.foldl (fun c opt => opt c) cfg
  let l := logrus.New
  setup lib environ l cfg

def WithLevel (l : Level) : LoggerOption := fun c => { c with Level := some l }

def WithOutput (o : OutputType) : LoggerOption := fun c => { c with Output := some o }

def WithFormat (f : FormatType) : LoggerOption := fun c => { c with Format := some f }

def WithCustomFormat (f : CustomFormatter) : LoggerOption :=
  fun c => { c with CustomFormat := some f }

def WithNamespace (name : GoStr) : LoggerOption := fun c => { c with Namespace := name }

def WithFile (path : GoStr) : LoggerOption := fun c => { c with Filename := path }

def WithoutCaller : LoggerOption := fun c => { c with ShowCaller := false }

/-! ### Named parts of the dispatcher and of the resolver -/

/-- The calls of `Write` on the sinks of the destinations, in order, among the events. -/
def writes : List Event → List (Writer × GoStr)
  | [] => []
  | Event.write w p :: es => (w, p) :: writes es
  | Event.diag _ :: es => writes es

/-- What the formatter of a destination returns for the entry when it succeeds: the sink
with the bytes; `none` when the formatter returns an error. -/
def writerPair.output (lib : Lib) (env : Env) (e : Entry) (p : writerPair) :
    Option (Writer × GoStr) :=
  match p.f.Format lib env e with
  | some (buf, none) => some (p.w, buf)
  | _ => none

/-- The output kind that `setOutput` resolves (its local variable `out`). -/
def Config.outputKind (c : Config) (lib : Lib) (environ : Environ) : OutputType :=
  match c.Output with
  | some o => o
  | none =>
    if os.Getenv environ c.EnvOutput ≠ [] then
      parseOutputType lib (os.Getenv environ c.EnvOutput)
    else OutputConsole

/-- Two strings that differ only in the case of their ASCII letters. -/
def sameFold (s t : GoStr) : Prop := s.map Char.toLower = t.map Char.toLower

/-- A library whose formatters and sinks never fail. -/
def Sample.lib : Lib :=
  { ToLower := fun c => c,
    JSONFormat := fun e => ("\x7b\"msg\":\"".toList ++ e.Message ++ "\"\x7d\n".toList, none),
    TextFormat := fun _ e => ("msg=".toList ++ e.Message ++ "\n".toList, none),
    Write := fun _ _ _ => none }

/-- A library whose JSON formatter fails and whose sink `Buffer 1` rejects every write. -/
def Sample.failingLib : Lib :=
  { Sample.lib with
    JSONFormat := fun _ => ([], some "json: unsupported type".toList),
    Write := fun _ w _ => if w = Writer.Buffer 1 then some "disk full".toList else none }

/-- The code points of the fixed text that `Format` writes outside tags, timestamps and
color codes: the separators, the marker of the caller line, the digits that
`Nat.digitChar` yields and the letters of the level names and of `<nil>`, `true`, `false`. -/
def fixedChars : GoStr :=
  " =:()-<>└─*0123456789abcdefghijklmnopqrstuvwxyzABCDEFGHIJKLMNOPQRSTUVWXYZ".toList

/-- The color codes that `Format` writes. -/
def colorCodes : List GoStr :=
  [ColorReset, ColorRed, ColorGreen, ColorYellow, ColorMagenta, ColorCyan, ColorGray,
    ColorVeryDimGray]

/-- A property `Q` of strings that holds for every text over the alphabet `P` and for the
color codes and is kept by concatenation, where `P` holds on the fixed text. -/
structure Segmental (P : Char → Prop) (Q : GoStr → Prop) : Prop where
  ofChars : ∀ s : GoStr, (∀ c ∈ s, P c) → Q s
  append : ∀ a b : GoStr, Q a → Q b → Q (a ++ b)
  fixed : ∀ c ∈ fixedChars, P c
  codes : ∀ code ∈ colorCodes, Q code

/-- No bracket of the string opens a timestamp: every `[` has, among the three code
points after it, one that is not a digit. -/
def stampFree : GoStr → Bool
  | [] => true
  | c :: cs => (c != '[' || (cs.take 3).any fun d => !d.isDigit) && stampFree cs

/-- The output ends in exactly one newline. -/
def endsInSingleNewline (out : GoStr) : Prop :=
  ∃ body : GoStr, out = body ++ ['\n'] ∧ ¬ ['\n'] <:+ body

/-- An entry without tag whose message ends in a newline. -/
def Sample.newlineEntry : Entry := { Sample.entry with Message := "done\n".toList }

/-- The configuration of a dispatcher for the plain format, without custom formatter. -/
def Sample.plainConfig : MultiWriterWithFormattersConfig :=
  { format := FormatPlain, showCaller := true, customFormat := none }

/-- The dispatcher that `setOutput` builds for the plain format: the console with colors
and without timestamp, then a file without colors and with timestamp. -/
def Sample.twoWriters : MultiWriter :=
  ((NewMultiWriter Sample.plainConfig).AddWriter Writer.Stdout true false).AddWriter
    (Writer.File (NewLumberjackLogger "app.log".toList DefaultLogFileConfig)) false true

/-- A dispatcher for the plain format with two buffers, both without colors. -/
def Sample.buffers : MultiWriter :=
  ((NewMultiWriter Sample.plainConfig).AddWriter (Writer.Buffer 1) false false).AddWriter
    (Writer.Buffer 2) false false

/-- A dispatcher with the sample formatter as custom formatter and one destination. -/
def Sample.customWriter : MultiWriter :=
  (NewMultiWriter (MultiWriterWithFormattersConfig.mk FormatJSON false
    (some Sample.formatter))).AddWriter Writer.Stdout false false

/-- The `CustomFormatter` that `AddWriter` builds for the plain format. -/
def plainFormatter (showCaller useColors showTime : Bool) : CustomFormatter :=
  { UseColors := useColors, ShowCaller := showCaller, ShowTimestamp := showTime,
    CallerLevel := WarnLevel, UseRelativePath := true, BracketPadding := 15,
    ColorBrackets := true, TagStyle := 0, PaddingChar := [] }

/-- An entry of level `Warn` without tag, with a field and with caller metadata. -/
def Sample.plainEntry : Entry :=
  { Sample.entry with
    Level := WarnLevel, Message := "disk almost full".toList,
    Data := [("free".toList, Value.int 3)], Caller := some Sample.caller }

/-- A configuration without explicit values, with variable names of its own. -/
def Sample.envConfig : Config :=
  { EnvLevel := "TEST_LOG_LEVEL_ENV".toList, EnvOutput := "TEST_OUTPUT_ENV".toList,
    EnvFormat := "TEST_FORMAT_ENV".toList, Filename := "test.log".toList }

/-- An environment that sets the three variables of `Sample.envConfig`. -/
def Sample.environ : Environ :=
  [("TEST_LOG_LEVEL_ENV".toList, "debug".toList), ("TEST_OUTPUT_ENV".toList, "FILE".toList),
    ("TEST_FORMAT_ENV".toList, " Console ".toList)]

/-- An environment that sets the three variables that `New` names. -/
def Sample.logEnviron : Environ :=
  [("LOG_LEVEL".toList, "debug".toList), ("LOG_OUTPUT".toList, "file".toList),
    ("LOG_FORMAT".toList, "multi".toList)]

/-! ## The options of `formatters.go` -/

/-- The type `FormatterOption`: a function that modifies the `CustomFormatter`. -/
abbrev FormatterOption := CustomFormatter → CustomFormatter

def WithColors (enabled : Bool) : FormatterOption := fun f => { f with UseColors := enabled }

def WithTimestamp (enabled : Bool) : FormatterOption :=
  fun f => { f with ShowTimestamp := enabled }

def WithCaller (enabled : Bool) (level : Level) : FormatterOption :=
  fun f =>
    let f := { f with ShowCaller := enabled }
    { f with CallerLevel := level }

def WithRelativePath (enabled : Bool) : FormatterOption :=
  fun f => { f with UseRelativePath := enabled }

def WithBracketPadding (padding : Int) : FormatterOption :=
  fun f =>
    let padding := if padding < 0 then 0 else padding
    { f with BracketPadding := padding }

def WithColorBrackets (enabled : Bool) : FormatterOption :=
  fun f => { f with ColorBrackets := enabled }

def WithTagStyle (style : TagStyle) (char : GoStr) : FormatterOption :=
  fun f =>
    let f := { f with TagStyle := style }
    if char ≠ [] then { f with PaddingChar := char }
    else { f with PaddingChar := "•".toList }

def WithCenterBrackets (enabled : Bool) (char : GoStr) : FormatterOption :=
  fun f =>
    let f := if enabled then { f with TagStyle := StyleCenter }
      else { f with TagStyle := StyleDefault }
    if char ≠ [] then { f with PaddingChar := char }
    else { f with PaddingChar := "•".toList }

def NewCustomFormatter (opts : List FormatterOption) : CustomFormatter :=
  let f : CustomFormatter :=
    { UseColors := true, ShowCaller := true, ShowTimestamp := false, CallerLevel := WarnLevel,
      UseRelativePath := true, BracketPadding := 15, ColorBrackets := true,
      TagStyle := StyleDefault, PaddingChar := "•".toList }
  opts.foldl (fun f opt => opt f) f

/-- The right-padded style with the fill `=`, width 15, colors off. -/
def Sample.rightFormatter : CustomFormatter :=
  { Sample.formatter with TagStyle := StyleRight, PaddingChar := "=".toList }

/-- A configuration for the plain format whose output kind is not set. -/
def Sample.plainUnset : Config := { Format := some FormatPlain, ShowCaller := true }

/-- The right-padded style with the bullet as fill, width 15, colors off. -/
def Sample.rightBulletFormatter : CustomFormatter :=
  { Sample.formatter with TagStyle := StyleRight }

/-- An entry with the tag `Auth`. -/
def Sample.authEntry : Entry := { Sample.entry with Message := "[Auth] Login".toList }

/-- A formatter with a negative width, a style that is none of the three named ones and
an empty padding character, with colors and timestamp on. -/
def Sample.oddFormatter : CustomFormatter :=
  { UseColors := true, ShowCaller := true, ShowTimestamp := true, CallerLevel := 9,
    UseRelativePath := false, BracketPadding := -3, ColorBrackets := true, TagStyle := 7,
    PaddingChar := [] }

/-- An entry of a level that is none of the seven named ones, with an empty tag. -/
def Sample.oddEntry : Entry := { Sample.entry with Level := 9, Message := "[]".toList }

/-! ## The formatter on 64-bit machine integers

Go's `int` has 64 bits on the platforms the library is built for: `+` and `-` wrap
around, and `strings.Repeat` panics on a negative count, on an output length that
overflows `int`, and when the runtime cannot allocate the output. `Format64`,
`centerTag64`, `rightPadTag64` and `coloredTagWithPadding64` are `Format`, `centerTag`,
`rightPadTag` and `coloredTagWithPadding` again, statement by statement, with every
`int` operation wrapped and every `strings.Repeat` replaced by `strings.Repeat64`. -/

/-- The largest value of Go's `int` (`math.MaxInt64`). -/
def maxInt : Int := 9223372036854775807

/-- The smallest value of Go's `int` (`math.MinInt64`). -/
def minInt : Int := -9223372036854775808

/-- The value of an `int` expression whose exact result is `x`: the arithmetic of Go's
`int` wraps around modulo `2^64`. -/
def wrap (x : Int) : Int :=
  (x + 9223372036854775808) % 18446744073709551616 - 9223372036854775808

/-- Go `strings.Repeat(s, count)` with all its failures. It returns `""` for a count of
0 and `s` for a count of 1; it panics on a negative count and when `len(s) * count`
overflows `int`; an empty `s` gives `""`; otherwise it allocates `len(s) * count` bytes,
which fails when that is more than `limit`, the largest size the runtime can
allocate. -/
def strings.Repeat64 (limit : Nat) (s : GoStr) (count : Int) : Option GoStr :=
  if count = 0 then some []
  else if count = 1 then some s
  else if count < 0 then none
  else if (len s : Int) * count > maxInt then none
  else if len s = 0 then some []
  else if (len s : Int) * count > (limit : Int) then none
  else some (List.replicate count.toNat s).flatten

def CustomFormatter.coloredTagWithPadding64 (f : CustomFormatter) (limit : Nat)
    (inner : GoStr) (maxPadding : Int) (style : Pretty.TagStyle) : Option GoStr :=
  let tagColor := ColorYellow
  let padColor := ColorVeryDimGray
  let fill := if f.PaddingChar = [] then "•".toList else f.PaddingChar
  if style = StyleCenter then
    let availableSpace := wrap (maxPadding - 2)
    if (len inner : Int) ≥ wrap (availableSpace - 2) then
      some (tagColor ++ "[".toList ++ inner ++ "]".toList ++ ColorReset)
    else
      let totalDots := wrap (wrap (availableSpace - (len inner : Int)) - 2)
      let leftDots := Int.tdiv totalDots 2
      let rightDots := wrap (totalDots - leftDots)
      (strings.Repeat64 limit fill leftDots).bind fun left =>
      (strings.Repeat64 limit fill rightDots).bind fun right =>
      some (tagColor ++ ['['] ++ padColor ++ left ++ tagColor ++ [' '] ++ inner ++ [' '] ++
        padColor ++ right ++ tagColor ++ [']'] ++ ColorReset)
  else if style = StyleRight then
    let availableSpace := wrap (maxPadding - 2)
    if (len inner : Int) ≥ wrap (availableSpace - 1) then
      some (tagColor ++ "[".toList ++ inner ++ "]".toList ++ ColorReset)
    else
      let totalDots := wrap (wrap (availableSpace - (len inner : Int)) - 1)
      (strings.Repeat64 limit fill totalDots).bind fun dots =>
      some (tagColor ++ ['['] ++ inner ++ [']'] ++ padColor ++ dots ++ tagColor ++ [' '] ++
        ColorReset)
  else
    some (tagColor ++ "[".toList ++ inner ++ "]".toList ++ ColorReset)

def CustomFormatter.centerTag64 (f : CustomFormatter) (limit : Nat) (inner : GoStr)
    (maxPadding : Int) : Option GoStr :=
  let availableSpace := wrap (maxPadding - 2)
  if (len inner : Int) ≥ wrap (availableSpace - 2) then
    some ("[".toList ++ inner ++ "]".toList)
  else
    let totalDots := wrap (wrap (availableSpace - (len inner : Int)) - 2)
    let leftDots := Int.tdiv totalDots 2
    let rightDots := wrap (totalDots - leftDots)
    let fill := if f.PaddingChar = [] then "•".toList else f.PaddingChar
    (strings.Repeat64 limit fill leftDots).bind fun left =>
    (strings.Repeat64 limit fill rightDots).bind fun right =>
    some ("[".toList ++ left ++ " ".toList ++ inner ++ " ".toList ++ right ++ "]".toList)

def CustomFormatter.rightPadTag64 (f : CustomFormatter) (limit : Nat) (inner : GoStr)
    (maxPadding : Int) : Option GoStr :=
  let availableSpace := wrap (maxPadding - 2)
  if (len inner : Int) ≥ wrap (availableSpace - 1) then
    some ("[".toList ++ inner ++ "]".toList)
  else
    let totalDots := wrap (wrap (availableSpace - (len inner : Int)) - 1)
    let fill := if f.PaddingChar = [] then "•".toList else f.PaddingChar
    (strings.Repeat64 limit fill totalDots).bind fun dots =>
    some ("[".toList ++ inner ++ "]".toList ++ dots ++ " ".toList)

/-- The method `Format` on machine integers; `limit` is the largest size the runtime
can allocate. The result is `none` when the Go code panics. -/
def CustomFormatter.Format64 (f : CustomFormatter) (limit : Nat) (env : Env) (entry : Entry) :
    Option (GoStr × Option GoError) := do
  let (timestamp, level, message, colorCode, resetCode) := f.formatCommon entry
  let b : GoStr := []
  -- 1. Timestamp & Level
  let b := if f.ShowTimestamp then b ++ ("[".toList ++ timestamp ++ "] ".toList) else b
  let b := b ++ (colorCode ++ level)
  let levelPad ← strings.Repeat64 limit " ".toList (max 0 (wrap (6 - (len level : Int))))
  let b := b ++ (levelPad ++ resetCode ++ " ".toList)
  -- 2. Bracketed Tag Handling
  let maxPadding : Int := if f.BracketPadding ≤ 0 then 15 else f.BracketPadding
  let (displayTag, b, message) ←
    (match bracketRegex.FindStringIndex message with
    | some loc => do
      let matched ← slice message loc.1 loc.2
      let inner := strings.Trim matched "[]".toList
      -- 1. Generate the styled tag string
      let displayTag ←
        (if f.UseColors && f.ColorBrackets then
          if f.TagStyle = StyleCenter ∨ f.TagStyle = StyleRight then
            f.coloredTagWithPadding64 limit inner maxPadding f.TagStyle
          else some (ColorYellow ++ "[".toList ++ inner ++ "]".toList ++ ColorReset)
        else if f.TagStyle = StyleCenter then f.centerTag64 limit inner maxPadding
        else if f.TagStyle = StyleRight then f.rightPadTag64 limit inner maxPadding
        else some ("[".toList ++ inner ++ "]".toList))
      -- 2. Write the tag and clean up the message
      let before ← slice message 0 loc.1
      let after ← slice message loc.2 message.length
      pure (displayTag, b ++ displayTag, strings.TrimSpace (before ++ after))
    | none => pure ([], b, message))
  -- 3. Calculate remaining gutter space
  let visibleLen := len (stripANSI displayTag)
  let b ←
    (if (visibleLen : Int) < maxPadding then
      (strings.Repeat64 limit " ".toList (wrap (maxPadding - (visibleLen : Int)))).map (b ++ ·)
    else some b)
  let b := b ++ [' ']
  -- 3. Message & Fields
  let b := b ++ message
  let b := if entry.Data.length > 0 then f.appendFields b entry.Data else b
  -- 4. Caller Info
  let b ←
    (if f.ShowCaller && decide (entry.Level ≤ f.CallerLevel) then
      let prefixWidth : Int := 0
      let prefixWidth := if f.ShowTimestamp then wrap (prefixWidth + 22) else prefixWidth
      let prefixWidth := wrap (prefixWidth + 7)
      let prefixWidth := wrap (prefixWidth + maxPadding)
      let prefixWidth := wrap (prefixWidth + 1)
      (strings.Repeat64 limit " ".toList prefixWidth).map fun indent =>
        b ++ ("\n".toList ++ indent ++ f.formatCallerInfo env entry)
    else some b)
  let b := b ++ ['\n']
  pure (b, none)

/-- The formatter of `NewCustomFormatter(WithBracketPadding(math.MaxInt64))`. -/
def Sample.hugeFormatter : CustomFormatter := NewCustomFormatter [WithBracketPadding maxInt]

/-- The same width with the centered style and the bullet as fill. -/
def Sample.hugeCenterFormatter : CustomFormatter :=
  NewCustomFormatter [WithBracketPadding maxInt, WithTagStyle StyleCenter "•".toList]

/-- A size the runtime does not exceed on a 64-bit platform: `2^48` bytes. -/
def Sample.limit : Nat := 281474976710656
/-! ## Basic facts about the library functions -/

theorem flatten_replicate_single (n : Nat) (c : Char) :
    (List.replicate n [c]).flatten = List.replicate n c := by
  induction n with
  | zero => rfl
  | succ n ih => simp [List.replicate_succ, ih]

theorem Repeat_of_nonneg (s : GoStr) (n : Int) (h : 0 ≤ n) :
    strings.Repeat s n = some (List.replicate n.toNat s).flatten := by
  unfold strings.Repeat
  rw [if_neg (not_lt.mpr h)]

theorem Repeat_space (n : Int) (h : 0 ≤ n) :
    strings.Repeat " ".toList n = some (List.replicate n.toNat ' ') := by
  rw [Repeat_of_nonneg _ _ h]
  exact congrArg some (flatten_replicate_single _ _)

theorem slice_eq (s : GoStr) (i j : Nat) (hij : i ≤ j) (hj : j ≤ s.length) :
    slice s i j = some ((s.take j).drop i) := by
  unfold slice
  rw [if_pos ⟨hij, hj⟩]

theorem lazyUntil_lt (close : Char) (s : GoStr) (k : Nat) (h : lazyUntil close s = some k) :
    k < s.length := by
  induction s generalizing k with
  | nil => simp [lazyUntil] at h
  | cons c cs ih =>
    unfold lazyUntil at h
    split_ifs at h with h1 h2
    · simp at h; subst h; simp
    · obtain ⟨k', hk', rfl⟩ := Option.map_eq_some'.mp h
      have := ih k' hk'
      simp; omega

theorem findDelimited_bounds (lb rb : Char) (s : GoStr) (loc : Nat × Nat)
    (h : findDelimited lb rb s = some loc) : loc.1 < loc.2 ∧ loc.2 ≤ s.length := by
  induction s generalizing loc with
  | nil => simp [findDelimited] at h
  | cons c cs ih =>
    unfold findDelimited at h
    split at h
    · next k hk =>
      split_ifs at hk
      have := lazyUntil_lt _ _ _ hk
      simp at h; subst h; simp; omega
    · obtain ⟨loc', hl, rfl⟩ := Option.map_eq_some'.mp h
      have := ih loc' hl
      simp; omega
/-! ## The tag styler -/

theorem centerTag_eq (f : CustomFormatter) (inner : GoStr) (W : Int) :
    f.centerTag inner W = some (
      if (len inner : Int) ≥ (W - 2) - 2 then "[".toList ++ inner ++ "]".toList
      else "[".toList ++
        (List.replicate ((W - 2 - (len inner : Int) - 2) / 2).toNat f.fill).flatten ++
        " ".toList ++ inner ++ " ".toList ++
        (List.replicate ((W - 2 - (len inner : Int) - 2) -
          (W - 2 - (len inner : Int) - 2) / 2).toNat f.fill).flatten ++ "]".toList) := by
  unfold CustomFormatter.centerTag
  by_cases h : (len inner : Int) ≥ (W - 2) - 2
  · simp only [h, if_true]
  · simp only [h, if_false]
    have hpos : 0 ≤ W - 2 - (len inner : Int) - 2 := by omega
    have hdiv : Int.tdiv (W - 2 - (len inner : Int) - 2) 2 = (W - 2 - (len inner : Int) - 2) / 2 :=
      Int.tdiv_eq_ediv hpos (by decide)
    rw [hdiv, Repeat_of_nonneg _ _ (by omega), Repeat_of_nonneg _ _ (by omega)]
    rfl

theorem rightPadTag_eq (f : CustomFormatter) (inner : GoStr) (W : Int) :
    f.rightPadTag inner W = some (
      if (len inner : Int) ≥ (W - 2) - 1 then "[".toList ++ inner ++ "]".toList
      else "[".toList ++ inner ++ "]".toList ++
        (List.replicate (W - 2 - (len inner : Int) - 1).toNat f.fill).flatten ++ " ".toList) := by
  unfold CustomFormatter.rightPadTag
  by_cases h : (len inner : Int) ≥ (W - 2) - 1
  · simp only [h, if_true]
  · simp only [h, if_false]
    rw [Repeat_of_nonneg _ _ (by omega)]
    rfl

theorem coloredTagWithPadding_isSome (f : CustomFormatter) (inner : GoStr) (W : Int)
    (style : TagStyle) : (f.coloredTagWithPadding inner W style).isSome = true := by
  unfold CustomFormatter.coloredTagWithPadding
  by_cases hc : style = StyleCenter
  · simp only [hc, if_true]
    by_cases h : (len inner : Int) ≥ (W - 2) - 2
    · simp only [h, if_true, Option.isSome_some]
    · simp only [h, if_false]
      have hpos : 0 ≤ W - 2 - (len inner : Int) - 2 := by omega
      have hdiv : Int.tdiv (W - 2 - (len inner : Int) - 2) 2 =
          (W - 2 - (len inner : Int) - 2) / 2 := Int.tdiv_eq_ediv hpos (by decide)
      rw [hdiv, Repeat_of_nonneg _ _ (by omega), Repeat_of_nonneg _ _ (by omega)]
      rfl
  · simp only [hc, if_false]
    by_cases hr : style = StyleRight
    · simp only [hr, if_true]
      by_cases h : (len inner : Int) ≥ (W - 2) - 1
      · simp only [h, if_true, Option.isSome_some]
      · simp only [h, if_false]
        rw [Repeat_of_nonneg _ _ (by omega)]
        rfl
    · simp only [hr, if_false, Option.isSome_some]

theorem styleTag_isSome (f : CustomFormatter) (inner : GoStr) :
    (f.styleTag inner).isSome = true := by
  unfold CustomFormatter.styleTag
  split_ifs
  · exact coloredTagWithPadding_isSome _ _ _ _
  · rfl
  · rw [centerTag_eq]; rfl
  · rw [rightPadTag_eq]; rfl
  · rfl

theorem styleTag_eq (f : CustomFormatter) (inner : GoStr) :
    f.styleTag inner = some ((f.styleTag inner).getD []) := by
  have h := styleTag_isSome f inner
  cases hs : f.styleTag inner with
  | none => rw [hs] at h; cases h
  | some t => rfl

/-! ## `Format` as the concatenation of its segments -/

theorem maxPadding_pos (f : CustomFormatter) : 0 < f.maxPadding := by
  unfold CustomFormatter.maxPadding
  split_ifs with h
  · decide
  · omega

theorem gutter_some (b : GoStr) (n : Nat) (W : Int) :
    (if (n : Int) < W then
      Option.map (fun x => b ++ x) (strings.Repeat " ".toList (W - (n : Int)))
    else some b) = some (b ++ List.replicate (W - (n : Int)).toNat ' ') := by
  split_ifs with h
  · rw [Repeat_space _ (by omega)]; rfl
  · have : (W - (n : Int)).toNat = 0 := by omega
    rw [this]; simp

theorem appendFields_loop_builder (f : CustomFormatter) (data : Fields) (n i : Nat)
    (ks : List GoStr) (b : GoStr) :
    CustomFormatter.appendFields.loop f data n i ks b =
      b ++ CustomFormatter.appendFields.loop f data n i ks [] := by
  induction ks generalizing i b with
  | nil => simp [CustomFormatter.appendFields.loop]
  | cons k ks ih =>
    simp only [CustomFormatter.appendFields.loop]
    rw [ih]
    conv_rhs => rw [ih]
    split_ifs <;> simp [List.append_assoc]

theorem appendFields_builder (f : CustomFormatter) (b : GoStr) (data : Fields) :
    f.appendFields b data = b ++ f.appendFields [] data := by
  unfold CustomFormatter.appendFields
  simp only []
  rw [appendFields_loop_builder]
  conv_rhs => rw [appendFields_loop_builder]
  simp [List.append_assoc]

theorem fields_builder (f : CustomFormatter) (b : GoStr) (data : Fields) :
    (if data.length > 0 then f.appendFields b data else b) = b ++ f.fieldsSegment data := by
  unfold CustomFormatter.fieldsSegment
  split_ifs
  · exact appendFields_builder f b data
  · simp

theorem Format_eq (f : CustomFormatter) (env : Env) (entry : Entry) :
    f.Format env entry = some (f.line env entry, none) := by
  have hlev : strings.Repeat " ".toList (max 0 (6 - (len (displayLevel entry) : Int))) =
      some (List.replicate (6 - len (displayLevel entry)) ' ') := by
    rw [Repeat_space _ (le_max_left _ _)]
    congr 2
    omega
  have hdl : (if strings.ToUpper entry.Level.String = "WARNING".toList then "WARN".toList
      else strings.ToUpper entry.Level.String) = displayLevel entry := rfl
  have hmp : (if f.BracketPadding ≤ 0 then (15 : Int) else f.BracketPadding) = f.maxPadding := rfl
  have hpw : ((if f.ShowTimestamp = true then (0 : Int) + 22 else 0) + 7 + f.maxPadding) + 1 =
      f.prefixWidth := by
    unfold CustomFormatter.prefixWidth; simp
  have hpos := maxPadding_pos f
  have hcaller : ∀ b : GoStr,
      (if (f.ShowCaller && decide (entry.Level ≤ f.CallerLevel)) = true then
        Option.map (fun indent => b ++ ("\n".toList ++ indent ++ f.formatCallerInfo env entry))
          (strings.Repeat " ".toList f.prefixWidth)
      else some b) = some (b ++ f.callerSegment env entry) := by
    intro b
    unfold CustomFormatter.callerSegment
    split_ifs
    · rw [Repeat_space _ (by unfold CustomFormatter.prefixWidth; split_ifs <;> omega)]; rfl
    · simp
  unfold CustomFormatter.Format
  simp only [CustomFormatter.formatCommon, hdl, hmp, hlev, hpw, Option.bind_eq_bind,
    Option.some_bind, fields_builder, gutter_some]
  cases hfi : bracketRegex.FindStringIndex entry.Message with
  | none =>
    simp only [Option.pure_def, Option.some_bind, gutter_some, hcaller]
    simp only [CustomFormatter.line, CustomFormatter.lineHead, CustomFormatter.displayTag,
      CustomFormatter.gutter, tagInner, remainingMessage, hfi, CustomFormatter.formatCommon, hdl,
      Option.map_none', List.nil_append, List.append_nil]
  | some loc =>
    obtain ⟨h1, h2⟩ := findDelimited_bounds _ _ _ _ hfi
    have hst : (if (f.UseColors && f.ColorBrackets) = true then
          if f.TagStyle = StyleCenter ∨ f.TagStyle = StyleRight then
            f.coloredTagWithPadding (strings.Trim ((entry.Message.take loc.2).drop loc.1) "[]".toList)
              f.maxPadding f.TagStyle
          else some (ColorYellow ++ "[".toList ++
            strings.Trim ((entry.Message.take loc.2).drop loc.1) "[]".toList ++ "]".toList ++
            ColorReset)
        else if f.TagStyle = StyleCenter then
          f.centerTag (strings.Trim ((entry.Message.take loc.2).drop loc.1) "[]".toList) f.maxPadding
        else if f.TagStyle = StyleRight then
          f.rightPadTag (strings.Trim ((entry.Message.take loc.2).drop loc.1) "[]".toList) f.maxPadding
        else some ("[".toList ++
          strings.Trim ((entry.Message.take loc.2).drop loc.1) "[]".toList ++ "]".toList)) =
        f.styleTag (strings.Trim ((entry.Message.take loc.2).drop loc.1) "[]".toList) := rfl
    simp only [slice_eq _ _ _ (le_of_lt h1) h2, slice_eq _ 0 _ (Nat.zero_le _) (le_trans (le_of_lt h1) h2),
      slice_eq _ _ _ h2 (le_refl _), Option.some_bind, hst]
    rw [styleTag_eq]
    simp only [Option.pure_def, Option.some_bind, gutter_some, hcaller]
    simp only [CustomFormatter.line, CustomFormatter.lineHead, CustomFormatter.displayTag,
      CustomFormatter.gutter, tagInner, remainingMessage, hfi, CustomFormatter.formatCommon, hdl,
      Option.map_some', List.nil_append, List.drop_zero, List.take_length]
/-! ## The order on strings and `sort.Strings` -/

theorem strLess_irrefl (a : GoStr) : strLess a a = false := by
  induction a with
  | nil => rfl
  | cons c cs ih => simp [strLess, ih]

theorem strLe_total (a b : GoStr) : strLe a b ∨ strLe b a := by
  unfold strLe
  induction a generalizing b with
  | nil => cases b <;> simp [strLess]
  | cons c cs ih =>
    cases b with
    | nil => simp [strLess]
    | cons d ds =>
      simp only [strLess]
      rcases Nat.lt_trichotomy c.toNat d.toNat with h | h | h
      · left; rw [if_neg (by omega), if_pos h]
      · rw [if_neg (by omega), if_neg (by omega), if_neg (by omega), if_neg (by omega)]
        exact (ih ds).symm.symm
      · right; rw [if_neg (by omega), if_pos h]

theorem strLe_trans (a b c : GoStr) (hab : strLe a b) (hbc : strLe b c) : strLe a c := by
  unfold strLe at *
  induction a generalizing b c with
  | nil => cases c <;> simp [strLess]
  | cons x xs ih =>
    cases b with
    | nil => simp [strLess] at hab
    | cons y ys =>
      cases c with
      | nil => simp [strLess] at hbc
      | cons z zs =>
        simp only [strLess] at hab hbc ⊢
        split_ifs at hab hbc ⊢ <;> first
          | rfl
          | omega
          | exact ih ys zs hab hbc

theorem strLe_antisymm (a b : GoStr) (hab : strLe a b) (hba : strLe b a) : a = b := by
  unfold strLe at *
  induction a generalizing b with
  | nil => cases b with
    | nil => rfl
    | cons d ds => simp [strLess] at hba
  | cons c cs ih =>
    cases b with
    | nil => simp [strLess] at hab
    | cons d ds =>
      simp only [strLess] at hab hba
      split_ifs at hab hba with h1 h2
      have hcd : c = d := by
        apply Char.ext
        apply UInt32.ext
        show c.toNat = d.toNat
        omega
      rw [hcd, ih ds hab hba]

theorem strLess_of_strLe_of_ne (a b : GoStr) (h : strLe a b) (hne : a ≠ b) :
    strLess a b = true := by
  cases hl : strLess a b with
  | true => rfl
  | false => exact absurd (strLe_antisymm a b h hl) hne

theorem sort_perm (ks : List GoStr) : (sort.Strings ks).Perm ks :=
  List.perm_insertionSort strLe ks

theorem sort_sorted (ks : List GoStr) : (sort.Strings ks).Sorted strLe :=
  @List.sorted_insertionSort _ strLe _ ⟨strLe_total⟩ ⟨strLe_trans⟩ ks

theorem sort_eq_of_perm (ks ks' : List GoStr) (h : ks.Perm ks') :
    sort.Strings ks = sort.Strings ks' :=
  @List.eq_of_perm_of_sorted _ strLe ⟨strLe_antisymm⟩ _ _
    (((sort_perm ks).trans h).trans (sort_perm ks').symm) (sort_sorted ks) (sort_sorted ks')

theorem sort_strict (ks : List GoStr) (hnd : ks.Nodup) :
    (sort.Strings ks).Sorted (fun a b => strLess a b = true) := by
  have hs := sort_sorted ks
  have hn : (sort.Strings ks).Nodup := (sort_perm ks).nodup_iff.mpr hnd
  unfold List.Sorted at *
  unfold List.Nodup at hn
  exact (hs.and hn).imp (fun h => strLess_of_strLe_of_ne _ _ h.1 h.2)
/-! ## `appendFields` -/

theorem get_of_mem (d : Fields) (hnd : (d.map Prod.fst).Nodup) (p : GoStr × Value)
    (hp : p ∈ d) : d.get p.1 = some p.2 := by
  unfold Fields.get
  induction d with
  | nil => cases hp
  | cons q qs ih =>
    obtain ⟨k, v⟩ := q
    rw [List.map_cons, List.nodup_cons] at hnd
    rcases List.mem_cons.mp hp with h | h
    · subst h; simp [List.lookup]
    · have hne : p.1 ≠ k := by
        intro he
        have hmem : p.1 ∈ qs.map Prod.fst := List.mem_map.mpr ⟨p, h, rfl⟩
        rw [he] at hmem
        exact hnd.1 hmem
      rw [List.lookup_cons]
      have hb : (p.1 == k) = false := by simpa using hne
      rw [hb]
      exact ih hnd.2 h

theorem get_perm (d₁ d₂ : Fields) (hnd : (d₁.map Prod.fst).Nodup) (hperm : d₁.Perm d₂)
    (k : GoStr) : d₁.get k = d₂.get k := by
  have hnd₂ : (d₂.map Prod.fst).Nodup := (hperm.map Prod.fst).nodup_iff.mp hnd
  cases h₁ : d₁.get k with
  | some v =>
    have hm : (k, v) ∈ d₁ := by
      unfold Fields.get at h₁
      exact (List.lookup_eq_some_iff.mp h₁).elim fun l₁ h => by
        obtain ⟨l₂, rfl, -⟩ := h
        simp
    exact (get_of_mem d₂ hnd₂ (k, v) (hperm.subset hm)).symm
  | none =>
    cases h₂ : d₂.get k with
    | none => rfl
    | some v =>
      have hm : (k, v) ∈ d₂ := by
        unfold Fields.get at h₂
        exact (List.lookup_eq_some_iff.mp h₂).elim fun l₁ h => by
          obtain ⟨l₂, rfl, -⟩ := h
          simp
      have := get_of_mem d₁ hnd (k, v) (hperm.symm.subset hm)
      rw [h₁] at this
      cases this

theorem loop_congr (f : CustomFormatter) (d₁ d₂ : Fields) (h : ∀ k, d₁.get k = d₂.get k)
    (n i : Nat) (ks : List GoStr) (b : GoStr) :
    CustomFormatter.appendFields.loop f d₁ n i ks b =
      CustomFormatter.appendFields.loop f d₂ n i ks b := by
  induction ks generalizing i b with
  | nil => rfl
  | cons k ks ih =>
    simp only [CustomFormatter.appendFields.loop, h k]
    exact ih _ _

theorem appendFields_perm (f : CustomFormatter) (b : GoStr) (d₁ d₂ : Fields)
    (hnd : (d₁.map Prod.fst).Nodup) (hperm : d₁.Perm d₂) :
    f.appendFields b d₁ = f.appendFields b d₂ := by
  unfold CustomFormatter.appendFields
  simp only []
  rw [sort_eq_of_perm _ _ (hperm.map Prod.fst)]
  exact loop_congr f d₁ d₂ (get_perm d₁ d₂ hnd hperm) _ _ _ _

theorem fieldsSegment_perm (f : CustomFormatter) (d₁ d₂ : Fields)
    (hnd : (d₁.map Prod.fst).Nodup) (hperm : d₁.Perm d₂) :
    f.fieldsSegment d₁ = f.fieldsSegment d₂ := by
  unfold CustomFormatter.fieldsSegment
  rw [hperm.length_eq, appendFields_perm f [] d₁ d₂ hnd hperm]

theorem loop_eq_intercalate (f : CustomFormatter) (data : Fields) (n i : Nat)
    (ks : List GoStr) (hn : n = i + ks.length) :
    CustomFormatter.appendFields.loop f data n i ks [] =
      [' '].intercalate (ks.map fun k => f.fieldText k (data.get k)) := by
  induction ks generalizing i with
  | nil => rfl
  | cons k ks ih =>
    have hft : (if f.UseColors = true then
        ([] : GoStr) ++ (ColorVeryDimGray ++ k ++ "=".toList ++ ColorGray ++ fmt.v (data.get k) ++
          ColorReset)
      else [] ++ (k ++ "=".toList ++ fmt.v (data.get k))) = f.fieldText k (data.get k) := by
      unfold CustomFormatter.fieldText
      split_ifs <;> rfl
    simp only [CustomFormatter.appendFields.loop, hft]
    rw [appendFields_loop_builder, ih (i + 1) (by simp at hn; omega)]
    cases ks with
    | nil =>
      have : ¬ ((i : Int) < (n : Int) - 1) := by simp at hn; omega
      simp [this, List.intercalate]
    | cons k' ks' =>
      have : (i : Int) < (n : Int) - 1 := by simp at hn; omega
      simp [this, List.intercalate, List.append_assoc]

theorem filterMap_eq_self {α : Type} (g : α → Option α) (l : List α)
    (h : ∀ x ∈ l, g x = some x) : l.filterMap g = l := by
  induction l with
  | nil => rfl
  | cons a as ih =>
    rw [List.filterMap_cons, h a (List.mem_cons_self _ _)]
    simp only
    rw [ih (fun x hx => h x (List.mem_cons_of_mem _ hx))]

/-- The fields of a map in ascending key order: the sequence `appendFields` renders. -/
theorem appendFields_sorted (f : CustomFormatter) (b : GoStr) (d : Fields)
    (hnd : (d.map Prod.fst).Nodup) :
    ∃ ps : List (GoStr × Value), ps.Perm d ∧
      (ps.map Prod.fst).Sorted (fun a c => strLess a c = true) ∧
      f.appendFields b d =
        b ++ ' ' :: [' '].intercalate (ps.map fun p => f.fieldText p.1 (some p.2)) := by
  let g : GoStr → Option (GoStr × Value) := fun k => (d.get k).map fun v => (k, v)
  have hg : ∀ p ∈ d, g p.1 = some p := by
    intro p hp
    show (d.get p.1).map (fun v => (p.1, v)) = some p
    rw [get_of_mem d hnd p hp]
    rfl
  have hgk : ∀ k ∈ d.map Prod.fst, ∃ v, d.get k = some v := by
    intro k hk
    obtain ⟨p, hp, rfl⟩ := List.mem_map.mp hk
    exact ⟨p.2, get_of_mem d hnd p hp⟩
  have hmapfst : ∀ ks : List GoStr, (∀ k ∈ ks, ∃ v, d.get k = some v) →
      (ks.filterMap g).map Prod.fst = ks ∧
      (ks.filterMap g).map (fun p => f.fieldText p.1 (some p.2)) =
        ks.map (fun k => f.fieldText k (d.get k)) := by
    intro ks
    induction ks with
    | nil => intro _; exact ⟨rfl, rfl⟩
    | cons k ks ih =>
      intro h
      obtain ⟨v, hv⟩ := h k (List.mem_cons_self _ _)
      have ih' := ih (fun x hx => h x (List.mem_cons_of_mem _ hx))
      have hgk' : g k = some (k, v) := by
        show (d.get k).map (fun v => (k, v)) = some (k, v)
        rw [hv]; rfl
      rw [List.filterMap_cons, hgk']
      simp only [List.map_cons, ih'.1, ih'.2, hv, and_self]
  have hsk : ∀ k ∈ sort.Strings (d.map Prod.fst), ∃ v, d.get k = some v :=
    fun k hk => hgk k ((sort_perm _).subset hk)
  refine ⟨(sort.Strings (d.map Prod.fst)).filterMap g, ?_, ?_, ?_⟩
  · have h1 : ((sort.Strings (d.map Prod.fst)).filterMap g).Perm ((d.map Prod.fst).filterMap g) :=
      (sort_perm _).filterMap g
    have h2 : (d.map Prod.fst).filterMap g = d := by
      rw [List.filterMap_map]
      exact filterMap_eq_self _ d hg
    rw [h2] at h1
    exact h1
  · rw [(hmapfst _ hsk).1]
    exact sort_strict _ hnd
  · rw [(hmapfst _ hsk).2, appendFields_builder]
    unfold CustomFormatter.appendFields
    simp only []
    rw [appendFields_loop_builder, loop_eq_intercalate f d _ 0 _ (by simp)]
    simp
/-! ## Byte lengths -/

theorem len_nil : len [] = 0 := rfl

theorem len_append (a b : GoStr) : len (a ++ b) = len a + len b := by
  unfold len
  rw [List.map_append, List.sum_append]

theorem len_replicate_space (n : Nat) : len (List.replicate n ' ') = n := by
  induction n with
  | zero => rfl
  | succ n ih =>
    rw [List.replicate_succ]
    unfold len at *
    rw [List.map_cons, List.sum_cons, ih]
    have : Char.utf8Size ' ' = 1 := by decide
    omega

theorem len_displayLevel (entry : Entry) (h : entry.Level ≤ 6) : len (displayLevel entry) ≤ 6 := by
  unfold displayLevel
  have key : ∀ n : Nat, n ≤ 6 → n = 0 ∨ n = 1 ∨ n = 2 ∨ n = 3 ∨ n = 4 ∨ n = 5 ∨ n = 6 := by
    intro n hn; omega
  rcases key entry.Level h with h | h | h | h | h | h | h <;> rw [h] <;> decide

/-- With colors off the level field is seven bytes wide for every valid level. -/
theorem len_lineHead (f : CustomFormatter) (entry : Entry) (hc : f.UseColors = false)
    (ht : f.ShowTimestamp = false) (hl : entry.Level ≤ 6) : len (f.lineHead entry) = 7 := by
  have h := len_displayLevel entry hl
  unfold CustomFormatter.lineHead CustomFormatter.formatCommon
  simp only [hc, ht]
  simp only [Bool.false_eq_true, if_false, List.nil_append, List.append_nil, len_append,
    len_replicate_space]
  have : len " ".toList = 1 := by decide
  omega

theorem displayTag_of_no_tag (f : CustomFormatter) (message : GoStr)
    (h : tagInner message = none) : f.displayTag message = [] := by
  unfold CustomFormatter.displayTag
  rw [h]

theorem stripANSI_nil : stripANSI [] = [] := rfl

theorem len_cons (c : Char) (s : GoStr) : len (c :: s) = c.utf8Size + len s := by
  unfold len
  rw [List.map_cons, List.sum_cons]

theorem len_take_lt (s : GoStr) (a b : Nat) (hab : a < b) (hb : b ≤ s.length) :
    len (s.take a) < len (s.take b) := by
  induction s generalizing a b with
  | nil => simp at hb; omega
  | cons c cs ih =>
    cases b with
    | zero => omega
    | succ b =>
      have hpos := Char.utf8Size_pos c
      cases a with
      | zero =>
        rw [List.take_zero, List.take_succ_cons, len_cons, len_nil]
        omega
      | succ a =>
        rw [List.take_succ_cons, List.take_succ_cons, len_cons, len_cons]
        have := ih a b (by omega) (by simpa using hb)
        omega

/-- A text that starts with `c` does not stand at byte offset `n` of `out` when the
position of `out` at that byte offset holds another code point. -/
theorem not_startsAt (out text : GoStr) (c : Char) (n k : Nat) (hc : text.head? = some c)
    (hk : len (out.take k) = n) (hne : (out.drop k).head? ≠ some c) :
    ¬ startsAt out text n := by
  rintro ⟨pre, post, heq, hlen⟩
  cases text with
  | nil => cases hc
  | cons d ds =>
    simp only [List.head?_cons, Option.some.injEq] at hc
    subst hc
    have hpl : pre.length < out.length := by
      have := congrArg List.length heq
      simp at this
      omega
    have htake : out.take pre.length = pre := by
      rw [heq]
      simp [List.take_append_eq_append_take]
    have hm : len (out.take pre.length) = n := by rw [htake, hlen]
    have hkm : k = pre.length := by
      rcases Nat.lt_trichotomy k pre.length with h | h | h
      · have := len_take_lt out k pre.length h (le_of_lt hpl)
        omega
      · exact h
      · by_cases hko : k ≤ out.length
        · have := len_take_lt out pre.length k h hko
          omega
        · have h1 := len_take_lt out pre.length out.length hpl (le_refl _)
          rw [List.take_of_length_le (le_of_lt (not_le.mp hko))] at hk
          rw [List.take_length] at h1
          omega
    apply hne
    rw [hkm, heq]
    simp
/-! ## Decimal digits and the timestamp -/

theorem digitChar_cases (P : Char → Prop) (h0 : P '0') (h1 : P '1') (h2 : P '2') (h3 : P '3')
    (h4 : P '4') (h5 : P '5') (h6 : P '6') (h7 : P '7') (h8 : P '8') (h9 : P '9')
    (ha : P 'a') (hb : P 'b') (hc : P 'c') (hd : P 'd') (he : P 'e') (hf : P 'f')
    (hs : P '*') (k : Nat) : P (Nat.digitChar k) := by
  by_cases hk : k < 16
  · interval_cases k <;> assumption
  · have hstar : Nat.digitChar k = '*' := by
      unfold Nat.digitChar
      rw [if_neg (show ¬ k = 0 by omega), if_neg (show ¬ k = 1 by omega),
        if_neg (show ¬ k = 2 by omega), if_neg (show ¬ k = 3 by omega),
        if_neg (show ¬ k = 4 by omega), if_neg (show ¬ k = 5 by omega),
        if_neg (show ¬ k = 6 by omega), if_neg (show ¬ k = 7 by omega),
        if_neg (show ¬ k = 8 by omega), if_neg (show ¬ k = 9 by omega),
        if_neg (show ¬ k = 10 by omega), if_neg (show ¬ k = 11 by omega),
        if_neg (show ¬ k = 12 by omega), if_neg (show ¬ k = 13 by omega),
        if_neg (show ¬ k = 14 by omega), if_neg (show ¬ k = 15 by omega)]
    rw [hstar]
    exact hs

theorem toDigitsCore_forall (P : Char → Prop) (hP : ∀ k, P (Nat.digitChar k)) (b fuel n : Nat)
    (acc : List Char) (hacc : ∀ c ∈ acc, P c) : ∀ c ∈ Nat.toDigitsCore b fuel n acc, P c := by
  induction fuel generalizing n acc with
  | zero => simpa [Nat.toDigitsCore] using hacc
  | succ fuel ih =>
    have hcons : ∀ c ∈ Nat.digitChar (n % b) :: acc, P c := by
      intro c hc
      rcases List.mem_cons.mp hc with h | h
      · rw [h]; exact hP _
      · exact hacc c h
    simp only [Nat.toDigitsCore]
    split_ifs
    · exact hcons
    · exact ih _ _ hcons

theorem toDigits_forall (P : Char → Prop) (hP : ∀ k, P (Nat.digitChar k)) (b n : Nat) :
    ∀ c ∈ Nat.toDigits b n, P c :=
  toDigitsCore_forall P hP b _ n [] (fun _ h => absurd h (List.not_mem_nil _))

theorem len_eq_length_of_ascii (s : GoStr) (h : ∀ c ∈ s, c.utf8Size = 1) : len s = s.length := by
  induction s with
  | nil => rfl
  | cons c cs ih =>
    unfold len at *
    rw [List.map_cons, List.sum_cons, h c (List.mem_cons_self _ _),
      ih (fun x hx => h x (List.mem_cons_of_mem _ hx))]
    simp; omega

theorem digitChar_utf8Size (k : Nat) : (Nat.digitChar k).utf8Size = 1 :=
  digitChar_cases (fun c => c.utf8Size = 1) (by decide) (by decide) (by decide) (by decide)
    (by decide) (by decide) (by decide) (by decide) (by decide) (by decide) (by decide)
    (by decide) (by decide) (by decide) (by decide) (by decide) (by decide) k

theorem toDigits_length_pos (n : Nat) : 0 < (Nat.toDigits 10 n).length := by
  unfold Nat.toDigits
  simp only [Nat.toDigitsCore]
  split_ifs
  · simp
  · rw [Nat.toDigitsCore_lens_eq]; omega

theorem len_appendInt (x w : Nat) (hx : x < 10 ^ w) (hw : 0 < w) : len (Time.appendInt x w) = w := by
  have hl : (Nat.toDigits 10 x).length ≤ w :=
    Nat.toDigitsCore_length 10 (by decide) (x + 1) x w hx hw
  have hascii : ∀ c ∈ Time.appendInt x w, c.utf8Size = 1 := by
    intro c hc
    unfold Time.appendInt at hc
    rcases List.mem_append.mp hc with h | h
    · rw [List.eq_of_mem_replicate h]; decide
    · exact toDigits_forall (fun c => c.utf8Size = 1) digitChar_utf8Size 10 x c h
  rw [len_eq_length_of_ascii _ hascii]
  unfold Time.appendInt
  simp only [List.length_append, List.length_replicate]
  omega

/-- The timestamp text is 19 bytes long for a year of at most four digits. -/
theorem len_Time_Format (t : Time) (hy : t.year ≤ 9999) : len t.Format = 19 := by
  unfold Time.Format
  have h1 : len "-".toList = 1 := by decide
  have h2 : len " ".toList = 1 := by decide
  have h3 : len ":".toList = 1 := by decide
  have hmo := t.month.isLt
  have hd := t.day.isLt
  have hh := t.hour.isLt
  have hmi := t.minute.isLt
  have hs := t.second.isLt
  simp only [len_append, h1, h2, h3]
  rw [len_appendInt t.year 4 (by norm_num; omega) (by decide),
    len_appendInt (t.month.val + 1) 2 (by norm_num; omega) (by decide),
    len_appendInt (t.day.val + 1) 2 (by norm_num; omega) (by decide),
    len_appendInt t.hour.val 2 (by norm_num; omega) (by decide),
    len_appendInt t.minute.val 2 (by norm_num; omega) (by decide),
    len_appendInt t.second.val 2 (by norm_num; omega) (by decide)]

/-- With colors off, the timestamp (when shown, for a four-digit year) takes 22 bytes and
the level field seven. -/
theorem len_lineHead_timestamp (f : CustomFormatter) (entry : Entry) (hc : f.UseColors = false)
    (hl : entry.Level ≤ 6) (hy : f.ShowTimestamp = true → entry.Time.year ≤ 9999) :
    len (f.lineHead entry) = (if f.ShowTimestamp then 22 else 0) + 7 := by
  have h := len_displayLevel entry hl
  have hsp : len " ".toList = 1 := by decide
  have hb1 : len "[".toList = 1 := by decide
  have hb2 : len "] ".toList = 2 := by decide
  unfold CustomFormatter.lineHead CustomFormatter.formatCommon
  simp only [hc]
  cases ht : f.ShowTimestamp with
  | false =>
    simp only [Bool.false_eq_true, if_false, List.nil_append, List.append_nil, len_append,
      len_replicate_space, hsp]
    omega
  | true =>
    have hts := len_Time_Format entry.Time (hy ht)
    simp only [Bool.false_eq_true, if_false, if_true, List.nil_append, List.append_nil,
      len_append, len_replicate_space, hsp, hb1, hb2, hts]
    omega
/-! ## The alphabet of the output

Every code point of the formatted line comes from the message, the fields, the fill
string or the caller segment, or belongs to the fixed text: printable ASCII, the newline
and, with colors on, the escape character. -/

theorem forall_color (P : Char → Prop) (hplain : ∀ c, isPlain c = true → P c) (hesc : P ESC)
    (col : GoStr) (hcol : ∀ c ∈ col, c = ESC ∨ isPlain c = true) : ∀ c ∈ col, P c := by
  intro c hc
  rcases hcol c hc with h | h
  · rw [h]; exact hesc
  · exact hplain c h

theorem forall_plain (P : Char → Prop) (hplain : ∀ c, isPlain c = true → P c)
    (s : GoStr) (hs : ∀ c ∈ s, isPlain c = true) : ∀ c ∈ s, P c :=
  fun c hc => hplain c (hs c hc)

theorem forall_replicate (P : Char → Prop) (c : Char) (n : Nat) (h : P c) :
    ∀ x ∈ List.replicate n c, P x := by
  intro x hx
  rw [List.eq_of_mem_replicate hx]
  exact h

theorem forall_Repeat (P : Char → Prop) (s r : GoStr) (n : Int) (h : ∀ c ∈ s, P c)
    (hr : strings.Repeat s n = some r) : ∀ c ∈ r, P c := by
  unfold strings.Repeat at hr
  split_ifs at hr
  simp only [Option.some.injEq] at hr
  subst hr
  intro c hc
  obtain ⟨l, hl, hcl⟩ := List.mem_flatten.mp hc
  rw [List.eq_of_mem_replicate hl] at hcl
  exact h c hcl

theorem forall_Trim (P : Char → Prop) (s cutset : GoStr) (h : ∀ c ∈ s, P c) :
    ∀ c ∈ strings.Trim s cutset, P c := by
  intro c hc
  unfold strings.Trim at hc
  exact h c ((List.dropWhile_suffix _).subset ((List.rdropWhile_prefix _ _).subset hc))

theorem forall_TrimSpace (P : Char → Prop) (s : GoStr) (h : ∀ c ∈ s, P c) :
    ∀ c ∈ strings.TrimSpace s, P c := by
  intro c hc
  unfold strings.TrimSpace at hc
  exact h c ((List.dropWhile_suffix _).subset ((List.rdropWhile_prefix _ _).subset hc))

theorem forall_tagInner (P : Char → Prop) (message inner : GoStr) (h : ∀ c ∈ message, P c)
    (hi : tagInner message = some inner) : ∀ c ∈ inner, P c := by
  unfold tagInner at hi
  obtain ⟨loc, -, rfl⟩ := Option.map_eq_some'.mp hi
  exact forall_Trim P _ _ (fun c hc => h c (List.mem_of_mem_take (List.mem_of_mem_drop hc)))

theorem forall_remainingMessage (P : Char → Prop) (message : GoStr) (h : ∀ c ∈ message, P c) :
    ∀ c ∈ remainingMessage message, P c := by
  unfold remainingMessage
  split
  · apply forall_TrimSpace
    intro c hc
    rcases List.mem_append.mp hc with h1 | h1
    · exact h c (List.mem_of_mem_take h1)
    · exact h c (List.mem_of_mem_drop h1)
  · exact h

theorem forall_toDigits (P : Char → Prop) (hplain : ∀ c, isPlain c = true → P c) (n : Nat) :
    ∀ c ∈ Nat.toDigits 10 n, P c :=
  toDigits_forall P (fun k => hplain _ (digitChar_cases (fun c => isPlain c = true)
    (by decide) (by decide) (by decide) (by decide) (by decide) (by decide) (by decide)
    (by decide) (by decide) (by decide) (by decide) (by decide) (by decide) (by decide)
    (by decide) (by decide) (by decide) k)) 10 n

theorem forall_appendInt (P : Char → Prop) (hplain : ∀ c, isPlain c = true → P c) (x w : Nat) :
    ∀ c ∈ Time.appendInt x w, P c := by
  unfold Time.appendInt
  simp only [List.forall_mem_append]
  exact ⟨forall_replicate P _ _ (hplain _ (by decide)), forall_toDigits P hplain x⟩

theorem forall_Time_Format (P : Char → Prop) (hplain : ∀ c, isPlain c = true → P c) (t : Time) :
    ∀ c ∈ t.Format, P c := by
  unfold Time.Format
  have h1 := forall_plain P hplain "-".toList (by decide)
  have h2 := forall_plain P hplain " ".toList (by decide)
  have h3 := forall_plain P hplain ":".toList (by decide)
  simp only [List.forall_mem_append]
  exact ⟨⟨⟨⟨⟨⟨⟨⟨⟨⟨forall_appendInt P hplain _ _, h1⟩, forall_appendInt P hplain _ _⟩, h1⟩,
    forall_appendInt P hplain _ _⟩, h2⟩, forall_appendInt P hplain _ _⟩, h3⟩,
    forall_appendInt P hplain _ _⟩, h3⟩, forall_appendInt P hplain _ _⟩

theorem forall_fmt_d (P : Char → Prop) (hplain : ∀ c, isPlain c = true → P c) (i : Int) :
    ∀ c ∈ fmt.d i, P c := by
  unfold fmt.d
  split_ifs
  · intro c hc
    rcases List.mem_cons.mp hc with h | h
    · rw [h]; exact hplain _ (by decide)
    · exact forall_toDigits P hplain _ c h
  · exact forall_toDigits P hplain _

theorem Level_String_unknown (n : Nat) (h : 6 < n) : Level.String n = "unknown".toList := by
  obtain ⟨k, rfl⟩ : ∃ k, n = k + 7 := ⟨n - 7, by omega⟩
  rfl

theorem displayLevel_plain (entry : Entry) : ∀ c ∈ displayLevel entry, isPlain c = true := by
  unfold displayLevel
  by_cases h : entry.Level ≤ 6
  · have key : ∀ n : Nat, n ≤ 6 → n = 0 ∨ n = 1 ∨ n = 2 ∨ n = 3 ∨ n = 4 ∨ n = 5 ∨ n = 6 := by
      intro n hn; omega
    rcases key entry.Level h with h | h | h | h | h | h | h <;> rw [h] <;> decide
  · rw [Level_String_unknown _ (not_le.mp h)]
    decide

theorem forall_lineHead (P : Char → Prop) (f : CustomFormatter) (entry : Entry)
    (hplain : ∀ c, isPlain c = true → P c) (hesc : f.UseColors = true → P ESC) :
    ∀ c ∈ f.lineHead entry, P c := by
  have hb1 := forall_plain P hplain "[".toList (by decide)
  have hb2 := forall_plain P hplain "] ".toList (by decide)
  have hsp := forall_plain P hplain " ".toList (by decide)
  have hlv := forall_plain P hplain _ (displayLevel_plain entry)
  have hpad := forall_replicate P ' ' (6 - len (displayLevel entry)) (hplain _ (by decide))
  have hts := forall_Time_Format P hplain entry.Time
  have hnil : ∀ c ∈ ([] : GoStr), P c := fun _ h => absurd h (List.not_mem_nil _)
  unfold CustomFormatter.lineHead CustomFormatter.formatCommon
  simp only [List.forall_mem_append]
  refine ⟨⟨?_, ?_, hlv⟩, ⟨hpad, ?_⟩, hsp⟩
  · split_ifs
    · simp only [List.forall_mem_append]
      exact ⟨⟨hb1, hts⟩, hb2⟩
    · exact hnil
  · split_ifs with hc
    · have he := hesc hc
      split
      all_goals exact forall_color P hplain he _ (by decide)
    · exact hnil
  · split_ifs with hc
    · exact forall_color P hplain (hesc hc) _ (by decide)
    · exact hnil

theorem forall_coloredTag (P : Char → Prop) (f : CustomFormatter) (inner t : GoStr) (W : Int)
    (style : TagStyle) (hplain : ∀ c, isPlain c = true → P c) (hesc : P ESC)
    (hfill : ∀ c ∈ f.fill, P c) (hinner : ∀ c ∈ inner, P c)
    (ht : f.coloredTagWithPadding inner W style = some t) : ∀ c ∈ t, P c := by
  have hb1 := forall_plain P hplain "[".toList (by decide)
  have hb2 := forall_plain P hplain "]".toList (by decide)
  have hc1 : ∀ c ∈ ['['], P c := hb1
  have hc2 : ∀ c ∈ [']'], P c := hb2
  have hc3 : ∀ c ∈ [' '], P c := forall_plain P hplain " ".toList (by decide)
  have hy := forall_color P hplain hesc ColorYellow (by decide)
  have hd := forall_color P hplain hesc ColorVeryDimGray (by decide)
  have hr := forall_color P hplain hesc ColorReset (by decide)
  have hfill' : ∀ c ∈ (if f.PaddingChar = [] then "•".toList else f.PaddingChar), P c := hfill
  have hplainTag : ∀ c ∈ ColorYellow ++ "[".toList ++ inner ++ "]".toList ++ ColorReset, P c := by
    simp only [List.forall_mem_append]
    exact ⟨⟨⟨⟨hy, hb1⟩, hinner⟩, hb2⟩, hr⟩
  unfold CustomFormatter.coloredTagWithPadding at ht
  simp only [] at ht
  by_cases hsc : style = StyleCenter
  · rw [if_pos hsc] at ht
    by_cases hlen : (len inner : Int) ≥ W - 2 - 2
    · rw [if_pos hlen] at ht
      simp only [Option.some.injEq] at ht
      subst ht
      exact hplainTag
    · rw [if_neg hlen] at ht
      obtain ⟨l, hl, ht⟩ := Option.bind_eq_some.mp ht
      obtain ⟨r, hrr, ht⟩ := Option.bind_eq_some.mp ht
      simp only [Option.some.injEq] at ht
      subst ht
      have hleft := forall_Repeat P _ _ _ hfill' hl
      have hright := forall_Repeat P _ _ _ hfill' hrr
      simp only [List.forall_mem_append]
      repeat' apply And.intro
      all_goals assumption
  · rw [if_neg hsc] at ht
    by_cases hsr : style = StyleRight
    · rw [if_pos hsr] at ht
      by_cases hlen : (len inner : Int) ≥ W - 2 - 1
      · rw [if_pos hlen] at ht
        simp only [Option.some.injEq] at ht
        subst ht
        exact hplainTag
      · rw [if_neg hlen] at ht
        obtain ⟨l, hl, ht⟩ := Option.bind_eq_some.mp ht
        simp only [Option.some.injEq] at ht
        subst ht
        have hleft := forall_Repeat P _ _ _ hfill' hl
        simp only [List.forall_mem_append]
        repeat' apply And.intro
        all_goals assumption
    · rw [if_neg hsr] at ht
      simp only [Option.some.injEq] at ht
      subst ht
      exact hplainTag

theorem forall_styleTag (P : Char → Prop) (f : CustomFormatter) (inner t : GoStr)
    (hplain : ∀ c, isPlain c = true → P c) (hesc : f.UseColors = true → P ESC)
    (hfill : ∀ c ∈ f.fill, P c) (hinner : ∀ c ∈ inner, P c) (ht : f.styleTag inner = some t) :
    ∀ c ∈ t, P c := by
  have hb1 := forall_plain P hplain "[".toList (by decide)
  have hb2 := forall_plain P hplain "]".toList (by decide)
  have hsp := forall_plain P hplain " ".toList (by decide)
  have hrep : ∀ n : Nat, ∀ c ∈ (List.replicate n f.fill).flatten, P c := by
    intro n c hc
    obtain ⟨l, hl, hcl⟩ := List.mem_flatten.mp hc
    rw [List.eq_of_mem_replicate hl] at hcl
    exact hfill c hcl
  have hplainTag : ∀ c ∈ "[".toList ++ inner ++ "]".toList, P c := by
    simp only [List.forall_mem_append]
    exact ⟨⟨hb1, hinner⟩, hb2⟩
  unfold CustomFormatter.styleTag at ht
  by_cases hcol : (f.UseColors && f.ColorBrackets) = true
  · have huse : f.UseColors = true := by
      cases hu : f.UseColors with
      | true => rfl
      | false => rw [hu] at hcol; cases hcol
    have he := hesc huse
    rw [if_pos hcol] at ht
    by_cases hst : f.TagStyle = StyleCenter ∨ f.TagStyle = StyleRight
    · rw [if_pos hst] at ht
      exact forall_coloredTag P f inner t _ _ hplain he hfill hinner ht
    · rw [if_neg hst] at ht
      simp only [Option.some.injEq] at ht
      subst ht
      simp only [List.forall_mem_append]
      exact ⟨⟨⟨⟨forall_color P hplain he ColorYellow (by decide), hb1⟩, hinner⟩, hb2⟩,
        forall_color P hplain he ColorReset (by decide)⟩
  · rw [if_neg hcol] at ht
    by_cases hsc : f.TagStyle = StyleCenter
    · rw [if_pos hsc, centerTag_eq] at ht
      simp only [Option.some.injEq] at ht
      subst ht
      split_ifs
      · exact hplainTag
      · simp only [List.forall_mem_append]
        exact ⟨⟨⟨⟨⟨⟨hb1, hrep _⟩, hsp⟩, hinner⟩, hsp⟩, hrep _⟩, hb2⟩
    · rw [if_neg hsc] at ht
      by_cases hsr : f.TagStyle = StyleRight
      · rw [if_pos hsr, rightPadTag_eq] at ht
        simp only [Option.some.injEq] at ht
        subst ht
        split_ifs
        · exact hplainTag
        · simp only [List.forall_mem_append]
          exact ⟨⟨⟨⟨hb1, hinner⟩, hb2⟩, hrep _⟩, hsp⟩
      · rw [if_neg hsr] at ht
        simp only [Option.some.injEq] at ht
        subst ht
        exact hplainTag

theorem forall_displayTag (P : Char → Prop) (f : CustomFormatter) (message : GoStr)
    (hplain : ∀ c, isPlain c = true → P c) (hesc : f.UseColors = true → P ESC)
    (hfill : ∀ c ∈ f.fill, P c) (hmsg : ∀ c ∈ message, P c) :
    ∀ c ∈ f.displayTag message, P c := by
  unfold CustomFormatter.displayTag
  cases hi : tagInner message with
  | none => exact fun _ h => absurd h (List.not_mem_nil _)
  | some inner =>
    simp only []
    have hs := styleTag_eq f inner
    exact forall_styleTag P f inner _ hplain hesc hfill (forall_tagInner P _ _ hmsg hi) hs

theorem forall_fieldText (P : Char → Prop) (f : CustomFormatter) (data : Fields) (k : GoStr)
    (hplain : ∀ c, isPlain c = true → P c) (hesc : f.UseColors = true → P ESC)
    (hdata : ∀ p ∈ data, (∀ c ∈ p.1, P c) ∧ (∀ c ∈ fmt.v (some p.2), P c))
    (hk : k ∈ data.map Prod.fst) : ∀ c ∈ f.fieldText k (data.get k), P c := by
  have heq := forall_plain P hplain "=".toList (by decide)
  have hkey : ∀ c ∈ k, P c := by
    obtain ⟨p, hp, rfl⟩ := List.mem_map.mp hk
    exact (hdata p hp).1
  have hval : ∀ c ∈ fmt.v (data.get k), P c := by
    cases hg : data.get k with
    | none => exact forall_plain P hplain _ (by decide)
    | some v =>
      have hm : (k, v) ∈ data := by
        unfold Fields.get at hg
        obtain ⟨l₁, l₂, rfl, -⟩ := List.lookup_eq_some_iff.mp hg
        simp
      exact (hdata (k, v) hm).2
  unfold CustomFormatter.fieldText
  split_ifs with hc
  · have he := hesc hc
    have hd := forall_color P hplain he ColorVeryDimGray (by decide)
    have hg := forall_color P hplain he ColorGray (by decide)
    have hr := forall_color P hplain he ColorReset (by decide)
    simp only [List.forall_mem_append]
    exact ⟨⟨⟨⟨⟨hd, hkey⟩, heq⟩, hg⟩, hval⟩, hr⟩
  · simp only [List.forall_mem_append]
    exact ⟨⟨hkey, heq⟩, hval⟩

theorem forall_loop (P : Char → Prop) (f : CustomFormatter) (data : Fields) (n : Nat)
    (hsp : P ' ') (i : Nat) (ks : List GoStr) (b : GoStr) (hb : ∀ c ∈ b, P c)
    (hks : ∀ k ∈ ks, ∀ c ∈ f.fieldText k (data.get k), P c) :
    ∀ c ∈ CustomFormatter.appendFields.loop f data n i ks b, P c := by
  induction ks generalizing i b with
  | nil => exact hb
  | cons k ks ih =>
    have hft : (if f.UseColors = true then
        b ++ (ColorVeryDimGray ++ k ++ "=".toList ++ ColorGray ++ fmt.v (data.get k) ++ ColorReset)
      else b ++ (k ++ "=".toList ++ fmt.v (data.get k))) = b ++ f.fieldText k (data.get k) := by
      unfold CustomFormatter.fieldText
      split_ifs <;> rfl
    simp only [CustomFormatter.appendFields.loop, hft]
    apply ih
    · have h1 := hks k (List.mem_cons_self _ _)
      have h2 : ∀ c ∈ [' '], P c := fun c hc => by rw [List.mem_singleton.mp hc]; exact hsp
      split_ifs
      · simp only [List.forall_mem_append]
        exact ⟨⟨hb, h1⟩, h2⟩
      · simp only [List.forall_mem_append]
        exact ⟨hb, h1⟩
    · exact fun x hx => hks x (List.mem_cons_of_mem _ hx)

theorem forall_fieldsSegment (P : Char → Prop) (f : CustomFormatter) (data : Fields)
    (hplain : ∀ c, isPlain c = true → P c) (hesc : f.UseColors = true → P ESC)
    (hdata : ∀ p ∈ data, (∀ c ∈ p.1, P c) ∧ (∀ c ∈ fmt.v (some p.2), P c)) :
    ∀ c ∈ f.fieldsSegment data, P c := by
  have hsp : P ' ' := hplain _ (by decide)
  unfold CustomFormatter.fieldsSegment
  split_ifs
  · unfold CustomFormatter.appendFields
    apply forall_loop P f data _ hsp
    · intro c hc
      rw [List.nil_append, List.mem_singleton] at hc
      rw [hc]; exact hsp
    · intro k hk
      exact forall_fieldText P f data k hplain hesc hdata ((sort_perm _).subset hk)
  · exact fun _ h => absurd h (List.not_mem_nil _)

/-- Every code point of the formatted line satisfies `P`, provided the fixed text, the
message, the fields, the fill string and the caller segment do. -/
theorem forall_line (P : Char → Prop) (f : CustomFormatter) (env : Env) (entry : Entry)
    (hplain : ∀ c, isPlain c = true → P c) (hesc : f.UseColors = true → P ESC)
    (hfill : ∀ c ∈ f.fill, P c) (hmsg : ∀ c ∈ entry.Message, P c)
    (hdata : ∀ p ∈ entry.Data, (∀ c ∈ p.1, P c) ∧ (∀ c ∈ fmt.v (some p.2), P c))
    (hcaller : ∀ c ∈ f.callerSegment env entry, P c) : ∀ c ∈ f.line env entry, P c := by
  have h1 := forall_lineHead P f entry hplain hesc
  have h2 := forall_displayTag P f entry.Message hplain hesc hfill hmsg
  have h3 : ∀ c ∈ f.gutter entry.Message, P c := forall_replicate P _ _ (hplain _ (by decide))
  have h4 : ∀ c ∈ [' '], P c :=
    fun c hc => by rw [List.mem_singleton.mp hc]; exact hplain _ (by decide)
  have h5 := forall_remainingMessage P _ hmsg
  have h6 := forall_fieldsSegment P f entry.Data hplain hesc hdata
  have h7 : ∀ c ∈ ['\n'], P c :=
    fun c hc => by rw [List.mem_singleton.mp hc]; exact hplain _ (by decide)
  unfold CustomFormatter.line
  simp only [List.forall_mem_append]
  exact ⟨⟨⟨⟨⟨⟨⟨h1, h2⟩, h3⟩, h4⟩, h5⟩, h6⟩, hcaller⟩, h7⟩
/-! ## `stripANSI` -/

theorem stripANSI_go_cons_ne (c : Char) (s : GoStr) (h : c ≠ ESC) :
    stripANSI.go 0 (c :: s) = c :: stripANSI.go 0 s := by
  cases s with
  | nil => rw [stripANSI.go.eq_4 _ _ (by intro t ht; cases ht)]; simp
  | cons d t =>
    by_cases hd : d = '['
    · subst hd
      rw [stripANSI.go.eq_3, if_neg h]
    · rw [stripANSI.go.eq_4 _ _ (by intro u hu; cases hu; exact hd rfl)]
      simp

theorem stripANSI_append_noesc (s t : GoStr) (h : ESC ∉ s) :
    stripANSI (s ++ t) = s ++ stripANSI t := by
  unfold stripANSI
  induction s with
  | nil => rfl
  | cons c cs ih =>
    have hc : c ≠ ESC := fun e => h (e ▸ List.mem_cons_self _ _)
    rw [List.cons_append, stripANSI_go_cons_ne _ _ hc,
      ih (fun hm => h (List.mem_cons_of_mem _ hm))]
    rfl

theorem stripANSI_noesc (s : GoStr) (h : ESC ∉ s) : stripANSI s = s := by
  have := stripANSI_append_noesc s [] h
  rwa [List.append_nil, stripANSI_nil, List.append_nil] at this

theorem stripANSI_ColorYellow (t : GoStr) : stripANSI (ColorYellow ++ t) = stripANSI t := rfl

theorem stripANSI_ColorReset (t : GoStr) : stripANSI (ColorReset ++ t) = stripANSI t := rfl

theorem stripANSI_ColorVeryDimGray (t : GoStr) :
    stripANSI (ColorVeryDimGray ++ t) = stripANSI t := rfl

theorem len_brackets (inner : GoStr) : len ("[".toList ++ inner ++ "]".toList) = len inner + 2 := by
  rw [len_append, len_append]
  have h1 : len "[".toList = 1 := by decide
  have h2 : len "]".toList = 1 := by decide
  omega

theorem formatCallerInfo_eq (f : CustomFormatter) (env : Env) (entry : Entry) (caller : Frame)
    (h : entry.Caller = some caller) :
    f.formatCallerInfo env entry =
      if f.UseColors = true then
        parenthesesRegex.ReplaceAllStringFunc
          ("└─ at (".toList ++ f.callerPath env caller ++ ":".toList ++ fmt.d caller.Line ++
            ")".toList)
          (fun bracketed => ColorVeryDimGray ++ bracketed ++ ColorReset)
      else "└─ at (".toList ++ f.callerPath env caller ++ ":".toList ++ fmt.d caller.Line ++
        ")".toList := by
  unfold CustomFormatter.formatCallerInfo CustomFormatter.callerPath
  rw [h]

/-- With colors off, the caller segment carries `P` when the displayed path does. -/
theorem forall_callerSegment_plain (P : Char → Prop) (f : CustomFormatter) (env : Env)
    (entry : Entry) (hc : f.UseColors = false) (hplain : ∀ c, isPlain c = true → P c)
    (h1 : P '└') (h2 : P '─')
    (hpath : ∀ caller, entry.Caller = some caller → ∀ c ∈ f.callerPath env caller, P c) :
    ∀ c ∈ f.callerSegment env entry, P c := by
  have hnl := forall_plain P hplain "\n".toList (by decide)
  have hsp : ∀ n : Nat, ∀ c ∈ List.replicate n ' ', P c :=
    fun n => forall_replicate P ' ' n (hplain _ (by decide))
  unfold CustomFormatter.callerSegment
  split_ifs
  · have hinfo : ∀ c ∈ f.formatCallerInfo env entry, P c := by
      cases hcl : entry.Caller with
      | none =>
        have : f.formatCallerInfo env entry = [] := by
          unfold CustomFormatter.formatCallerInfo
          rw [hcl]
        rw [this]
        exact fun _ h => absurd h (List.not_mem_nil _)
      | some caller =>
        rw [formatCallerInfo_eq f env entry caller hcl, hc]
        simp only [Bool.false_eq_true, if_false]
        have hmark : ∀ c ∈ "└─ at (".toList, P c := by
          intro c hm
          have hcases : c = '└' ∨ c = '─' ∨ isPlain c = true := by
            revert c
            decide
          rcases hcases with h | h | h
          · rw [h]; exact h1
          · rw [h]; exact h2
          · exact hplain c h
        have hcolon := forall_plain P hplain ":".toList (by decide)
        have hclose := forall_plain P hplain ")".toList (by decide)
        have hline := forall_fmt_d P hplain caller.Line
        have hp := hpath caller hcl
        simp only [List.forall_mem_append]
        exact ⟨⟨⟨⟨hmark, hp⟩, hcolon⟩, hline⟩, hclose⟩
    simp only [List.forall_mem_append]
    exact ⟨⟨hnl, hsp _⟩, hinfo⟩
  · exact fun _ h => absurd h (List.not_mem_nil _)

/-- The uncolored tag styles read the formatter only through its width and fill string. -/
theorem styleTag_uncolored (f g : CustomFormatter) (inner : GoStr)
    (hf : (f.UseColors && f.ColorBrackets) = false) (hg : (g.UseColors && g.ColorBrackets) = false)
    (hw : f.BracketPadding = g.BracketPadding) (hst : f.TagStyle = g.TagStyle)
    (hp : f.PaddingChar = g.PaddingChar) : f.styleTag inner = g.styleTag inner := by
  have hmp : f.maxPadding = g.maxPadding := by
    unfold CustomFormatter.maxPadding
    rw [hw]
  have hfill : f.fill = g.fill := by
    unfold CustomFormatter.fill
    rw [hp]
  unfold CustomFormatter.styleTag
  rw [hf, hg, centerTag_eq, centerTag_eq, rightPadTag_eq, rightPadTag_eq, hmp, hfill, hst]
  simp only [Bool.false_eq_true, if_false]

/-! ## The head of the line: timestamp and level segments -/

theorem lineHead_eq (f : CustomFormatter) (entry : Entry) :
    f.lineHead entry = f.timestampSegment entry ++ f.levelSegment entry := by
  unfold CustomFormatter.lineHead CustomFormatter.timestampSegment CustomFormatter.levelSegment
  rw [List.append_assoc]

/-- The level segment depends on the formatter through `UseColors` and on the entry
through its level only; all levels above 6 behave as level 7. -/
theorem levelSegment_sample (f : CustomFormatter) (entry : Entry) :
    ∃ n : Nat, n ≤ 7 ∧ (entry.Level ≤ 6 → n = entry.Level) ∧ (6 < entry.Level → n = 7) ∧
      f.levelSegment entry = (Sample.withColors f.UseColors).levelSegment (Sample.atLevel n) ∧
      displayLevel entry = displayLevel (Sample.atLevel n) ∧
      (f.formatCommon entry).2.2.2.1 =
        ((Sample.withColors f.UseColors).formatCommon (Sample.atLevel n)).2.2.2.1 := by
  by_cases h : entry.Level ≤ 6
  · refine ⟨entry.Level, Nat.le_succ_of_le h, fun _ => rfl,
      fun h6 => absurd h6 (Nat.not_lt.mpr h), ?_, ?_, ?_⟩
    · simp only [CustomFormatter.levelSegment, CustomFormatter.formatCommon, displayLevel,
        Sample.withColors, Sample.atLevel]
    · simp only [displayLevel, Sample.atLevel]
    · simp only [CustomFormatter.formatCommon, Sample.withColors, Sample.atLevel]
  · obtain ⟨k, hk⟩ : ∃ k, entry.Level = k + 7 :=
      ⟨entry.Level - 7, (Nat.sub_add_cancel (Nat.lt_of_not_le h)).symm⟩
    have hstr : Level.String (k + 7) = Level.String 7 := rfl
    refine ⟨7, le_refl _, fun h6 => absurd h6 h, fun _ => rfl, ?_, ?_, ?_⟩
    · simp only [CustomFormatter.levelSegment, CustomFormatter.formatCommon, displayLevel,
        Sample.withColors, Sample.atLevel, hk, hstr]
    · simp only [displayLevel, Sample.atLevel, hk, hstr]
    · simp only [CustomFormatter.formatCommon, Sample.withColors, Sample.atLevel, hk]

/-- `Format` as timestamp segment, level segment and the rest of the line. -/
theorem Format_head (f : CustomFormatter) (env : Env) (entry : Entry) :
    f.Format env entry = some (
      f.timestampSegment entry ++ f.levelSegment entry ++
      (f.displayTag entry.Message ++ f.gutter entry.Message ++ [' '] ++
        remainingMessage entry.Message ++ f.fieldsSegment entry.Data ++
        f.callerSegment env entry ++ ['\n']), none) := by
  rw [Format_eq]
  unfold CustomFormatter.line
  rw [lineHead_eq]
  simp only [List.append_assoc]
/-! ## The bracket pattern: what `FindStringIndex` finds -/

theorem lazyUntil_of_split (close : Char) (mid post : GoStr) (h1 : close ∉ mid)
    (h2 : '\n' ∉ mid) : lazyUntil close (mid ++ close :: post) = some mid.length := by
  induction mid with
  | nil => simp [lazyUntil]
  | cons c cs ih =>
    have hc1 : c ≠ close := fun e => h1 (e ▸ List.mem_cons_self _ _)
    have hc2 : c ≠ '\n' := fun e => h2 (e ▸ List.mem_cons_self _ _)
    rw [List.cons_append, lazyUntil, if_neg hc1, if_neg hc2,
      ih (fun hm => h1 (List.mem_cons_of_mem _ hm)) (fun hm => h2 (List.mem_cons_of_mem _ hm))]
    rfl

theorem lazyUntil_split (close : Char) (s : GoStr) (k : Nat) (h : lazyUntil close s = some k) :
    ∃ mid post : GoStr, s = mid ++ close :: post ∧ mid.length = k ∧ close ∉ mid ∧ '\n' ∉ mid := by
  induction s generalizing k with
  | nil => simp [lazyUntil] at h
  | cons c cs ih =>
    unfold lazyUntil at h
    split_ifs at h with h1 h2
    · simp only [Option.some.injEq] at h
      exact ⟨[], cs, by rw [h1]; rfl, h, List.not_mem_nil _, List.not_mem_nil _⟩
    · obtain ⟨j, hj, rfl⟩ := Option.map_eq_some'.mp h
      obtain ⟨mid, post, hs, hlen, hm1, hm2⟩ := ih j hj
      refine ⟨c :: mid, post, by rw [hs]; rfl, by simp [hlen], ?_, ?_⟩
      · intro hm
        rcases List.mem_cons.mp hm with e | e
        · exact h1 e.symm
        · exact hm1 e
      · intro hm
        rcases List.mem_cons.mp hm with e | e
        · exact h2 e.symm
        · exact hm2 e

theorem findDelimited_none (lb rb : Char) (s : GoStr) (h : findDelimited lb rb s = none)
    (pre mid post : GoStr) (hs : s = pre ++ lb :: mid ++ rb :: post) (h1 : rb ∉ mid)
    (h2 : '\n' ∉ mid) : False := by
  induction s generalizing pre with
  | nil =>
    have := congrArg List.length hs
    simp at this
    omega
  | cons c cs ih =>
    unfold findDelimited at h
    cases pre with
    | nil =>
      simp only [List.nil_append, List.cons_append, List.cons.injEq] at hs
      obtain ⟨hc, hcs⟩ := hs
      rw [if_pos hc, hcs, lazyUntil_of_split rb mid post h1 h2] at h
      cases h
    | cons p ps =>
      simp only [List.cons_append, List.cons.injEq] at hs
      obtain ⟨-, hcs⟩ := hs
      split at h
      · cases h
      · exact ih (Option.map_eq_none'.mp h) ps (by rw [hcs])

theorem findDelimited_some (lb rb : Char) (s : GoStr) (loc : Nat × Nat)
    (h : findDelimited lb rb s = some loc) :
    ∃ pre mid post : GoStr, s = pre ++ lb :: mid ++ rb :: post ∧ rb ∉ mid ∧ '\n' ∉ mid ∧
      loc = (pre.length, pre.length + mid.length + 2) ∧
      ∀ pre' mid' post' : GoStr, s = pre' ++ lb :: mid' ++ rb :: post' → rb ∉ mid' →
        '\n' ∉ mid' → pre.length ≤ pre'.length := by
  induction s generalizing loc with
  | nil => simp [findDelimited] at h
  | cons c cs ih =>
    unfold findDelimited at h
    split at h
    · next k hk =>
      split_ifs at hk with hc
      obtain ⟨mid, post, hcs, hlen, hm1, hm2⟩ := lazyUntil_split rb cs k hk
      simp only [Option.some.injEq] at h
      refine ⟨[], mid, post, by rw [hc, hcs]; rfl, hm1, hm2, ?_, fun _ _ _ _ _ _ => Nat.zero_le _⟩
      rw [← h, hlen]
      simp
    · next hnone =>
      obtain ⟨loc', hl, rfl⟩ := Option.map_eq_some'.mp h
      obtain ⟨pre, mid, post, hcs, hm1, hm2, hloc, hmin⟩ := ih loc' hl
      refine ⟨c :: pre, mid, post, by rw [hcs]; rfl, hm1, hm2, ?_, ?_⟩
      · rw [hloc]
        simp
        omega
      · intro pre' mid' post' hs' h1' h2'
        cases pre' with
        | nil =>
          exfalso
          simp only [List.nil_append, List.cons_append, List.cons.injEq] at hs'
          obtain ⟨hc, hcs'⟩ := hs'
          rw [if_pos hc, hcs', lazyUntil_of_split rb mid' post' h1' h2'] at hnone
          cases hnone
        | cons p ps =>
          simp only [List.cons_append, List.cons.injEq] at hs'
          have := hmin ps mid' post' (by rw [hs'.2]) h1' h2'
          simp
          omega

theorem split_take_drop (pre mid post : GoStr) :
    ((pre ++ '[' :: mid ++ ']' :: post).take (pre.length + mid.length + 2)).drop pre.length =
      '[' :: mid ++ [']'] ∧
    (pre ++ '[' :: mid ++ ']' :: post).take pre.length = pre ∧
    (pre ++ '[' :: mid ++ ']' :: post).drop (pre.length + mid.length + 2) = post := by
  have h1 : pre ++ '[' :: mid ++ ']' :: post = pre ++ (('[' :: mid ++ [']']) ++ post) := by simp
  have hl : ('[' :: mid ++ [']']).length = mid.length + 2 := by simp
  refine ⟨?_, ?_, ?_⟩
  · rw [h1, ← List.append_assoc, List.take_append_eq_append_take]
    have : pre.length + mid.length + 2 - (pre ++ ('[' :: mid ++ [']'])).length = 0 := by
      simp
      omega
    rw [this, List.take_zero, List.append_nil, List.take_of_length_le (by simp; omega),
      List.drop_left]
  · rw [h1, List.take_left]
  · rw [h1, ← List.append_assoc]
    have : pre.length + mid.length + 2 = (pre ++ ('[' :: mid ++ [']'])).length := by
      simp; omega
    rw [this, List.drop_left]

/-! ## Trimming -/

/-- What is trimmed off both ends satisfies `p`, and what is left neither starts nor ends
with an element that satisfies `p`. -/
theorem trim_split (p : Char → Bool) (s : GoStr) :
    ∃ l r : GoStr, s = l ++ (s.dropWhile p).rdropWhile p ++ r ∧ (∀ c ∈ l, p c = true) ∧
      (∀ c ∈ r, p c = true) ∧
      (∀ c, ((s.dropWhile p).rdropWhile p).head? = some c → p c = false) ∧
      (∀ c, ((s.dropWhile p).rdropWhile p).getLast? = some c → p c = false) := by
  have hd : (s.dropWhile p).rdropWhile p ++ (s.dropWhile p).rtakeWhile p = s.dropWhile p := by
    unfold List.rdropWhile List.rtakeWhile
    rw [← List.reverse_append, List.takeWhile_append_dropWhile, List.reverse_reverse]
  refine ⟨s.takeWhile p, (s.dropWhile p).rtakeWhile p, ?_, ?_, ?_, ?_, ?_⟩
  · rw [List.append_assoc, hd, List.takeWhile_append_dropWhile]
  · exact fun c hc => List.mem_takeWhile_imp hc
  · exact fun c hc => List.mem_rtakeWhile_imp hc
  · intro c hc
    have hpre : (s.dropWhile p).rdropWhile p <+: s.dropWhile p := List.rdropWhile_prefix _ _
    obtain ⟨t, ht⟩ := hpre
    have hh := List.head?_dropWhile_not p s
    rw [← ht] at hh
    cases hr : (s.dropWhile p).rdropWhile p with
    | nil => rw [hr] at hc; cases hc
    | cons x xs =>
      rw [hr] at hc hh
      simp only [List.head?_cons, Option.some.injEq] at hc
      simp only [List.cons_append, List.head?_cons] at hh
      rw [← hc]
      exact hh
  · intro c hc
    have hne : (s.dropWhile p).rdropWhile p ≠ [] := by
      intro h
      rw [h] at hc
      cases hc
    have hl := List.rdropWhile_last_not p (s.dropWhile p) hne
    rw [List.getLast?_eq_getLast _ hne] at hc
    simp only [Option.some.injEq] at hc
    rw [← hc]
    simpa using hl

/-- A text that starts and ends with elements not satisfying `p` survives the trimming. -/
theorem infix_trim (p : Char → Bool) (u s : GoStr) (c d : Char) (hu : u <:+: s)
    (hc : u.head? = some c) (hpc : p c = false) (hd : u.getLast? = some d) (hpd : p d = false) :
    u <:+: (s.dropWhile p).rdropWhile p := by
  have hleft : ∀ (v t : GoStr) (a : Char), v <:+: t → v.head? = some a → p a = false →
      v <:+: t.dropWhile p := by
    intro v t a hv ha hpa
    induction t with
    | nil => exact hv
    | cons x xs ih =>
      by_cases hx : p x = true
      · rw [List.dropWhile_cons_of_pos hx]
        rcases List.infix_cons_iff.mp hv with h | h
        · exfalso
          obtain ⟨w, hw⟩ := h
          cases v with
          | nil => cases ha
          | cons y ys =>
            simp only [List.head?_cons, Option.some.injEq] at ha
            simp only [List.cons_append, List.cons.injEq] at hw
            rw [← hw.1, ha, hpa] at hx
            cases hx
        · exact ih h
      · rw [List.dropWhile_cons_of_neg hx]
        exact hv
  have h1 := hleft u s c hu hc hpc
  have h2 := hleft u.reverse (s.dropWhile p).reverse d (List.reverse_infix.mpr h1)
    (by rw [List.head?_reverse]; exact hd) hpd
  unfold List.rdropWhile
  have h3 := List.reverse_infix.mpr h2
  rwa [List.reverse_reverse] at h3

theorem Trim_brackets (mid : GoStr) :
    strings.Trim ('[' :: mid ++ [']']) "[]".toList = strings.Trim mid "[]".toList := by
  unfold strings.Trim
  have hp1 : (fun c : Char => "[]".toList.contains c) '[' = true := by decide
  have hp2 : (fun c : Char => "[]".toList.contains c) ']' = true := by decide
  rw [List.cons_append, List.dropWhile_cons_of_pos hp1, List.dropWhile_append]
  split_ifs with h
  · have hnil : List.dropWhile (fun c : Char => "[]".toList.contains c) mid = [] := by
      simpa using h
    rw [hnil, List.dropWhile_cons_of_pos hp2]
    rfl
  · rw [List.rdropWhile_concat_pos _ _ _ hp2]

theorem Trim_eq_self (mid cutset : GoStr)
    (h1 : ∀ c, mid.head? = some c → cutset.contains c = false)
    (h2 : ∀ c, mid.getLast? = some c → cutset.contains c = false) :
    strings.Trim mid cutset = mid := by
  unfold strings.Trim
  have hd : mid.dropWhile (fun c => cutset.contains c) = mid := by
    cases mid with
    | nil => rfl
    | cons x xs =>
      have := h1 x rfl
      rw [List.dropWhile_cons_of_neg (by rw [this]; simp)]
  rw [hd, List.rdropWhile_eq_self_iff]
  intro hl
  have := h2 (mid.getLast hl) (List.getLast?_eq_getLast _ hl)
  rw [this]
  simp

/-- The two cases of the tag handling of `Format`: no bracketed text on one line, or a
first one, whose trimmed inside is the inner text and whose surroundings, joined and
trimmed of white space, are the remaining message. -/
theorem tag_cases (message : GoStr) :
    (bracketRegex.FindStringIndex message = none ∧
      (∀ pre mid post : GoStr, ¬ isTagSplit message pre mid post) ∧
      tagInner message = none ∧ remainingMessage message = message) ∨
    (∃ pre mid post : GoStr, isTagSplit message pre mid post ∧
      (∀ pre' mid' post' : GoStr, isTagSplit message pre' mid' post' →
        pre.length ≤ pre'.length) ∧
      bracketRegex.FindStringIndex message = some (pre.length, pre.length + mid.length + 2) ∧
      tagInner message = some (strings.Trim mid "[]".toList) ∧
      remainingMessage message = strings.TrimSpace (pre ++ post)) := by
  cases hfi : bracketRegex.FindStringIndex message with
  | none =>
    left
    refine ⟨rfl, ?_, ?_, ?_⟩
    · rintro pre mid post ⟨hs, h1, h2⟩
      exact findDelimited_none '[' ']' message hfi pre mid post hs h1 h2
    · unfold tagInner
      rw [hfi]
      rfl
    · unfold remainingMessage
      rw [hfi]
  | some loc =>
    right
    obtain ⟨pre, mid, post, hs, h1, h2, hloc, hmin⟩ := findDelimited_some '[' ']' message loc hfi
    obtain ⟨ht1, ht2, ht3⟩ := split_take_drop pre mid post
    refine ⟨pre, mid, post, ⟨hs, h1, h2⟩, ?_, by rw [hloc], ?_, ?_⟩
    · rintro pre' mid' post' ⟨hs', h1', h2'⟩
      exact hmin pre' mid' post' hs' h1' h2'
    · unfold tagInner
      rw [hfi, hloc]
      simp only [Option.map_some']
      rw [hs, ht1, Trim_brackets]
    · unfold remainingMessage
      rw [hfi, hloc]
      simp only []
      rw [hs, ht2, ht3]

theorem nearest_unique (c : Char) (mid mid' post post' : GoStr) (h1 : c ∉ mid) (h2 : c ∉ mid')
    (h : mid ++ c :: post = mid' ++ c :: post') : mid = mid' ∧ post = post' := by
  induction mid generalizing mid' with
  | nil =>
    cases mid' with
    | nil => simpa using h
    | cons y ys =>
      simp only [List.nil_append, List.cons_append, List.cons.injEq] at h
      exact absurd (h.1 ▸ List.mem_cons_self _ _) h2
  | cons x xs ih =>
    cases mid' with
    | nil =>
      simp only [List.nil_append, List.cons_append, List.cons.injEq] at h
      exact absurd (h.1 ▸ List.mem_cons_self _ _) h1
    | cons y ys =>
      simp only [List.cons_append, List.cons.injEq] at h
      obtain ⟨hm, hp⟩ := ih ys (fun hm => h1 (List.mem_cons_of_mem _ hm))
        (fun hm => h2 (List.mem_cons_of_mem _ hm)) h.2
      exact ⟨by rw [h.1, hm], hp⟩

/-- Two splits of a message that start at the same offset are the same split. -/
theorem isTagSplit_unique (message pre mid post pre' mid' post' : GoStr)
    (h : isTagSplit message pre mid post) (h' : isTagSplit message pre' mid' post')
    (hlen : pre.length = pre'.length) : pre = pre' ∧ mid = mid' ∧ post = post' := by
  obtain ⟨hs, h1, -⟩ := h
  obtain ⟨hs', h1', -⟩ := h'
  rw [hs, List.append_assoc, List.append_assoc] at hs'
  obtain ⟨hp, hrest⟩ := List.append_inj hs' hlen
  simp only [List.cons_append, List.cons.injEq, true_and] at hrest
  obtain ⟨hm, hpo⟩ := nearest_unique ']' mid mid' post post' h1 h1' hrest
  exact ⟨hp, hm, hpo⟩

/-- The first split of a message is the one `FindStringIndex` finds. -/
theorem first_split (message pre mid post : GoStr) (h : isTagSplit message pre mid post)
    (hmin : ∀ pre' mid' post' : GoStr, isTagSplit message pre' mid' post' →
      pre.length ≤ pre'.length) :
    bracketRegex.FindStringIndex message = some (pre.length, pre.length + mid.length + 2) ∧
    tagInner message = some (strings.Trim mid "[]".toList) ∧
    remainingMessage message = strings.TrimSpace (pre ++ post) := by
  rcases tag_cases message with ⟨-, hno, -, -⟩ | ⟨p, m, q, hs, hm, hfi, hti, hrm⟩
  · exact absurd h (hno pre mid post)
  · have hlen : p.length = pre.length := Nat.le_antisymm (hm pre mid post h) (hmin p m q hs)
    obtain ⟨rfl, rfl, rfl⟩ := isTagSplit_unique message p m q pre mid post hs h hlen
    exact ⟨hfi, hti, hrm⟩

theorem displayTag_of_inner (f : CustomFormatter) (message inner : GoStr)
    (h : tagInner message = some inner) : f.styleTag inner = some (f.displayTag message) := by
  unfold CustomFormatter.displayTag
  rw [h]
  exact styleTag_eq f inner
/-! ## The claims -/

theorem appendFields_congr (f g : CustomFormatter) (h : f.UseColors = g.UseColors) (b : GoStr)
    (d : Fields) : f.appendFields b d = g.appendFields b d := by
  have hl : ∀ (n i : Nat) (ks : List GoStr) (b : GoStr),
      CustomFormatter.appendFields.loop f d n i ks b =
        CustomFormatter.appendFields.loop g d n i ks b := by
    intro n i ks
    induction ks generalizing i with
    | nil => intro b; rfl
    | cons k ks ih =>
      intro b
      simp only [CustomFormatter.appendFields.loop, h]
      exact ih _ _
  unfold CustomFormatter.appendFields
  exact hl _ _ _ _

/-- C1: for every formatter and every entry, two field maps that hold the same key/value
pairs, in whatever iteration order, give the same output of `Format`; and the fields are
rendered in strictly ascending key order: `appendFields` writes, after one space, the
pairs of the map sorted by key, and that text is what `Format` puts between the message
and the caller segment. -/
theorem C1_fields_order_independent (f : CustomFormatter) (env : Env) (entry : Entry)
    (d₁ d₂ : Fields) (hnd : (d₁.map Prod.fst).Nodup) (hperm : d₁.Perm d₂) :
    f.Format env { entry with Data := d₁ } = f.Format env { entry with Data := d₂ } ∧
    ∃ ps : List (GoStr × Value), ps.Perm d₁ ∧
      (ps.map Prod.fst).Sorted (fun a c => strLess a c = true) ∧
      (∀ b : GoStr, f.appendFields b d₁ =
        b ++ ' ' :: [' '].intercalate (ps.map fun p => f.fieldText p.1 (some p.2))) ∧
      (d₁ ≠ [] → f.Format env { entry with Data := d₁ } = some (
        f.lineHead entry ++ f.displayTag entry.Message ++ f.gutter entry.Message ++ [' '] ++
        remainingMessage entry.Message ++
        (' ' :: [' '].intercalate (ps.map fun p => f.fieldText p.1 (some p.2))) ++
        f.callerSegment env entry ++ ['\n'], none)) := by
  constructor
  · rw [Format_eq, Format_eq]
    have h := fieldsSegment_perm f d₁ d₂ hnd hperm
    simp only [CustomFormatter.line]
    rw [h]
    rfl
  · obtain ⟨ps, hp, hs, ha⟩ := appendFields_sorted f [] d₁ hnd
    refine ⟨ps, hp, hs, ?_, ?_⟩
    · intro b
      rw [appendFields_builder, ha]
      rfl
    · intro hne
      rw [Format_eq]
      have hlen : d₁.length > 0 := List.length_pos.mpr hne
      have hseg : f.fieldsSegment d₁ =
          ' ' :: [' '].intercalate (ps.map fun p => f.fieldText p.1 (some p.2)) := by
        unfold CustomFormatter.fieldsSegment
        rw [if_pos hlen, ha]
        rfl
      simp only [CustomFormatter.line]
      rw [hseg]
      rfl

theorem C1_fields_order_independent_witness :
    (Sample.fields.map Prod.fst).Nodup ∧ Sample.fields.Perm Sample.fieldsSwapped ∧
    Sample.formatter.Format Sample.env { Sample.entry with Data := Sample.fields } =
      Sample.formatter.Format Sample.env { Sample.entry with Data := Sample.fieldsSwapped } :=
  ⟨by decide, by decide,
    (C1_fields_order_independent Sample.formatter Sample.env Sample.entry Sample.fields
      Sample.fieldsSwapped (by decide) (by decide)).1⟩

/-- C2: with colors off, `Format` writes after the message text, for an entry with a
non-empty field map, exactly one space and then the fields as `key=value` in ascending
key order joined by single spaces, and directly after them the rest of the line, which
starts with the newline; for an empty field map nothing stands between the message text
and that newline. The fields `user: alice` and `duration: 150ms` give
`duration=150ms user=alice`. -/
theorem C2_fields_after_message (f : CustomFormatter) (env : Env) (entry : Entry)
    (hc : f.UseColors = false) :
    (f.callerSegment env entry ++ ['\n']).head? = some '\n' ∧
    f.Format env { entry with Data := [] } = some (
      f.lineHead entry ++ f.displayTag entry.Message ++ f.gutter entry.Message ++ [' '] ++
      remainingMessage entry.Message ++ (f.callerSegment env entry ++ ['\n']), none) ∧
    (∀ d : Fields, d ≠ [] → (d.map Prod.fst).Nodup →
      ∃ ps : List (GoStr × Value), ps.Perm d ∧
        (ps.map Prod.fst).Sorted (fun a c => strLess a c = true) ∧
        f.Format env { entry with Data := d } = some (
          f.lineHead entry ++ f.displayTag entry.Message ++ f.gutter entry.Message ++ [' '] ++
          remainingMessage entry.Message ++
          (' ' :: [' '].intercalate (ps.map fun p => p.1 ++ "=".toList ++ fmt.v (some p.2))) ++
          (f.callerSegment env entry ++ ['\n']), none)) ∧
    f.Format env { entry with Data := Sample.fields } = some (
      f.lineHead entry ++ f.displayTag entry.Message ++ f.gutter entry.Message ++ [' '] ++
      remainingMessage entry.Message ++ " duration=150ms user=alice".toList ++
      (f.callerSegment env entry ++ ['\n']), none) := by
  refine ⟨?_, ?_, ?_, ?_⟩
  · unfold CustomFormatter.callerSegment
    split_ifs <;> rfl
  · rw [Format_eq]
    simp [CustomFormatter.line, CustomFormatter.fieldsSegment]
    rfl
  · intro d hne hnd
    obtain ⟨ps, hp, hs, ha⟩ := appendFields_sorted f [] d hnd
    refine ⟨ps, hp, hs, ?_⟩
    rw [Format_eq]
    have hlen : d.length > 0 := List.length_pos.mpr hne
    have hft : (fun p : GoStr × Value => f.fieldText p.1 (some p.2)) =
        fun p => p.1 ++ "=".toList ++ fmt.v (some p.2) := by
      funext p
      unfold CustomFormatter.fieldText
      rw [hc]
      rfl
    have hseg : f.fieldsSegment d =
        ' ' :: [' '].intercalate (ps.map fun p => p.1 ++ "=".toList ++ fmt.v (some p.2)) := by
      unfold CustomFormatter.fieldsSegment
      rw [if_pos hlen, ha, hft]
      rfl
    simp only [CustomFormatter.line]
    rw [hseg]
    simp only [List.append_assoc]
    rfl
  · rw [Format_eq]
    have hseg : f.fieldsSegment Sample.fields = " duration=150ms user=alice".toList := by
      unfold CustomFormatter.fieldsSegment
      rw [if_pos (by decide), appendFields_congr f Sample.formatter (by rw [hc]; rfl)]
      decide
    simp only [CustomFormatter.line]
    rw [hseg]
    simp only [List.append_assoc]
    rfl

theorem C2_fields_after_message_witness :
    Sample.formatter.UseColors = false ∧
    Sample.formatter.Format Sample.env { Sample.entry with Data := Sample.fields } = some (
      "INFO   [Server]        Starting duration=150ms user=alice\n".toList, none) :=
  ⟨rfl, (C2_fields_after_message Sample.formatter Sample.env Sample.entry rfl).2.2.2.trans
    (by decide)⟩

/-- C3: for every inner text, width `W` and fill, `centerTag` returns the plain `[text]`
when `len(text) ≥ (W-2)-2`; otherwise it returns `[`, `left` copies of the fill, a space,
the text, a space, `right` copies of the fill and `]`, where `totalFill = W-2-len(text)-2`,
`left = floor(totalFill/2)` and `right = totalFill - left`, so that `right` is `left` or
`left + 1` (an odd remainder goes to the right). Tag `Init`, fill `=` and width 15 give
`[=== Init ====]`. -/
theorem C3_centerTag (f : CustomFormatter) (inner : GoStr) (W : Int) :
    f.centerTag inner W = some (
      if (len inner : Int) ≥ (W - 2) - 2 then "[".toList ++ inner ++ "]".toList
      else "[".toList ++
        (List.replicate ((W - 2 - (len inner : Int) - 2) / 2).toNat f.fill).flatten ++
        " ".toList ++ inner ++ " ".toList ++
        (List.replicate ((W - 2 - (len inner : Int) - 2) -
          (W - 2 - (len inner : Int) - 2) / 2).toNat f.fill).flatten ++ "]".toList) ∧
    ((len inner : Int) < (W - 2) - 2 →
      0 ≤ (W - 2 - (len inner : Int) - 2) / 2 ∧
      (W - 2 - (len inner : Int) - 2) / 2 ≤
        (W - 2 - (len inner : Int) - 2) - (W - 2 - (len inner : Int) - 2) / 2 ∧
      (W - 2 - (len inner : Int) - 2) - (W - 2 - (len inner : Int) - 2) / 2 ≤
        (W - 2 - (len inner : Int) - 2) / 2 + 1) ∧
    (f.PaddingChar = "=".toList →
      f.centerTag "Init".toList 15 = some "[=== Init ====]".toList) := by
  refine ⟨centerTag_eq f inner W, ?_, ?_⟩
  · intro h
    omega
  · intro hp
    rw [centerTag_eq]
    unfold CustomFormatter.fill
    rw [hp]
    decide

theorem C3_centerTag_witness :
    (len "Init".toList : Int) < (15 - 2) - 2 ∧
    ({ Sample.formatter with PaddingChar := "=".toList } : CustomFormatter).PaddingChar =
      "=".toList ∧
    ({ Sample.formatter with PaddingChar := "=".toList } : CustomFormatter).centerTag
      "Init".toList 15 = some "[=== Init ====]".toList :=
  ⟨by decide, rfl,
    (C3_centerTag { Sample.formatter with PaddingChar := "=".toList } "Init".toList 15).2.2 rfl⟩

/-- C4: for every inner text, width `W` and fill, `rightPadTag` returns the plain `[text]`
when `len(text) ≥ (W-2)-1`, and otherwise `[text]` immediately followed by exactly
`W-2-len(text)-1` copies of the fill and then one space. -/
theorem C4_rightPadTag (f : CustomFormatter) (inner : GoStr) (W : Int) :
    f.rightPadTag inner W = some (
      if (len inner : Int) ≥ (W - 2) - 1 then "[".toList ++ inner ++ "]".toList
      else "[".toList ++ inner ++ "]".toList ++
        (List.replicate (W - 2 - (len inner : Int) - 1).toNat f.fill).flatten ++ " ".toList) :=
  rightPadTag_eq f inner W

/-- C5, as stated, fails: with colors and timestamp off, level `Info` and width 15, the
message `[\x1b[mA]x` has a rendered tag of 6 bytes, but the remaining text `x` stands at
byte offset 26, not at `7 + 15 + 1`; the gutter is measured on the tag without its escape
sequence. -/
theorem C5_counterexample :
    Sample.formatter.UseColors = false ∧ Sample.formatter.ShowTimestamp = false ∧
    Sample.escEntry.Level ≤ 6 ∧
    len (Sample.formatter.displayTag Sample.escEntry.Message) = 6 ∧
    remainingMessage Sample.escEntry.Message = "x".toList ∧
    Sample.formatter.Format Sample.env Sample.escEntry =
      some ("INFO   [\x1b[mA]             x\n".toList, none) ∧
    ¬ startsAt "INFO   [\x1b[mA]             x\n".toList "x".toList (7 + 15 + 1) := by
  refine ⟨rfl, rfl, by decide, by decide, by decide, by decide, ?_⟩
  exact not_startsAt _ _ 'x' _ 23 rfl (by decide) (by decide)

/-- C5, amended: with colors and timestamp off, for every valid level, every tag style
and every message that either has no bracket tag or whose rendered tag holds no color
escape sequence (`stripANSI` leaves it unchanged) and is at most `W` bytes long, the
remaining message text starts at byte offset `7 + W + 1` of the output of `Format`, `W`
being the effective tag width; a message without tag gets the full gutter of `W` blanks. -/
theorem C5_message_column (f : CustomFormatter) (env : Env) (entry : Entry)
    (hc : f.UseColors = false) (ht : f.ShowTimestamp = false) (hl : entry.Level ≤ 6)
    (htag : tagInner entry.Message = none ∨
      (stripANSI (f.displayTag entry.Message) = f.displayTag entry.Message ∧
        (len (f.displayTag entry.Message) : Int) ≤ f.maxPadding)) :
    f.Format env entry = some (
      (f.lineHead entry ++ f.displayTag entry.Message ++ f.gutter entry.Message ++ [' ']) ++
      remainingMessage entry.Message ++
      (f.fieldsSegment entry.Data ++ f.callerSegment env entry ++ ['\n']), none) ∧
    (len (f.lineHead entry ++ f.displayTag entry.Message ++ f.gutter entry.Message ++ [' ']) :
      Int) = 7 + f.maxPadding + 1 ∧
    (∃ out : GoStr, f.Format env entry = some (out, none) ∧
      startsAt out (remainingMessage entry.Message) (7 + f.maxPadding + 1).toNat) ∧
    (tagInner entry.Message = none →
      f.displayTag entry.Message = [] ∧
      f.gutter entry.Message = List.replicate f.maxPadding.toNat ' ' ∧
      remainingMessage entry.Message = entry.Message) := by
  have hfmt : f.Format env entry = some (
      (f.lineHead entry ++ f.displayTag entry.Message ++ f.gutter entry.Message ++ [' ']) ++
      remainingMessage entry.Message ++
      (f.fieldsSegment entry.Data ++ f.callerSegment env entry ++ ['\n']), none) := by
    rw [Format_eq]
    simp only [CustomFormatter.line, List.append_assoc]
  have hpos := maxPadding_pos f
  have hhead := len_lineHead f entry hc ht hl
  have hsp : len [' '] = 1 := by decide
  have hstrip : (len (stripANSI (f.displayTag entry.Message)) : Int) =
      len (f.displayTag entry.Message) ∧
      (len (f.displayTag entry.Message) : Int) ≤ f.maxPadding := by
    rcases htag with h | ⟨h1, h2⟩
    · rw [displayTag_of_no_tag f _ h, stripANSI_nil, len_nil]
      exact ⟨rfl, by simpa using le_of_lt hpos⟩
    · rw [h1]
      exact ⟨rfl, h2⟩
  have hlen : (len (f.lineHead entry ++ f.displayTag entry.Message ++ f.gutter entry.Message ++
      [' ']) : Int) = 7 + f.maxPadding + 1 := by
    rw [len_append, len_append, len_append, hhead, hsp]
    unfold CustomFormatter.gutter
    rw [len_replicate_space]
    push_cast
    rw [Int.toNat_of_nonneg (by omega)]
    omega
  refine ⟨hfmt, hlen, ⟨_, hfmt, _, _, rfl, ?_⟩, ?_⟩
  · omega
  · intro h
    refine ⟨displayTag_of_no_tag f _ h, ?_, ?_⟩
    · unfold CustomFormatter.gutter
      rw [displayTag_of_no_tag f _ h, stripANSI_nil, len_nil]
      simp
    · unfold remainingMessage
      unfold tagInner at h
      cases hfi : bracketRegex.FindStringIndex entry.Message with
      | none => rfl
      | some loc => rw [hfi] at h; cases h

theorem C5_message_column_witness :
    Sample.formatter.UseColors = false ∧ Sample.formatter.ShowTimestamp = false ∧
    Sample.entry.Level ≤ 6 ∧
    (∃ out : GoStr, Sample.formatter.Format Sample.env Sample.entry = some (out, none) ∧
      startsAt out (remainingMessage Sample.entry.Message)
        (7 + Sample.formatter.maxPadding + 1).toNat) :=
  ⟨rfl, rfl, by decide,
    (C5_message_column Sample.formatter Sample.env Sample.entry rfl rfl (by decide)
      (Or.inr ⟨by decide, by decide⟩)).2.2.1⟩

/-- C6, as stated, fails: with width 15, plain style and no colors the output for
`[Server] Starting` does not contain `[Server]`, six spaces, one space and `Starting`;
the tag of 8 bytes is padded to 15 columns, which takes seven spaces. -/
theorem C6_counterexample :
    Sample.formatter.BracketPadding = 15 ∧ Sample.formatter.TagStyle = StyleDefault ∧
    Sample.formatter.UseColors = false ∧
    Sample.entry.Message = "[Server] Starting".toList ∧
    Sample.formatter.Format Sample.env Sample.entry =
      some ("INFO   [Server]        Starting\n".toList, none) ∧
    ¬ ("[Server]".toList ++ List.replicate 6 ' ' ++ " ".toList ++ "Starting".toList) <:+:
      "INFO   [Server]        Starting\n".toList := by
  refine ⟨rfl, rfl, rfl, rfl, by decide, by decide⟩

/-- C6, amended: formatting the message `[Server] Starting` with tag width 15, plain
style and no colors yields output in which the level field is followed by the literal
`[Server]`, exactly 7 padding spaces, one separator space and `Starting`. -/
theorem C6_server_scenario (f : CustomFormatter) (env : Env) (entry : Entry)
    (hm : entry.Message = "[Server] Starting".toList) (hw : f.BracketPadding = 15)
    (hs : f.TagStyle = StyleDefault) (hc : f.UseColors = false) :
    f.Format env entry = some (
      f.lineHead entry ++
      ("[Server]".toList ++ List.replicate 7 ' ' ++ " ".toList ++ "Starting".toList) ++
      (f.fieldsSegment entry.Data ++ f.callerSegment env entry ++ ['\n']), none) := by
  rw [Format_eq]
  have hti : tagInner entry.Message = some "Server".toList := by rw [hm]; decide
  have hrm : remainingMessage entry.Message = "Starting".toList := by rw [hm]; decide
  have hmp : f.maxPadding = 15 := by
    unfold CustomFormatter.maxPadding
    rw [hw]
    rfl
  have hst : f.styleTag "Server".toList = some "[Server]".toList := by
    unfold CustomFormatter.styleTag
    rw [hc, hs]
    rfl
  have hdt : f.displayTag entry.Message = "[Server]".toList := by
    unfold CustomFormatter.displayTag
    rw [hti]
    simp only [hst]
    rfl
  have hg : f.gutter entry.Message = List.replicate 7 ' ' := by
    unfold CustomFormatter.gutter
    rw [hdt, hmp]
    decide
  simp only [CustomFormatter.line, hdt, hg, hrm, List.append_assoc]
  rfl

theorem C6_server_scenario_witness :
    Sample.entry.Message = "[Server] Starting".toList ∧ Sample.formatter.BracketPadding = 15 ∧
    Sample.formatter.TagStyle = StyleDefault ∧ Sample.formatter.UseColors = false ∧
    Sample.formatter.Format Sample.env Sample.entry = some (
      "INFO   ".toList ++
      ("[Server]".toList ++ List.replicate 7 ' ' ++ " ".toList ++ "Starting".toList) ++
      "\n".toList, none) :=
  ⟨rfl, rfl, rfl, rfl,
    (C6_server_scenario Sample.formatter Sample.env Sample.entry rfl rfl rfl rfl).trans
      (by decide)⟩

set_option maxRecDepth 8000 in
/-- C7, as stated, fails twice. With colors on, the caller is shown (`ShowCaller`, level
`Error` under threshold `Warn`, caller metadata present) but the output does not contain
`└─ at (`, the parenthesis being preceded by a color code. With the caller hidden, a
message `└─ at` and a field key `(k`, neither of which contains `└─ at (`, give an
output that contains it. -/
theorem C7_counterexample :
    (¬ "└─ at (".toList <:+: Sample.callerEntry.Message ∧ Sample.callerEntry.Data = [] ∧
      Sample.colorFormatter.ShowCaller = true ∧
      Sample.callerEntry.Level ≤ Sample.colorFormatter.CallerLevel ∧
      Sample.callerEntry.Caller = some Sample.caller ∧
      Sample.colorFormatter.Format Sample.env Sample.callerEntry = some (
        "\x1b[31mERROR \x1b[0m \x1b[33m[Server]\x1b[0m        Starting\n".toList ++
        List.replicate 23 ' ' ++ "└─ at \x1b[38;5;242m(main.go:42)\x1b[0m\n".toList, none) ∧
      ¬ "└─ at (".toList <:+:
        ("\x1b[31mERROR \x1b[0m \x1b[33m[Server]\x1b[0m        Starting\n".toList ++
        List.replicate 23 ' ' ++ "└─ at \x1b[38;5;242m(main.go:42)\x1b[0m\n".toList)) ∧
    (¬ "└─ at (".toList <:+: Sample.markEntry.Message ∧
      (∀ p ∈ Sample.markEntry.Data, ¬ "└─ at (".toList <:+: p.1 ∧
        ¬ "└─ at (".toList <:+: fmt.v (some p.2)) ∧
      Sample.quietFormatter.ShowCaller = false ∧
      Sample.quietFormatter.Format Sample.env Sample.markEntry = some (
        "INFO   ".toList ++ List.replicate 15 ' ' ++ " └─ at (k=v\n".toList, none) ∧
      "└─ at (".toList <:+:
        ("INFO   ".toList ++ List.replicate 15 ' ' ++ " └─ at (k=v\n".toList)) := by
  refine ⟨⟨by decide, rfl, rfl, by decide, rfl, by decide, by decide⟩,
    ⟨by decide, by decide, rfl, by decide, by decide⟩⟩

theorem replaceDelimited_cons_ne (lb rb c : Char) (repl : GoStr → GoStr) (s : GoStr)
    (h : c ≠ lb) :
    replaceDelimited lb rb repl 0 (c :: s) = c :: replaceDelimited lb rb repl 0 s := by
  conv_lhs => unfold replaceDelimited
  rw [if_neg h]

/-- The caller information starts with the marker `└─ at `, and with colors off with
`└─ at (`. -/
theorem formatCallerInfo_marker (f : CustomFormatter) (env : Env) (entry : Entry)
    (caller : Frame) (h : entry.Caller = some caller) :
    "└─ at ".toList <+: f.formatCallerInfo env entry ∧
    (f.UseColors = false → "└─ at (".toList <+: f.formatCallerInfo env entry) := by
  have key : ∀ p : GoStr, "└─ at (".toList ++ p ++ ":".toList ++ fmt.d caller.Line ++ ")".toList =
      '└' :: '─' :: ' ' :: 'a' :: 't' :: ' ' :: '(' ::
        (p ++ ":".toList ++ fmt.d caller.Line ++ ")".toList) :=
    fun _ => rfl
  unfold CustomFormatter.formatCallerInfo
  rw [h]
  simp only [key]
  cases f.UseColors with
  | false =>
    exact ⟨⟨_, rfl⟩, fun _ => ⟨_, rfl⟩⟩
  | true =>
    refine ⟨?_, fun hc => by cases hc⟩
    simp only [if_true]
    unfold parenthesesRegex.ReplaceAllStringFunc
    rw [replaceDelimited_cons_ne _ _ _ _ _ (by decide),
      replaceDelimited_cons_ne _ _ _ _ _ (by decide),
      replaceDelimited_cons_ne _ _ _ _ _ (by decide),
      replaceDelimited_cons_ne _ _ _ _ _ (by decide),
      replaceDelimited_cons_ne _ _ _ _ _ (by decide),
      replaceDelimited_cons_ne _ _ _ _ _ (by decide)]
    exact ⟨_, rfl⟩

theorem callerSegment_shown (f : CustomFormatter) (env : Env) (entry : Entry)
    (hs : f.ShowCaller = true) (hlv : entry.Level ≤ f.CallerLevel) :
    f.callerSegment env entry =
      "\n".toList ++ List.replicate f.prefixWidth.toNat ' ' ++ f.formatCallerInfo env entry := by
  unfold CustomFormatter.callerSegment
  rw [hs, if_pos (by simpa using hlv)]

theorem callerInfo_infix_line (f : CustomFormatter) (env : Env) (entry : Entry)
    (hs : f.ShowCaller = true) (hlv : entry.Level ≤ f.CallerLevel) :
    f.formatCallerInfo env entry <:+: f.line env entry := by
  unfold CustomFormatter.line
  rw [callerSegment_shown f env entry hs hlv]
  exact ⟨f.lineHead entry ++ f.displayTag entry.Message ++ f.gutter entry.Message ++ [' '] ++
    remainingMessage entry.Message ++ f.fieldsSegment entry.Data ++
    ("\n".toList ++ List.replicate f.prefixWidth.toNat ' '), ['\n'],
    by simp only [List.append_assoc]⟩

/-- C7, amended: for every formatter and every entry whose message, field keys and values
and fill string do not contain the character `└`, the output of `Format` contains the
caller marker `└─ at ` (it precedes `(path:line)`, whose parentheses are wrapped in color
codes when colors are on) if and only if `ShowCaller` is true, the level of the entry is
at most `CallerLevel` and the entry carries caller metadata; with colors off the output
contains `└─ at (` under exactly the same condition. -/
theorem C7_caller_segment_iff (f : CustomFormatter) (env : Env) (entry : Entry)
    (hm : '└' ∉ entry.Message)
    (hd : ∀ p ∈ entry.Data, '└' ∉ p.1 ∧ '└' ∉ fmt.v (some p.2))
    (hp : '└' ∉ f.PaddingChar) :
    ∃ out : GoStr, f.Format env entry = some (out, none) ∧
      ("└─ at ".toList <:+: out ↔
        (f.ShowCaller = true ∧ entry.Level ≤ f.CallerLevel ∧ entry.Caller ≠ none)) ∧
      (f.UseColors = false →
        ("└─ at (".toList <:+: out ↔
          (f.ShowCaller = true ∧ entry.Level ≤ f.CallerLevel ∧ entry.Caller ≠ none))) := by
  refine ⟨f.line env entry, Format_eq f env entry, ?_⟩
  have hback : "└─ at ".toList <:+: f.line env entry →
      (f.ShowCaller = true ∧ entry.Level ≤ f.CallerLevel ∧ entry.Caller ≠ none) := by
    intro hin
    by_contra hcond
    have hall : ∀ c ∈ f.line env entry, c ≠ '└' := by
      apply forall_line (fun c => c ≠ '└') f env entry
      · intro c hc h
        rw [h] at hc
        exact absurd hc (by decide)
      · intro _; decide
      · unfold CustomFormatter.fill
        split_ifs
        · decide
        · exact fun c hc h => hp (h ▸ hc)
      · exact fun c hc h => hm (h ▸ hc)
      · intro p hpd
        exact ⟨fun c hc h => (hd p hpd).1 (h ▸ hc), fun c hc h => (hd p hpd).2 (h ▸ hc)⟩
      · unfold CustomFormatter.callerSegment
        split_ifs with hif
        · have hsl : f.ShowCaller = true ∧ entry.Level ≤ f.CallerLevel := by simpa using hif
          have hnone : entry.Caller = none := by
            by_contra hne
            exact hcond ⟨hsl.1, hsl.2, hne⟩
          have hinfo : f.formatCallerInfo env entry = [] := by
            unfold CustomFormatter.formatCallerInfo
            rw [hnone]
          rw [hinfo, List.append_nil]
          intro c hc
          rcases List.mem_append.mp hc with h | h
          · rw [List.mem_singleton.mp h]; decide
          · rw [List.eq_of_mem_replicate h]; decide
        · exact fun _ h => absurd h (List.not_mem_nil _)
    exact hall '└' (hin.subset (by decide)) rfl
  have hpre : "└─ at ".toList <+: "└─ at (".toList := ⟨['('], rfl⟩
  refine ⟨⟨hback, ?_⟩, fun hc => ⟨fun h => hback (hpre.isInfix.trans h), ?_⟩⟩
  · rintro ⟨hs, hlv, hne⟩
    obtain ⟨caller, hcl⟩ := Option.ne_none_iff_exists'.mp hne
    exact ((formatCallerInfo_marker f env entry caller hcl).1.isInfix).trans
      (callerInfo_infix_line f env entry hs hlv)
  · rintro ⟨hs, hlv, hne⟩
    obtain ⟨caller, hcl⟩ := Option.ne_none_iff_exists'.mp hne
    exact ((formatCallerInfo_marker f env entry caller hcl).2 hc).isInfix.trans
      (callerInfo_infix_line f env entry hs hlv)

theorem C7_caller_segment_iff_witness :
    '└' ∉ Sample.callerEntry.Message ∧
    (∀ p ∈ Sample.callerEntry.Data, '└' ∉ p.1 ∧ '└' ∉ fmt.v (some p.2)) ∧
    '└' ∉ Sample.colorFormatter.PaddingChar ∧
    ∃ out : GoStr, Sample.colorFormatter.Format Sample.env Sample.callerEntry = some (out, none) ∧
      ("└─ at ".toList <:+: out ↔
        (Sample.colorFormatter.ShowCaller = true ∧
          Sample.callerEntry.Level ≤ Sample.colorFormatter.CallerLevel ∧
          Sample.callerEntry.Caller ≠ none)) :=
  ⟨by decide, by decide, by decide,
    (C7_caller_segment_iff Sample.colorFormatter Sample.env Sample.callerEntry (by decide)
      (by decide) (by decide)).imp fun _ h => ⟨h.1, h.2.1⟩⟩

/-- C8, evaluated at an entry of level `Error` without caller metadata: with `ShowCaller`
set and the threshold met, `Format` still appends the new line and its 23 blanks, so the
output differs from the one with `ShowCaller` off. -/
theorem C8_caller_absent_blank_line :
    Sample.errorEntry.Caller = none ∧ Sample.formatter.ShowCaller = true ∧
    Sample.errorEntry.Level ≤ Sample.formatter.CallerLevel ∧
    Sample.formatter.Format Sample.env Sample.errorEntry = some (
      "ERROR  [Server]        Starting\n".toList ++ List.replicate 23 ' ' ++ "\n".toList, none) ∧
    ({ Sample.formatter with ShowCaller := false } : CustomFormatter).Format Sample.env
      Sample.errorEntry = some ("ERROR  [Server]        Starting\n".toList, none) := by
  refine ⟨rfl, rfl, by decide, by decide, by decide⟩

/-- C9, as stated, fails twice. With colors off and a tag of 6 bytes that holds an escape
sequence, the caller line is indented by 23 blanks while the message text stands at byte
offset 26. With the timestamp shown and an entry dated in the year 10000, the caller line
is indented by 45 blanks while the message text stands at byte offset 46. -/
theorem C9_counterexample :
    (Sample.formatter.UseColors = false ∧ Sample.escCallerEntry.Level ≤ 6 ∧
      len (Sample.formatter.displayTag Sample.escCallerEntry.Message) = 6 ∧
      Sample.formatter.prefixWidth = 23 ∧
      remainingMessage Sample.escCallerEntry.Message = "x".toList ∧
      Sample.formatter.Format Sample.env Sample.escCallerEntry = some (
        "ERROR  [\x1b[mA]             x\n".toList ++ List.replicate 23 ' ' ++
        "└─ at (main.go:42)\n".toList, none) ∧
      ¬ startsAt ("ERROR  [\x1b[mA]             x\n".toList ++ List.replicate 23 ' ' ++
        "└─ at (main.go:42)\n".toList) "x".toList 23) ∧
    (Sample.stampFormatter.UseColors = false ∧ Sample.lateEntry.Level ≤ 6 ∧
      len (Sample.stampFormatter.displayTag Sample.lateEntry.Message) = 8 ∧
      Sample.stampFormatter.prefixWidth = 45 ∧
      remainingMessage Sample.lateEntry.Message = "Starting".toList ∧
      Sample.stampFormatter.Format Sample.env Sample.lateEntry = some (
        "[10000-01-01 09:30:00] ERROR  [Server]        Starting\n".toList ++
        List.replicate 45 ' ' ++ "└─ at (main.go:42)\n".toList, none) ∧
      ¬ startsAt ("[10000-01-01 09:30:00] ERROR  [Server]        Starting\n".toList ++
        List.replicate 45 ' ' ++ "└─ at (main.go:42)\n".toList) "Starting".toList 45) := by
  refine ⟨⟨rfl, by decide, by decide, by decide, by decide, by decide, ?_⟩,
    ⟨rfl, by decide, by decide, by decide, by decide, by decide, ?_⟩⟩
  · exact not_startsAt _ _ 'x' _ 23 rfl (by decide) (by decide)
  · exact not_startsAt _ _ 'S' _ 45 rfl (by decide) (by decide)

theorem replaceDelimited_head (lb rb c : Char) (repl : GoStr → GoStr) (s : GoStr)
    (h : c ≠ lb) : (replaceDelimited lb rb repl 0 (c :: s)).head? = some c := by
  unfold replaceDelimited
  rw [if_neg h]
  rfl

theorem formatCallerInfo_head (f : CustomFormatter) (env : Env) (entry : Entry) (caller : Frame)
    (h : entry.Caller = some caller) : (f.formatCallerInfo env entry).head? = some '└' := by
  have key : ∀ p : GoStr, "└─ at (".toList ++ p ++ ":".toList ++ fmt.d caller.Line ++ ")".toList =
      '└' :: ("─ at (".toList ++ p ++ ":".toList ++ fmt.d caller.Line ++ ")".toList) :=
    fun _ => rfl
  unfold CustomFormatter.formatCallerInfo
  rw [h]
  simp only [key]
  cases f.UseColors with
  | false => rfl
  | true => exact replaceDelimited_head '(' ')' '└' _ _ (by decide)

/-- C9, amended: when the caller segment is emitted it is placed on a new line indented
by exactly `prefixWidth` spaces, `prefixWidth = (22 if ShowTimestamp else 0) + 7 + W + 1`
with `W` the effective tag width; with colors off, a valid level, a rendered tag of at most
`W` bytes that holds no color escape sequence and, when the timestamp is shown, a year of
at most four digits, this indentation equals the byte column at which the message text
starts on the first line. -/
theorem C9_caller_indentation (f : CustomFormatter) (env : Env) (entry : Entry)
    (caller : Frame) (hs : f.ShowCaller = true) (hlv : entry.Level ≤ f.CallerLevel)
    (hcl : entry.Caller = some caller) :
    f.Format env entry = some (
      (f.lineHead entry ++ f.displayTag entry.Message ++ f.gutter entry.Message ++ [' ']) ++
      remainingMessage entry.Message ++ f.fieldsSegment entry.Data ++
      ("\n".toList ++ List.replicate f.prefixWidth.toNat ' ' ++ f.formatCallerInfo env entry ++
        ['\n']), none) ∧
    (f.formatCallerInfo env entry).head? = some '└' ∧
    f.prefixWidth = (if f.ShowTimestamp then 22 else 0) + 7 +
      (if f.BracketPadding ≤ 0 then 15 else f.BracketPadding) + 1 ∧
    (f.UseColors = false → entry.Level ≤ 6 →
      (f.ShowTimestamp = true → entry.Time.year ≤ 9999) →
      stripANSI (f.displayTag entry.Message) = f.displayTag entry.Message →
      (len (f.displayTag entry.Message) : Int) ≤ f.maxPadding →
      (len (f.lineHead entry ++ f.displayTag entry.Message ++ f.gutter entry.Message ++ [' ']) :
        Int) = f.prefixWidth) := by
  refine ⟨?_, formatCallerInfo_head f env entry caller hcl, rfl, ?_⟩
  · rw [Format_eq]
    have hseg : f.callerSegment env entry =
        "\n".toList ++ List.replicate f.prefixWidth.toNat ' ' ++ f.formatCallerInfo env entry := by
      unfold CustomFormatter.callerSegment
      rw [hs, if_pos (by simpa using hlv)]
    simp only [CustomFormatter.line, hseg, List.append_assoc]
  · intro hc hl hy hstrip htag
    have hhead := len_lineHead_timestamp f entry hc hl hy
    have hsp : len [' '] = 1 := by decide
    rw [len_append, len_append, len_append, hhead, hsp]
    unfold CustomFormatter.gutter CustomFormatter.prefixWidth
    rw [len_replicate_space, hstrip]
    push_cast
    rw [Int.toNat_of_nonneg (by omega)]
    split_ifs <;> omega

theorem C9_caller_indentation_witness :
    Sample.formatter.ShowCaller = true ∧
    Sample.callerEntry.Level ≤ Sample.formatter.CallerLevel ∧
    Sample.callerEntry.Caller = some Sample.caller ∧
    Sample.formatter.Format Sample.env Sample.callerEntry = some (
      "ERROR  [Server]        Starting\n".toList ++ List.replicate 23 ' ' ++
      "└─ at (main.go:42)\n".toList, none) :=
  ⟨rfl, by decide, rfl,
    (C9_caller_indentation Sample.formatter Sample.env Sample.callerEntry Sample.caller rfl
      (by decide) rfl).1.trans (by decide)⟩

/-- C10: a zero or negative tag width is replaced by the default of 15 columns: for every
entry and every other configuration, `Format` with `BracketPadding ≤ 0` returns exactly
the output of the same formatter with `BracketPadding = 15`. -/
theorem C10_nonpositive_width_is_default (f : CustomFormatter) (env : Env) (entry : Entry)
    (h : f.BracketPadding ≤ 0) :
    f.Format env entry = ({ f with BracketPadding := 15 } : CustomFormatter).Format env entry := by
  have h15 : ¬ ((15 : Int) ≤ 0) := by decide
  have hf : ({ f with BracketPadding := 15 } : CustomFormatter).fieldsSegment entry.Data =
      f.fieldsSegment entry.Data := by
    unfold CustomFormatter.fieldsSegment
    rw [appendFields_congr { f with BracketPadding := 15 } f rfl]
  rw [Format_eq, Format_eq]
  unfold CustomFormatter.line
  rw [hf]
  simp only [CustomFormatter.lineHead, CustomFormatter.displayTag, CustomFormatter.styleTag,
    CustomFormatter.maxPadding, CustomFormatter.gutter, CustomFormatter.callerSegment,
    CustomFormatter.prefixWidth, CustomFormatter.formatCommon, CustomFormatter.formatCallerInfo,
    CustomFormatter.centerTag, CustomFormatter.rightPadTag,
    CustomFormatter.coloredTagWithPadding, if_pos h, if_neg h15]

theorem C10_nonpositive_width_is_default_witness :
    ({ Sample.formatter with BracketPadding := -3 } : CustomFormatter).BracketPadding ≤ 0 ∧
    ({ Sample.formatter with BracketPadding := -3 } : CustomFormatter).Format Sample.env
      Sample.entry = Sample.formatter.Format Sample.env Sample.entry :=
  ⟨by decide,
    C10_nonpositive_width_is_default { Sample.formatter with BracketPadding := -3 } Sample.env
      Sample.entry (by decide)⟩

/-- C11, evaluated at width 5 and the message `[VeryLongTag] message`: `Format` writes the
whole tag of 13 visible characters; nothing is truncated to the width. -/
theorem C11_long_tag_not_truncated :
    Sample.narrowFormatter.BracketPadding = 5 ∧
    Sample.narrowFormatter.displayTag Sample.longTagEntry.Message = "[VeryLongTag]".toList ∧
    len (stripANSI (Sample.narrowFormatter.displayTag Sample.longTagEntry.Message)) = 13 ∧
    Sample.narrowFormatter.Format Sample.env Sample.longTagEntry =
      some ("INFO   [VeryLongTag] message\n".toList, none) := by
  refine ⟨rfl, by decide, by decide, by decide⟩

theorem styleTag_plain (f : CustomFormatter) (inner : GoStr) (hs : f.TagStyle = StyleDefault) :
    f.styleTag inner = some (
      if (f.UseColors && f.ColorBrackets) = true then
        ColorYellow ++ "[".toList ++ inner ++ "]".toList ++ ColorReset
      else "[".toList ++ inner ++ "]".toList) := by
  have h1 : ¬ (StyleDefault = StyleCenter ∨ StyleDefault = StyleRight) := by decide
  have h2 : ¬ (StyleDefault = StyleCenter) := by decide
  have h3 : ¬ (StyleDefault = StyleRight) := by decide
  unfold CustomFormatter.styleTag
  rw [hs, if_neg h1, if_neg h2, if_neg h3]
  split_ifs <;> rfl

/-- C12: for the plain style, with colors on or off, every width and every tag text that
contains no escape character, stripping the color sequences from the rendered tag gives
exactly `[text]`, whose length is `len(text) + 2`, and stripping a second time changes
nothing; `Format` pads the gutter according to that length. -/
theorem C12_plain_tag_strip (f : CustomFormatter) (env : Env) (entry : Entry) (inner : GoStr)
    (hi : tagInner entry.Message = some inner) (hesc : ESC ∉ inner)
    (hs : f.TagStyle = StyleDefault) :
    f.displayTag entry.Message =
      (if (f.UseColors && f.ColorBrackets) = true then
        ColorYellow ++ "[".toList ++ inner ++ "]".toList ++ ColorReset
      else "[".toList ++ inner ++ "]".toList) ∧
    stripANSI (f.displayTag entry.Message) = "[".toList ++ inner ++ "]".toList ∧
    len (stripANSI (f.displayTag entry.Message)) = len inner + 2 ∧
    stripANSI (stripANSI (f.displayTag entry.Message)) = stripANSI (f.displayTag entry.Message) ∧
    f.Format env entry = some (
      f.lineHead entry ++ f.displayTag entry.Message ++
      List.replicate (f.maxPadding - ((len inner + 2 : Nat) : Int)).toNat ' ' ++ [' '] ++
      remainingMessage entry.Message ++ f.fieldsSegment entry.Data ++
      f.callerSegment env entry ++ ['\n'], none) := by
  have hne : ESC ∉ "[".toList ++ inner ++ "]".toList := by
    intro h
    rcases List.mem_append.mp h with h | h
    · rcases List.mem_append.mp h with h | h
      · exact absurd h (by decide)
      · exact hesc h
    · exact absurd h (by decide)
  have hdt : f.displayTag entry.Message =
      (if (f.UseColors && f.ColorBrackets) = true then
        ColorYellow ++ "[".toList ++ inner ++ "]".toList ++ ColorReset
      else "[".toList ++ inner ++ "]".toList) := by
    unfold CustomFormatter.displayTag
    rw [hi]
    simp only [styleTag_plain f inner hs, Option.getD_some]
  have hstrip : stripANSI (f.displayTag entry.Message) = "[".toList ++ inner ++ "]".toList := by
    rw [hdt]
    split_ifs
    · have hassoc : ColorYellow ++ "[".toList ++ inner ++ "]".toList ++ ColorReset =
          ColorYellow ++ (("[".toList ++ inner ++ "]".toList) ++ (ColorReset ++ [])) := by
        simp only [List.append_assoc, List.append_nil]
      rw [hassoc, stripANSI_ColorYellow, stripANSI_append_noesc _ _ hne, stripANSI_ColorReset,
        stripANSI_nil, List.append_nil]
    · exact stripANSI_noesc _ hne
  refine ⟨hdt, hstrip, ?_, ?_, ?_⟩
  · rw [hstrip, len_brackets]
  · rw [hstrip, stripANSI_noesc _ hne]
  · rw [Format_eq]
    unfold CustomFormatter.line CustomFormatter.gutter
    rw [hstrip, len_brackets]

theorem C12_plain_tag_strip_witness :
    tagInner Sample.callerEntry.Message = some "Server".toList ∧ ESC ∉ "Server".toList ∧
    Sample.colorFormatter.TagStyle = StyleDefault ∧
    Sample.colorFormatter.displayTag Sample.callerEntry.Message =
      "\x1b[33m[Server]\x1b[0m".toList ∧
    stripANSI (Sample.colorFormatter.displayTag Sample.callerEntry.Message) =
      "[Server]".toList :=
  ⟨by decide, by decide, rfl,
    (C12_plain_tag_strip Sample.colorFormatter Sample.env Sample.callerEntry "Server".toList
      (by decide) (by decide) rfl).1.trans (by decide),
    (C12_plain_tag_strip Sample.colorFormatter Sample.env Sample.callerEntry "Server".toList
      (by decide) (by decide) rfl).2.1⟩

/-- C13, as stated, fails: with colors off, the centered style and the fill string
`\x1b[31m`, the message `[Server] Starting` (no escape character, no fields, no caller)
gives an output that contains `\x1b[`. -/
theorem C13_counterexample :
    Sample.escFillFormatter.UseColors = false ∧ ESC ∉ Sample.entry.Message ∧
    Sample.entry.Data = [] ∧ Sample.entry.Caller = none ∧
    Sample.escFillFormatter.Format Sample.env Sample.entry = some (
      "INFO   [\x1b[31m\x1b[31m Server \x1b[31m\x1b[31m\x1b[31m]      Starting\n".toList, none) ∧
    "\x1b[".toList <:+:
      "INFO   [\x1b[31m\x1b[31m Server \x1b[31m\x1b[31m\x1b[31m]      Starting\n".toList := by
  refine ⟨rfl, by decide, rfl, rfl, by decide, by decide⟩

/-- C13, amended: for every entry whose message, field keys and values and displayed
caller path contain no escape character, and every formatter with colors off whose fill
string contains none either, whatever `ColorBrackets`, `TagStyle`, `ShowCaller` and
`ShowTimestamp` are, the output of `Format` contains no escape character, hence no color
escape sequence `\x1b[`; and `formatCommon` returns an empty color code and an empty reset
code for every level. -/
theorem C13_no_colors_no_escape (f : CustomFormatter) (env : Env) (entry : Entry)
    (hc : f.UseColors = false) (hm : ESC ∉ entry.Message)
    (hd : ∀ p ∈ entry.Data, ESC ∉ p.1 ∧ ESC ∉ fmt.v (some p.2))
    (hpath : ∀ caller, entry.Caller = some caller → ESC ∉ f.callerPath env caller)
    (hp : ESC ∉ f.PaddingChar) :
    (∃ out : GoStr, f.Format env entry = some (out, none) ∧ ESC ∉ out ∧
      ¬ "\x1b[".toList <:+: out) ∧
    (f.formatCommon entry).2.2.2.1 = [] ∧ (f.formatCommon entry).2.2.2.2 = [] := by
  have hplain : ∀ c, isPlain c = true → c ≠ ESC := by
    intro c hpc h
    rw [h] at hpc
    exact absurd hpc (by decide)
  have hall : ∀ c ∈ f.line env entry, c ≠ ESC := by
    apply forall_line (fun c => c ≠ ESC) f env entry hplain
    · intro h
      rw [hc] at h
      cases h
    · unfold CustomFormatter.fill
      split_ifs
      · decide
      · exact fun c hcm h => hp (h ▸ hcm)
    · exact fun c hcm h => hm (h ▸ hcm)
    · intro p hpd
      exact ⟨fun c hcm h => (hd p hpd).1 (h ▸ hcm), fun c hcm h => (hd p hpd).2 (h ▸ hcm)⟩
    · exact forall_callerSegment_plain (fun c => c ≠ ESC) f env entry hc hplain (by decide)
        (by decide) (fun caller hcl c hcm h => hpath caller hcl (h ▸ hcm))
  have hno : ESC ∉ f.line env entry := fun h => hall ESC h rfl
  refine ⟨⟨f.line env entry, Format_eq f env entry, hno, ?_⟩, ?_, ?_⟩
  · intro hin
    exact hno (hin.subset (by decide))
  · unfold CustomFormatter.formatCommon
    simp only [hc, Bool.false_eq_true, if_false]
  · unfold CustomFormatter.formatCommon
    simp only [hc, Bool.false_eq_true, if_false]

theorem C13_no_colors_no_escape_witness :
    Sample.formatter.UseColors = false ∧ ESC ∉ Sample.callerEntry.Message ∧
    (∀ p ∈ Sample.callerEntry.Data, ESC ∉ p.1 ∧ ESC ∉ fmt.v (some p.2)) ∧
    (∀ caller, Sample.callerEntry.Caller = some caller →
      ESC ∉ Sample.formatter.callerPath Sample.env caller) ∧
    ESC ∉ Sample.formatter.PaddingChar ∧
    ∃ out : GoStr, Sample.formatter.Format Sample.env Sample.callerEntry = some (out, none) ∧
      ESC ∉ out ∧ ¬ "\x1b[".toList <:+: out :=
  have hpath : ∀ caller, Sample.callerEntry.Caller = some caller →
      ESC ∉ Sample.formatter.callerPath Sample.env caller := by
    intro caller h
    have hcl : caller = Sample.caller := (Option.some.inj h).symm
    rw [hcl]
    decide
  ⟨rfl, by decide, by decide, hpath, by decide,
    (C13_no_colors_no_escape Sample.formatter Sample.env Sample.callerEntry rfl (by decide)
      (by decide) hpath (by decide)).1⟩

/-- C14, as stated, fails: with `UseColors` true and `ColorBrackets` false, the message
`[\x1b[31mA] x`, whose tag text holds a color code, gets a tag segment that contains
that color code. -/
theorem C14_counterexample :
    Sample.plainTagFormatter.UseColors = true ∧ Sample.plainTagFormatter.ColorBrackets = false ∧
    Sample.plainTagFormatter.displayTag Sample.redTagEntry.Message = "[\x1b[31mA]".toList ∧
    Sample.plainTagFormatter.Format Sample.env Sample.redTagEntry = some (
      "\x1b[32mINFO  \x1b[0m [\x1b[31mA]             x\n".toList, none) ∧
    "\x1b[31m".toList <:+: "[\x1b[31mA]".toList := by
  refine ⟨rfl, rfl, by decide, by decide, by decide⟩

/-- C14, amended: when `UseColors` is true but `ColorBrackets` is false, for every message
and tag style the tag segment `Format` writes equals the tag segment written with
`UseColors` false; and when the tag text and the fill string contain no escape character
the tag segment contains none, hence no color code. -/
theorem C14_tag_uncolored (f : CustomFormatter) (env : Env) (entry : Entry)
    (hc : f.UseColors = true) (hb : f.ColorBrackets = false) :
    f.displayTag entry.Message =
      ({ f with UseColors := false } : CustomFormatter).displayTag entry.Message ∧
    f.Format env entry = some (
      f.lineHead entry ++ f.displayTag entry.Message ++ f.gutter entry.Message ++ [' '] ++
      remainingMessage entry.Message ++ f.fieldsSegment entry.Data ++
      f.callerSegment env entry ++ ['\n'], none) ∧
    ({ f with UseColors := false } : CustomFormatter).Format env entry = some (
      ({ f with UseColors := false } : CustomFormatter).lineHead entry ++
      f.displayTag entry.Message ++ f.gutter entry.Message ++ [' '] ++
      remainingMessage entry.Message ++
      ({ f with UseColors := false } : CustomFormatter).fieldsSegment entry.Data ++
      ({ f with UseColors := false } : CustomFormatter).callerSegment env entry ++ ['\n'], none) ∧
    (∀ inner : GoStr, tagInner entry.Message = some inner → ESC ∉ inner →
      ESC ∉ f.PaddingChar → ESC ∉ f.displayTag entry.Message) := by
  have hst : ∀ inner : GoStr,
      f.styleTag inner = ({ f with UseColors := false } : CustomFormatter).styleTag inner :=
    fun inner => styleTag_uncolored f { f with UseColors := false } inner (by rw [hc, hb]; rfl)
      rfl rfl rfl rfl
  have hdt : f.displayTag entry.Message =
      ({ f with UseColors := false } : CustomFormatter).displayTag entry.Message := by
    unfold CustomFormatter.displayTag
    cases tagInner entry.Message with
    | none => rfl
    | some inner => simp only [hst inner]
  have hg : f.gutter entry.Message =
      ({ f with UseColors := false } : CustomFormatter).gutter entry.Message := by
    unfold CustomFormatter.gutter
    rw [hdt]
    rfl
  refine ⟨hdt, Format_eq f env entry, ?_, ?_⟩
  · rw [Format_eq, hdt, hg]
    rfl
  · intro inner hi hesc hp
    rw [hdt]
    have hplain : ∀ c, isPlain c = true → c ≠ ESC := by
      intro c hpc h
      rw [h] at hpc
      exact absurd hpc (by decide)
    have hall : ∀ c ∈ ({ f with UseColors := false } : CustomFormatter).displayTag entry.Message,
        c ≠ ESC := by
      unfold CustomFormatter.displayTag
      rw [hi]
      simp only []
      apply forall_styleTag (fun c => c ≠ ESC) { f with UseColors := false } inner _ hplain
      · intro h
        cases h
      · unfold CustomFormatter.fill
        split_ifs
        · decide
        · exact fun c hcm h => hp (h ▸ hcm)
      · exact fun c hcm h => hesc (h ▸ hcm)
      · exact styleTag_eq _ inner
    exact fun h => hall ESC h rfl

theorem C14_tag_uncolored_witness :
    Sample.plainTagFormatter.UseColors = true ∧ Sample.plainTagFormatter.ColorBrackets = false ∧
    Sample.plainTagFormatter.displayTag Sample.entry.Message =
      Sample.formatter.displayTag Sample.entry.Message :=
  ⟨rfl, rfl,
    (C14_tag_uncolored Sample.plainTagFormatter Sample.env Sample.entry rfl rfl).1.trans
      (by decide)⟩

/-- C15: for every entry the display level name is the upper-cased level name with
`WARNING` replaced by `WARN` (`DEBUG`, `INFO`, `WARN`, `ERROR`, `FATAL`, and also `PANIC`
and `TRACE`); `Format` writes the level segment right after the timestamp segment, and that
segment contains the display name and never the spelling `WARNING`. -/
theorem C15_display_level (f : CustomFormatter) (env : Env) (entry : Entry) :
    (f.formatCommon entry).2.1 =
      (if strings.ToUpper entry.Level.String = "WARNING".toList then "WARN".toList
       else strings.ToUpper entry.Level.String) ∧
    ((f.formatCommon (Sample.atLevel DebugLevel)).2.1 = "DEBUG".toList ∧
      (f.formatCommon (Sample.atLevel InfoLevel)).2.1 = "INFO".toList ∧
      (f.formatCommon (Sample.atLevel WarnLevel)).2.1 = "WARN".toList ∧
      (f.formatCommon (Sample.atLevel ErrorLevel)).2.1 = "ERROR".toList ∧
      (f.formatCommon (Sample.atLevel FatalLevel)).2.1 = "FATAL".toList ∧
      (f.formatCommon (Sample.atLevel PanicLevel)).2.1 = "PANIC".toList ∧
      (f.formatCommon (Sample.atLevel TraceLevel)).2.1 = "TRACE".toList) ∧
    f.Format env entry = some (
      f.timestampSegment entry ++ f.levelSegment entry ++
      (f.displayTag entry.Message ++ f.gutter entry.Message ++ [' '] ++
        remainingMessage entry.Message ++ f.fieldsSegment entry.Data ++
        f.callerSegment env entry ++ ['\n']), none) ∧
    (f.formatCommon entry).2.1 <:+: f.levelSegment entry ∧
    ¬ "WARNING".toList <:+: f.levelSegment entry := by
  refine ⟨rfl, ⟨?_, ?_, ?_, ?_, ?_, ?_, ?_⟩, Format_head f env entry, ?_, ?_⟩
  · show displayLevel (Sample.atLevel DebugLevel) = _
    decide
  · show displayLevel (Sample.atLevel InfoLevel) = _
    decide
  · show displayLevel (Sample.atLevel WarnLevel) = _
    decide
  · show displayLevel (Sample.atLevel ErrorLevel) = _
    decide
  · show displayLevel (Sample.atLevel FatalLevel) = _
    decide
  · show displayLevel (Sample.atLevel PanicLevel) = _
    decide
  · show displayLevel (Sample.atLevel TraceLevel) = _
    decide
  · show displayLevel entry <:+: f.levelSegment entry
    unfold CustomFormatter.levelSegment
    exact ⟨(f.formatCommon entry).2.2.2.1,
      List.replicate (6 - len (displayLevel entry)) ' ' ++ (f.formatCommon entry).2.2.2.2 ++
        " ".toList, rfl⟩
  · obtain ⟨n, hn, -, -, hseg, -, -⟩ := levelSegment_sample f entry
    have key : ∀ b : Bool, ∀ k : Fin 8,
        ¬ "WARNING".toList <:+: (Sample.withColors b).levelSegment (Sample.atLevel k.val) := by
      decide
    rw [hseg]
    exact key f.UseColors ⟨n, Nat.lt_succ_of_le hn⟩

/-- C16, as stated, fails: the level name is not padded on its left. For level `Info`
with colors off the level segment is `INFO` followed by two spaces and the separating
space, not two spaces followed by `INFO`. -/
theorem C16_counterexample :
    Sample.entry.Level = InfoLevel ∧ Sample.formatter.UseColors = false ∧
    Sample.formatter.levelSegment Sample.entry = "INFO".toList ++ "  ".toList ++ " ".toList ∧
    Sample.formatter.levelSegment Sample.entry ≠ "  ".toList ++ "INFO".toList ++ " ".toList ∧
    Sample.formatter.Format Sample.env Sample.entry =
      some ("INFO   [Server]        Starting\n".toList, none) := by
  refine ⟨rfl, rfl, by decide, by decide, by decide⟩

/-- C16, amended: for every entry of a valid level, `Format` emits the level segment as
the display level name followed by spaces up to a fixed field of 6 bytes (the name is
left-aligned, the padding stands on its right), with the level color before the name and
the reset code after the padding when colors are enabled, followed by one space. -/
theorem C16_level_segment (f : CustomFormatter) (env : Env) (entry : Entry)
    (hl : entry.Level ≤ 6) :
    f.Format env entry = some (
      f.timestampSegment entry ++ f.levelSegment entry ++
      (f.displayTag entry.Message ++ f.gutter entry.Message ++ [' '] ++
        remainingMessage entry.Message ++ f.fieldsSegment entry.Data ++
        f.callerSegment env entry ++ ['\n']), none) ∧
    f.levelSegment entry =
      (f.formatCommon entry).2.2.2.1 ++
      (displayLevel entry ++ List.replicate (6 - len (displayLevel entry)) ' ') ++
      (f.formatCommon entry).2.2.2.2 ++ [' '] ∧
    len (displayLevel entry ++ List.replicate (6 - len (displayLevel entry)) ' ') = 6 ∧
    (f.UseColors = false →
      f.levelSegment entry =
        displayLevel entry ++ List.replicate (6 - len (displayLevel entry)) ' ' ++ [' ']) ∧
    (f.UseColors = true → (f.formatCommon entry).2.2.2.2 = ColorReset) := by
  have hlen := len_displayLevel entry hl
  refine ⟨Format_head f env entry, ?_, ?_, ?_, ?_⟩
  · unfold CustomFormatter.levelSegment
    simp only [List.append_assoc]
    rfl
  · rw [len_append, len_replicate_space]
    omega
  · intro hc
    unfold CustomFormatter.levelSegment CustomFormatter.formatCommon
    simp only [hc, Bool.false_eq_true, if_false, List.nil_append, List.append_nil,
      List.append_assoc]
    rfl
  · intro hc
    unfold CustomFormatter.formatCommon
    simp only [hc, if_true]

theorem C16_level_segment_witness :
    Sample.entry.Level ≤ 6 ∧
    Sample.colorFormatter.levelSegment Sample.entry = "\x1b[32mINFO  \x1b[0m ".toList :=
  ⟨by decide,
    (C16_level_segment Sample.colorFormatter Sample.env Sample.entry (by decide)).2.1.trans
      (by decide)⟩

/-- C17, as stated, fails: with colors enabled a value that is not a level gets the reset
code `\x1b[0m` as its color code, not an empty one. -/
theorem C17_counterexample :
    Sample.colorFormatter.UseColors = true ∧ (Sample.atLevel 7).Level.String = "unknown".toList ∧
    (Sample.colorFormatter.formatCommon (Sample.atLevel 7)).2.2.2.1 = "\x1b[0m".toList ∧
    (Sample.colorFormatter.formatCommon (Sample.atLevel 7)).2.2.2.1 ≠ [] := by
  refine ⟨rfl, rfl, by decide, by decide⟩

/-- C17, amended: with colors enabled, `formatCommon` gives Panic and Fatal one accent
color (magenta), Trace and Debug another (cyan), and Info (green), Warn (yellow) and
Error (red) a color of their own, the five colors being distinct; an unrecognized level
gets the reset code `\x1b[0m` as its color code. -/
theorem C17_level_colors (f : CustomFormatter) (entry : Entry) (hc : f.UseColors = true) :
    (entry.Level = PanicLevel ∨ entry.Level = FatalLevel →
      (f.formatCommon entry).2.2.2.1 = ColorMagenta) ∧
    (entry.Level = TraceLevel ∨ entry.Level = DebugLevel →
      (f.formatCommon entry).2.2.2.1 = ColorCyan) ∧
    (entry.Level = InfoLevel → (f.formatCommon entry).2.2.2.1 = ColorGreen) ∧
    (entry.Level = WarnLevel → (f.formatCommon entry).2.2.2.1 = ColorYellow) ∧
    (entry.Level = ErrorLevel → (f.formatCommon entry).2.2.2.1 = ColorRed) ∧
    (6 < entry.Level → (f.formatCommon entry).2.2.2.1 = ColorReset) ∧
    [ColorMagenta, ColorCyan, ColorGreen, ColorYellow, ColorRed, ColorReset].Nodup ∧
    (f.formatCommon entry).2.2.2.2 = ColorReset := by
  have hcol : ∀ n : Nat, entry.Level = n → (f.formatCommon entry).2.2.2.1 =
      ((Sample.withColors true).formatCommon (Sample.atLevel n)).2.2.2.1 := by
    intro n hn
    simp only [CustomFormatter.formatCommon, Sample.withColors, Sample.atLevel, hc, hn]
  refine ⟨?_, ?_, ?_, ?_, ?_, ?_, by decide, ?_⟩
  · rintro (h | h) <;> rw [hcol _ h] <;> rfl
  · rintro (h | h) <;> rw [hcol _ h] <;> rfl
  · intro h; rw [hcol _ h]; rfl
  · intro h; rw [hcol _ h]; rfl
  · intro h; rw [hcol _ h]; rfl
  · intro h
    obtain ⟨k, hk⟩ : ∃ k, entry.Level = k + 7 :=
      ⟨entry.Level - 7, (Nat.sub_add_cancel h).symm⟩
    rw [hcol _ hk]
    rfl
  · simp only [CustomFormatter.formatCommon, hc, if_true]

theorem C17_level_colors_witness :
    Sample.colorFormatter.UseColors = true ∧ Sample.callerEntry.Level = ErrorLevel ∧
    (Sample.colorFormatter.formatCommon Sample.callerEntry).2.2.2.1 = "\x1b[31m".toList :=
  ⟨rfl, rfl,
    (C17_level_colors Sample.colorFormatter Sample.callerEntry rfl).2.2.2.2.1 rfl⟩

/-- C18: the timestamp segment is emitted only if `ShowTimestamp` is true. When it is
true the output of `Format` begins with `[`, the time of the entry in the layout
`2006-01-02 15:04:05` (19 bytes for a year of at most four digits), `]` and a space,
followed by the level segment; when it is false the output begins directly with the level
segment, which does not start with a bracket. -/
theorem C18_timestamp_segment (f : CustomFormatter) (env : Env) (entry : Entry) :
    (f.formatCommon entry).1 = entry.Time.Format ∧
    Sample.noon.Format = "2024-01-01 12:00:00".toList ∧
    (entry.Time.year ≤ 9999 → len entry.Time.Format = 19) ∧
    (f.ShowTimestamp = true →
      f.Format env entry = some (
        "[".toList ++ entry.Time.Format ++ "] ".toList ++ f.levelSegment entry ++
        (f.displayTag entry.Message ++ f.gutter entry.Message ++ [' '] ++
          remainingMessage entry.Message ++ f.fieldsSegment entry.Data ++
          f.callerSegment env entry ++ ['\n']), none)) ∧
    (f.ShowTimestamp = false →
      f.Format env entry = some (
        f.levelSegment entry ++
        (f.displayTag entry.Message ++ f.gutter entry.Message ++ [' '] ++
          remainingMessage entry.Message ++ f.fieldsSegment entry.Data ++
          f.callerSegment env entry ++ ['\n']), none) ∧
      (f.levelSegment entry).head? ≠ some '[') := by
  refine ⟨rfl, by decide, len_Time_Format entry.Time, ?_, ?_⟩
  · intro ht
    rw [Format_head]
    unfold CustomFormatter.timestampSegment
    rw [ht, if_pos rfl]
  · intro ht
    constructor
    · rw [Format_head]
      unfold CustomFormatter.timestampSegment
      rw [ht]
      rfl
    · obtain ⟨n, hn, -, -, hseg, -, -⟩ := levelSegment_sample f entry
      have key : ∀ b : Bool, ∀ k : Fin 8,
          ((Sample.withColors b).levelSegment (Sample.atLevel k.val)).head? ≠ some '[' := by
        decide
      rw [hseg]
      exact key f.UseColors ⟨n, Nat.lt_succ_of_le hn⟩

theorem C18_timestamp_segment_witness :
    Sample.stampFormatter.ShowTimestamp = true ∧
    Sample.stampFormatter.Format Sample.env Sample.entry =
      some ("[2024-01-01 09:30:00] INFO   [Server]        Starting\n".toList, none) :=
  ⟨rfl,
    ((C18_timestamp_segment Sample.stampFormatter Sample.env Sample.entry).2.2.2.1 rfl).trans
      (by decide)⟩

/-- C19, as stated, fails twice. In `[[a]] x` the first `[` and the nearest following `]`
enclose `[a`, but the inner text handed to the tag styler is `a`: all leading and trailing
brackets are trimmed. In a message with a newline inside its first bracket pair the first
`[` has a later `]`, yet `Format` takes the later `[c]` as the tag: the pattern does not
cross a newline. -/
theorem C19_counterexample :
    (isTagSplit "[[a]] x".toList [] "[a".toList "] x".toList ∧
      tagInner "[[a]] x".toList = some "a".toList ∧
      Sample.formatter.displayTag "[[a]] x".toList = "[a]".toList ∧
      remainingMessage "[[a]] x".toList = "] x".toList) ∧
    ("[a\nb] [c]".toList = [] ++ '[' :: "a\nb".toList ++ ']' :: " [c]".toList ∧
      ']' ∉ "a\nb".toList ∧
      bracketRegex.FindStringIndex "[a\nb] [c]".toList = some (6, 9) ∧
      tagInner "[a\nb] [c]".toList = some "c".toList ∧
      Sample.formatter.displayTag "[a\nb] [c]".toList = "[c]".toList ∧
      remainingMessage "[a\nb] [c]".toList = "[a\nb]".toList) := by
  refine ⟨⟨⟨by decide, by decide, by decide⟩, by decide, by decide, by decide⟩,
    ⟨by decide, by decide, by decide, by decide, by decide, by decide⟩⟩

/-- C19, amended: for every message, `Format` takes as the tag the first bracket-delimited
substring that lies on one line (from the first `[` that is followed by a `]` with no
newline in between, to the nearest following `]`); it passes to the tag styler the text
between those two brackets with its leading and trailing bracket characters trimmed, which
is exactly that text when it neither starts nor ends with a bracket; every later bracketed
substring stays in the message text; and if the message has no such substring no tag
segment is emitted. -/
theorem C19_first_tag (f : CustomFormatter) (env : Env) (entry : Entry) :
    f.Format env entry = some (
      f.lineHead entry ++ f.displayTag entry.Message ++ f.gutter entry.Message ++ [' '] ++
      remainingMessage entry.Message ++ f.fieldsSegment entry.Data ++
      f.callerSegment env entry ++ ['\n'], none) ∧
    ((∀ pre mid post : GoStr, ¬ isTagSplit entry.Message pre mid post) →
      f.displayTag entry.Message = [] ∧ remainingMessage entry.Message = entry.Message) ∧
    ((∃ pre mid post : GoStr, isTagSplit entry.Message pre mid post) →
      ∃ pre mid post : GoStr, isTagSplit entry.Message pre mid post ∧
        ∀ pre' mid' post' : GoStr, isTagSplit entry.Message pre' mid' post' →
          pre.length ≤ pre'.length) ∧
    (∀ pre mid post : GoStr, isTagSplit entry.Message pre mid post →
      (∀ pre' mid' post' : GoStr, isTagSplit entry.Message pre' mid' post' →
        pre.length ≤ pre'.length) →
      f.styleTag (strings.Trim mid "[]".toList) = some (f.displayTag entry.Message) ∧
      ((∀ c, mid.head? = some c → c ≠ '[' ∧ c ≠ ']') →
        (∀ c, mid.getLast? = some c → c ≠ '[' ∧ c ≠ ']') →
        strings.Trim mid "[]".toList = mid) ∧
      remainingMessage entry.Message = strings.TrimSpace (pre ++ post) ∧
      (∀ m : GoStr, ('[' :: m ++ [']']) <:+: post →
        ('[' :: m ++ [']']) <:+: remainingMessage entry.Message)) := by
  refine ⟨Format_eq f env entry, ?_, ?_, ?_⟩
  · intro hno
    rcases tag_cases entry.Message with ⟨-, -, hti, hrm⟩ | ⟨p, m, q, hs, -⟩
    · exact ⟨displayTag_of_no_tag f _ hti, hrm⟩
    · exact absurd hs (hno p m q)
  · rintro ⟨pre, mid, post, h⟩
    rcases tag_cases entry.Message with ⟨-, hno, -, -⟩ | ⟨p, m, q, hs, hm, -⟩
    · exact absurd h (hno pre mid post)
    · exact ⟨p, m, q, hs, hm⟩
  · intro pre mid post h hmin
    obtain ⟨-, hti, hrm⟩ := first_split entry.Message pre mid post h hmin
    refine ⟨displayTag_of_inner f _ _ hti, ?_, hrm, ?_⟩
    · intro h1 h2
      apply Trim_eq_self
      · intro c hc
        obtain ⟨ha, hb⟩ := h1 c hc
        simp [ha, hb]
      · intro c hc
        obtain ⟨ha, hb⟩ := h2 c hc
        simp [ha, hb]
    · intro m hin
      rw [hrm]
      unfold strings.TrimSpace
      apply infix_trim strings.isSpace _ _ '[' ']'
      · obtain ⟨a, b, hab⟩ := hin
        exact ⟨pre ++ a, b, by rw [← hab]; simp only [List.append_assoc]⟩
      · rfl
      · decide
      · rw [List.getLast?_append]
        rfl
      · decide

theorem C19_first_tag_witness :
    isTagSplit Sample.callerEntry.Message [] "Server".toList " Starting".toList ∧
    Sample.formatter.styleTag (strings.Trim "Server".toList "[]".toList) =
      some "[Server]".toList ∧
    remainingMessage Sample.callerEntry.Message = "Starting".toList :=
  have h := (C19_first_tag Sample.formatter Sample.env Sample.callerEntry).2.2.2 []
    "Server".toList " Starting".toList ⟨by decide, by decide, by decide⟩
    (fun _ _ _ _ => Nat.zero_le _)
  ⟨⟨by decide, by decide, by decide⟩, h.1.trans (by decide), h.2.2.1.trans (by decide)⟩

/-- C20, as stated, fails twice. For `a [T] b` the white space on both sides of the tag
is kept: the remaining text is `a  b`. For ` a[T]b ` the leading and the trailing space,
neither of which is adjacent to the tag, are dropped: the remaining text is `ab`. -/
theorem C20_counterexample :
    (isTagSplit "a [T] b".toList "a ".toList "T".toList " b".toList ∧
      remainingMessage "a [T] b".toList = "a  b".toList ∧
      Sample.formatter.Format Sample.env { Sample.entry with Message := "a [T] b".toList } =
        some ("INFO   [T]             a  b\n".toList, none)) ∧
    (isTagSplit " a[T]b ".toList " a".toList "T".toList "b ".toList ∧
      remainingMessage " a[T]b ".toList = "ab".toList ∧
      Sample.formatter.Format Sample.env { Sample.entry with Message := " a[T]b ".toList } =
        some ("INFO   [T]             ab\n".toList, none)) := by
  refine ⟨⟨⟨by decide, by decide, by decide⟩, by decide, by decide⟩,
    ⟨⟨by decide, by decide, by decide⟩, by decide, by decide⟩⟩

/-- C20, amended: when a tag is found, for every position of the tag in the message,
`Format` removes the tag, joins the text before it and the text after it, trims the white
space at the two ends of that joined text and appends the result: nothing but leading and
trailing white space is dropped, and no character is added or changed (white space next
to a tag in the middle of the message is kept); when no tag is found the whole message is
appended verbatim. -/
theorem C20_remaining_message (f : CustomFormatter) (env : Env) (entry : Entry) :
    f.Format env entry = some (
      (f.lineHead entry ++ f.displayTag entry.Message ++ f.gutter entry.Message ++ [' ']) ++
      remainingMessage entry.Message ++
      (f.fieldsSegment entry.Data ++ f.callerSegment env entry ++ ['\n']), none) ∧
    ((∀ pre mid post : GoStr, ¬ isTagSplit entry.Message pre mid post) →
      remainingMessage entry.Message = entry.Message) ∧
    (∀ pre mid post : GoStr, isTagSplit entry.Message pre mid post →
      (∀ pre' mid' post' : GoStr, isTagSplit entry.Message pre' mid' post' →
        pre.length ≤ pre'.length) →
      remainingMessage entry.Message = strings.TrimSpace (pre ++ post) ∧
      ∃ l r : GoStr, pre ++ post = l ++ remainingMessage entry.Message ++ r ∧
        (∀ c ∈ l, strings.isSpace c = true) ∧ (∀ c ∈ r, strings.isSpace c = true) ∧
        (∀ c, (remainingMessage entry.Message).head? = some c → strings.isSpace c = false) ∧
        (∀ c, (remainingMessage entry.Message).getLast? = some c →
          strings.isSpace c = false)) := by
  refine ⟨?_, ?_, ?_⟩
  · rw [Format_eq]
    simp only [CustomFormatter.line, List.append_assoc]
  · intro hno
    rcases tag_cases entry.Message with ⟨-, -, -, hrm⟩ | ⟨p, m, q, hs, -⟩
    · exact hrm
    · exact absurd hs (hno p m q)
  · intro pre mid post h hmin
    obtain ⟨-, -, hrm⟩ := first_split entry.Message pre mid post h hmin
    refine ⟨hrm, ?_⟩
    rw [hrm]
    exact trim_split strings.isSpace (pre ++ post)

theorem C20_remaining_message_witness :
    isTagSplit Sample.entry.Message [] "Server".toList " Starting".toList ∧
    remainingMessage Sample.entry.Message = "Starting".toList :=
  ⟨⟨by decide, by decide, by decide⟩,
    ((C20_remaining_message Sample.formatter Sample.env Sample.entry).2.2 []
      "Server".toList " Starting".toList ⟨by decide, by decide, by decide⟩
      (fun _ _ _ _ => Nat.zero_le _)).1.trans (by decide)⟩
/-! ## Properties of segments that concatenation keeps -/

theorem Segmental.nil {P : Char → Prop} {Q : GoStr → Prop} (h : Segmental P Q) : Q [] :=
  h.ofChars [] (fun _ hc => absurd hc (List.not_mem_nil _))

theorem Segmental.ofFixed {P : Char → Prop} {Q : GoStr → Prop} (h : Segmental P Q) (s : GoStr)
    (hs : ∀ c ∈ s, c ∈ fixedChars) : Q s :=
  h.ofChars s (fun c hc => h.fixed c (hs c hc))

theorem Segmental.spaces {P : Char → Prop} {Q : GoStr → Prop} (h : Segmental P Q) (n : Nat) :
    Q (List.replicate n ' ') :=
  h.ofFixed _ (fun c hc => by rw [List.eq_of_mem_replicate hc]; decide)

theorem Segmental.code {P : Char → Prop} {Q : GoStr → Prop} (h : Segmental P Q) (b : Bool)
    (code : GoStr) (hc : code ∈ colorCodes) : Q (if b = true then code else []) := by
  cases b
  · exact h.nil
  · exact h.codes code hc

theorem digitChar_fixed (k : Nat) : Nat.digitChar k ∈ fixedChars :=
  digitChar_cases (fun c => c ∈ fixedChars) (by decide) (by decide) (by decide) (by decide)
    (by decide) (by decide) (by decide) (by decide) (by decide) (by decide) (by decide)
    (by decide) (by decide) (by decide) (by decide) (by decide) (by decide) k

theorem fmt_d_fixed (i : Int) : ∀ c ∈ fmt.d i, c ∈ fixedChars := by
  unfold fmt.d
  split_ifs
  · intro c hc
    rcases List.mem_cons.mp hc with h | h
    · rw [h]; decide
    · exact toDigits_forall _ digitChar_fixed 10 _ c h
  · exact toDigits_forall _ digitChar_fixed 10 _

theorem displayLevel_fixed (entry : Entry) : ∀ c ∈ displayLevel entry, c ∈ fixedChars := by
  unfold displayLevel
  by_cases h : entry.Level ≤ 6
  · have key : ∀ n : Nat, n ≤ 6 → n = 0 ∨ n = 1 ∨ n = 2 ∨ n = 3 ∨ n = 4 ∨ n = 5 ∨ n = 6 := by
      intro n hn; omega
    rcases key entry.Level h with h | h | h | h | h | h | h <;> rw [h] <;> decide
  · rw [Level_String_unknown _ (not_le.mp h)]
    decide

theorem colorCode_mem (f : CustomFormatter) (entry : Entry) (hc : f.UseColors = true) :
    (f.formatCommon entry).2.2.2.1 ∈ colorCodes ∧ (f.formatCommon entry).2.2.2.2 = ColorReset := by
  obtain ⟨n, hn, -, -, -, -, h⟩ := levelSegment_sample f entry
  refine ⟨?_, ?_⟩
  · rw [h, hc]
    interval_cases n <;> decide
  · simp only [CustomFormatter.formatCommon, hc, if_true]

theorem colorCode_off (f : CustomFormatter) (entry : Entry) (hc : f.UseColors = false) :
    (f.formatCommon entry).2.2.2.1 = [] ∧ (f.formatCommon entry).2.2.2.2 = [] := by
  simp only [CustomFormatter.formatCommon, hc, Bool.false_eq_true, if_false, and_self]

/-- The level segment carries every segmental property. -/
theorem Segmental.levelSegment {P : Char → Prop} {Q : GoStr → Prop} (h : Segmental P Q)
    (f : CustomFormatter) (entry : Entry) : Q (f.levelSegment entry) := by
  have hl := h.ofFixed _ (displayLevel_fixed entry)
  have hsp := h.ofFixed " ".toList (by decide)
  have hpad := h.spaces (6 - len (displayLevel entry))
  unfold CustomFormatter.levelSegment
  cases hc : f.UseColors with
  | false =>
    rw [(colorCode_off f entry hc).1, (colorCode_off f entry hc).2]
    exact h.append _ _ (h.append _ _ h.nil hl) (h.append _ _ (h.append _ _ hpad h.nil) hsp)
  | true =>
    have h1 := h.codes _ (colorCode_mem f entry hc).1
    have h2 : Q (f.formatCommon entry).2.2.2.2 := by
      rw [(colorCode_mem f entry hc).2]
      exact h.codes _ (by decide)
    exact h.append _ _ (h.append _ _ h1 hl) (h.append _ _ (h.append _ _ hpad h2) hsp)

/-- The text of one field carries every segmental property that its key and its value
carry. -/
theorem Segmental.fieldText {P : Char → Prop} {Q : GoStr → Prop} (h : Segmental P Q)
    (f : CustomFormatter) (data : Fields) (k : GoStr)
    (hdata : ∀ p ∈ data, (∀ c ∈ p.1, P c) ∧ (∀ c ∈ fmt.v (some p.2), P c))
    (hk : k ∈ data.map Prod.fst) : Q (f.fieldText k (data.get k)) := by
  have heq := h.ofFixed "=".toList (by decide)
  have hkey : Q k := by
    obtain ⟨p, hp, rfl⟩ := List.mem_map.mp hk
    exact h.ofChars _ (hdata p hp).1
  have hval : Q (fmt.v (data.get k)) := by
    cases hg : data.get k with
    | none => exact h.ofFixed _ (by decide)
    | some v =>
      have hm : (k, v) ∈ data := by
        unfold Fields.get at hg
        obtain ⟨l₁, l₂, rfl, -⟩ := List.lookup_eq_some_iff.mp hg
        simp
      exact h.ofChars _ (hdata (k, v) hm).2
  unfold CustomFormatter.fieldText
  split_ifs with hc
  · have hd := h.codes ColorVeryDimGray (by decide)
    have hg := h.codes ColorGray (by decide)
    have hr := h.codes ColorReset (by decide)
    exact h.append _ _ (h.append _ _ (h.append _ _ (h.append _ _ (h.append _ _ hd hkey) heq) hg)
      hval) hr
  · exact h.append _ _ (h.append _ _ hkey heq) hval

theorem Segmental.loop {P : Char → Prop} {Q : GoStr → Prop} (h : Segmental P Q)
    (f : CustomFormatter) (data : Fields) (n i : Nat) (ks : List GoStr) (b : GoStr) (hb : Q b)
    (hks : ∀ k ∈ ks, Q (f.fieldText k (data.get k))) :
    Q (CustomFormatter.appendFields.loop f data n i ks b) := by
  induction ks generalizing i b with
  | nil => exact hb
  | cons k ks ih =>
    have hft : (if f.UseColors = true then
        b ++ (ColorVeryDimGray ++ k ++ "=".toList ++ ColorGray ++ fmt.v (data.get k) ++ ColorReset)
      else b ++ (k ++ "=".toList ++ fmt.v (data.get k))) = b ++ f.fieldText k (data.get k) := by
      unfold CustomFormatter.fieldText
      split_ifs <;> rfl
    simp only [CustomFormatter.appendFields.loop, hft]
    apply ih
    · have h1 := hks k (List.mem_cons_self _ _)
      have h2 : Q [' '] := h.ofFixed _ (by decide)
      split_ifs
      · exact h.append _ _ (h.append _ _ hb h1) h2
      · exact h.append _ _ hb h1
    · exact fun x hx => hks x (List.mem_cons_of_mem _ hx)

/-- The fields segment carries every segmental property that the keys and the values
carry. -/
theorem Segmental.fieldsSegment {P : Char → Prop} {Q : GoStr → Prop} (h : Segmental P Q)
    (f : CustomFormatter) (data : Fields)
    (hdata : ∀ p ∈ data, (∀ c ∈ p.1, P c) ∧ (∀ c ∈ fmt.v (some p.2), P c)) :
    Q (f.fieldsSegment data) := by
  unfold CustomFormatter.fieldsSegment
  split_ifs
  · unfold CustomFormatter.appendFields
    apply h.loop f data
    · exact h.append _ _ h.nil (h.ofFixed _ (by decide))
    · intro k hk
      exact h.fieldText f data k hdata ((sort_perm _).subset hk)
  · exact h.nil

theorem Segmental.replaceDelimited {P : Char → Prop} {Q : GoStr → Prop} (h : Segmental P Q)
    (lb rb : Char) (repl : GoStr → GoStr)
    (hrepl : ∀ b : GoStr, (∀ c ∈ b, P c) → Q (repl b)) (s : GoStr) (hs : ∀ c ∈ s, P c)
    (skip : Nat) : Q (replaceDelimited lb rb repl skip s) := by
  induction s generalizing skip with
  | nil => cases skip <;> exact h.nil
  | cons c cs ih =>
    have hcs : ∀ x ∈ cs, P x := fun x hx => hs x (List.mem_cons_of_mem _ hx)
    cases skip with
    | succ k =>
      rw [Pretty.replaceDelimited]
      exact ih hcs k
    | zero =>
      rw [Pretty.replaceDelimited]
      split
      · apply h.append _ _ (hrepl _ _) (ih hcs _)
        intro x hx
        rcases List.mem_cons.mp hx with hx | hx
        · rw [hx]; exact hs c (List.mem_cons_self _ _)
        · exact hcs x (List.mem_of_mem_take hx)
      · have h1 : Q [c] := h.ofChars _ (fun x hx => by
          rw [List.mem_singleton.mp hx]; exact hs c (List.mem_cons_self _ _))
        exact h.append [c] _ h1 (ih hcs 0)

/-- The caller information carries every segmental property that the displayed path
carries. -/
theorem Segmental.formatCallerInfo {P : Char → Prop} {Q : GoStr → Prop} (h : Segmental P Q)
    (f : CustomFormatter) (env : Env) (entry : Entry)
    (hpath : ∀ caller, entry.Caller = some caller → ∀ c ∈ f.callerPath env caller, P c) :
    Q (f.formatCallerInfo env entry) := by
  cases hcl : entry.Caller with
  | none =>
    have : f.formatCallerInfo env entry = [] := by
      unfold CustomFormatter.formatCallerInfo
      rw [hcl]
    rw [this]
    exact h.nil
  | some caller =>
    have hinfo : ∀ c ∈ "└─ at (".toList ++ f.callerPath env caller ++ ":".toList ++
        fmt.d caller.Line ++ ")".toList, P c := by
      simp only [List.forall_mem_append]
      exact ⟨⟨⟨⟨fun c hc => h.fixed c (by revert c; decide), hpath caller hcl⟩,
        fun c hc => h.fixed c (by revert c; decide)⟩,
        fun c hc => h.fixed c (fmt_d_fixed _ c hc)⟩, fun c hc => h.fixed c (by revert c; decide)⟩
    rw [formatCallerInfo_eq f env entry caller hcl]
    split_ifs
    · apply h.replaceDelimited _ _ _ _ _ hinfo
      intro b hb
      exact h.append _ _ (h.append _ _ (h.codes _ (by decide)) (h.ofChars b hb))
        (h.codes _ (by decide))
    · exact h.ofChars _ hinfo
/-! ## Brackets that open no timestamp -/

theorem stampFree_append (a b : GoStr) (ha : stampFree a = true) (hb : stampFree b = true) :
    stampFree (a ++ b) = true := by
  induction a with
  | nil => exact hb
  | cons c cs ih =>
    rw [stampFree, Bool.and_eq_true] at ha
    rw [List.cons_append, stampFree, Bool.and_eq_true]
    refine ⟨?_, ih ha.2⟩
    rcases Bool.or_eq_true_iff.mp ha.1 with h | h
    · rw [h]; rfl
    · rw [Bool.or_eq_true_iff]
      right
      obtain ⟨d, hd, hdd⟩ := List.any_eq_true.mp h
      refine List.any_eq_true.mpr ⟨d, ?_, hdd⟩
      have hpre : cs.take 3 <+: (cs ++ b).take 3 := by
        rw [List.take_append_eq_append_take]
        exact List.prefix_append _ _
      exact hpre.subset hd

theorem stampFree_of_forall (s : GoStr) (h : ∀ c ∈ s, c ≠ '[') : stampFree s = true := by
  induction s with
  | nil => rfl
  | cons c cs ih =>
    rw [stampFree, Bool.and_eq_true]
    refine ⟨?_, ih (fun x hx => h x (List.mem_cons_of_mem _ hx))⟩
    have hc := h c (List.mem_cons_self _ _)
    simp [hc]

theorem stampFree_suffix (a b : GoStr) (h : stampFree (a ++ b) = true) : stampFree b = true := by
  induction a with
  | nil => exact h
  | cons c cs ih =>
    rw [List.cons_append, stampFree, Bool.and_eq_true] at h
    exact ih h.2

/-- The property `stampFree` is segmental over the alphabet without `[`. -/
theorem segmental_stampFree : Segmental (fun c => c ≠ '[') (fun s => stampFree s = true) where
  ofChars := stampFree_of_forall
  append := stampFree_append
  fixed := by decide
  codes := by decide

/-- For a code point `x` outside the fixed text and the color codes, the strings without
`x` form a segmental property. -/
theorem segmental_ne (x : Char) (hx : x ∉ fixedChars) (hcodes : ∀ code ∈ colorCodes, x ∉ code) :
    Segmental (fun c => c ≠ x) (fun s => ∀ c ∈ s, c ≠ x) where
  ofChars := fun _ h => h
  append := fun _ _ ha hb => List.forall_mem_append.mpr ⟨ha, hb⟩
  fixed := fun _ hc h => hx (h ▸ hc)
  codes := fun code hcode _ hc h => hcodes code hcode (h ▸ hc)

theorem toDigitsCore_isDigit (fuel n : Nat) (acc : List Char)
    (hacc : ∀ c ∈ acc, c.isDigit = true) :
    ∀ c ∈ Nat.toDigitsCore 10 fuel n acc, c.isDigit = true := by
  induction fuel generalizing n acc with
  | zero => simpa [Nat.toDigitsCore] using hacc
  | succ fuel ih =>
    have hd : (Nat.digitChar (n % 10)).isDigit = true := by
      have hlt : n % 10 < 10 := Nat.mod_lt _ (by decide)
      interval_cases (n % 10) <;> decide
    have hcons : ∀ c ∈ Nat.digitChar (n % 10) :: acc, c.isDigit = true := by
      intro c hc
      rcases List.mem_cons.mp hc with h | h
      · rw [h]; exact hd
      · exact hacc c h
    simp only [Nat.toDigitsCore]
    split_ifs
    · exact hcons
    · exact ih _ _ hcons

theorem appendInt_isDigit (x w : Nat) : ∀ c ∈ Time.appendInt x w, c.isDigit = true := by
  unfold Time.appendInt
  simp only [List.forall_mem_append]
  refine ⟨fun c hc => ?_, ?_⟩
  · rw [List.eq_of_mem_replicate hc]; decide
  · exact toDigitsCore_isDigit _ _ [] (fun _ h => absurd h (List.not_mem_nil _))

theorem appendInt_length (x w : Nat) : w ≤ (Time.appendInt x w).length := by
  unfold Time.appendInt
  simp only [List.length_append, List.length_replicate]
  omega

/-- A string in which no bracket opens a timestamp contains no timestamp in brackets. -/
theorem stampFree_no_timestamp (s : GoStr) (h : stampFree s = true) (t : Time) :
    ¬ ("[".toList ++ t.Format ++ "]".toList) <:+: s := by
  rintro ⟨pre, suf, hs⟩
  have h1 : stampFree ('[' :: (t.Format ++ "]".toList ++ suf)) = true := by
    apply stampFree_suffix pre
    have he : pre ++ '[' :: (t.Format ++ "]".toList ++ suf) = s := by
      rw [← hs]
      simp [List.append_assoc]
    rw [he]
    exact h
  rw [stampFree, Bool.and_eq_true] at h1
  rcases Bool.or_eq_true_iff.mp h1.1 with h2 | h2
  · exact absurd h2 (by decide)
  · obtain ⟨d, hd, hdd⟩ := List.any_eq_true.mp h2
    have hform : t.Format ++ "]".toList ++ suf = Time.appendInt t.year 4 ++
        ("-".toList ++ Time.appendInt (t.month.val + 1) 2 ++
        "-".toList ++ Time.appendInt (t.day.val + 1) 2 ++ " ".toList ++
        Time.appendInt t.hour.val 2 ++ ":".toList ++ Time.appendInt t.minute.val 2 ++
        ":".toList ++ Time.appendInt t.second.val 2 ++ "]".toList ++ suf) := by
      unfold Time.Format
      simp only [List.append_assoc]
    rw [hform, List.take_append_of_le_length
      (le_trans (by decide) (appendInt_length t.year 4))] at hd
    have := appendInt_isDigit _ _ d (List.mem_of_mem_take hd)
    rw [this] at hdd
    exact absurd hdd (by decide)
/-! ## The dispatcher -/

theorem writes_append (a b : List Event) : writes (a ++ b) = writes a ++ writes b := by
  induction a with
  | nil => rfl
  | cons ev es ih =>
    cases ev with
    | write w p =>
      show (w, p) :: writes (es ++ b) = (w, p) :: writes es ++ writes b
      rw [ih]; rfl
    | diag t =>
      show writes (es ++ b) = writes es ++ writes b
      exact ih

/-- No formatter of the package panics. -/
theorem Formatter_Format_some (lib : Lib) (env : Env) (fm : Formatter) (e : Entry) :
    ∃ r : GoStr × Option GoError, fm.Format lib env e = some r := by
  cases fm with
  | json => exact ⟨_, rfl⟩
  | custom f => exact ⟨_, Format_eq f env e⟩
  | text c => exact ⟨_, rfl⟩

/-- The loop of `WriteEntry` ends, and the writes it adds are those of the destinations
whose formatter succeeds, one each, in order. -/
theorem loop_writes (lib : Lib) (env : Env) (e : Entry) (ps : List writerPair)
    (log : List Event) :
    ∃ log' : List Event, MultiWriter.WriteEntry.loop lib env e ps log = some log' ∧
      writes log' = writes log ++ ps.filterMap (writerPair.output lib env e) := by
  induction ps generalizing log with
  | nil => exact ⟨log, rfl, by simp⟩
  | cons p ps ih =>
    obtain ⟨⟨buf, err⟩, hr⟩ := Formatter_Format_some lib env p.f e
    cases err with
    | some err =>
      obtain ⟨log', h1, h2⟩ := ih (log ++ [Event.diag ("log format err: ".toList ++ err ++
        "\n".toList)])
      refine ⟨log', ?_, ?_⟩
      · rw [MultiWriter.WriteEntry.loop, hr]
        exact h1
      · rw [h2, writes_append, List.filterMap_cons]
        simp only [writerPair.output, hr, writes, List.append_nil]
    | none =>
      cases hw : lib.Write log p.w buf with
      | some werr =>
        obtain ⟨log', h1, h2⟩ := ih (log ++ [Event.write p.w buf,
          Event.diag ("log write err: ".toList ++ werr ++ "\n".toList)])
        refine ⟨log', ?_, ?_⟩
        · rw [MultiWriter.WriteEntry.loop, hr]
          simp only [hw]
          exact h1
        · rw [h2, writes_append, List.filterMap_cons]
          simp only [writerPair.output, hr, writes, List.append_assoc, List.singleton_append]
      | none =>
        obtain ⟨log', h1, h2⟩ := ih (log ++ [Event.write p.w buf])
        refine ⟨log', ?_, ?_⟩
        · rw [MultiWriter.WriteEntry.loop, hr]
          simp only [hw]
          exact h1
        · rw [h2, writes_append, List.filterMap_cons]
          simp only [writerPair.output, hr, writes, List.append_assoc, List.singleton_append]

/-- When every formatter and every sink succeeds, the loop of `WriteEntry` adds exactly
one write per destination and nothing else. -/
theorem loop_success (lib : Lib) (env : Env) (e : Entry) (ps : List writerPair)
    (hok : ∀ p ∈ ps, ∃ buf : GoStr, p.f.Format lib env e = some (buf, none) ∧
      ∀ log : List Event, lib.Write log p.w buf = none) (log : List Event) :
    ∃ evs : List Event, MultiWriter.WriteEntry.loop lib env e ps log = some (log ++ evs) ∧
      List.Forall₂ (fun p ev => ∃ buf : GoStr, p.f.Format lib env e = some (buf, none) ∧
        ev = Event.write p.w buf) ps evs := by
  induction ps generalizing log with
  | nil => exact ⟨[], by simp [MultiWriter.WriteEntry.loop], List.Forall₂.nil⟩
  | cons p ps ih =>
    obtain ⟨buf, hf, hw⟩ := hok p (List.mem_cons_self _ _)
    obtain ⟨evs, h1, h2⟩ := ih (fun q hq => hok q (List.mem_cons_of_mem _ hq))
      (log ++ [Event.write p.w buf])
    refine ⟨Event.write p.w buf :: evs, ?_, List.Forall₂.cons ⟨buf, hf, rfl⟩ h2⟩
    rw [MultiWriter.WriteEntry.loop, hf]
    simp only [hw]
    rw [h1, List.append_assoc, List.singleton_append]
/-! ## The resolver: lower case and white space -/

theorem toLower_cases (c : Char) : c.toLower = c ∨ (65 ≤ c.toNat ∧ c.toNat ≤ 90) := by
  unfold Char.toLower
  simp only []
  split_ifs with h
  · exact Or.inr h
  · exact Or.inl rfl

theorem upper_cases (P : Char → Prop) (c : Char) (h : 65 ≤ c.toNat ∧ c.toNat ≤ 90)
    (hP : ∀ u ∈ "ABCDEFGHIJKLMNOPQRSTUVWXYZ".toList, P u) : P c := by
  obtain ⟨n, hn⟩ : ∃ n, c.toNat = n := ⟨_, rfl⟩
  have hc : c = Char.ofNat n := by rw [← hn, Char.ofNat_toNat]
  rw [hn] at h
  obtain ⟨h1, h2⟩ := h
  subst hc
  apply hP
  interval_cases n <;> decide

theorem ToLower_toLower (lower : Char → Char) (c : Char) :
    strings.ToLower lower [c.toLower] = strings.ToLower lower [c] := by
  rcases toLower_cases c with h | h
  · rw [h]
  · refine upper_cases (fun c => strings.ToLower lower [c.toLower] = strings.ToLower lower [c]) c
      h ?_
    intro u hu
    simp only [String.toList, List.mem_cons, List.mem_singleton, List.not_mem_nil, or_false]
      at hu
    rcases hu with h | h | h | h | h | h | h | h | h | h | h | h | h | h | h | h | h | h | h | h |
      h | h | h | h | h | h <;> rw [h] <;> rfl

theorem ToLower_map_toLower (lower : Char → Char) (s : GoStr) :
    strings.ToLower lower (s.map Char.toLower) = strings.ToLower lower s := by
  induction s with
  | nil => rfl
  | cons c cs ih =>
    have h := ToLower_toLower lower c
    unfold strings.ToLower at *
    simp only [List.map_cons, List.map_nil, List.cons.injEq, and_true] at h
    simp only [List.map_cons, h, ih]

theorem isSpace_toLower (c : Char) : strings.isSpace c.toLower = strings.isSpace c := by
  rcases toLower_cases c with h | h
  · rw [h]
  · exact upper_cases (fun c => strings.isSpace c.toLower = strings.isSpace c) c h (by decide)

theorem TrimSpace_map_toLower (s : GoStr) :
    strings.TrimSpace (s.map Char.toLower) = (strings.TrimSpace s).map Char.toLower := by
  have hcomp : (strings.isSpace ∘ Char.toLower) = strings.isSpace :=
    funext fun c => isSpace_toLower c
  have hr : ∀ l : GoStr, (l.map Char.toLower).rdropWhile strings.isSpace =
      (l.rdropWhile strings.isSpace).map Char.toLower := by
    intro l
    unfold List.rdropWhile
    rw [← List.map_reverse, List.dropWhile_map, hcomp, List.map_reverse]
  unfold strings.TrimSpace
  rw [List.dropWhile_map, hcomp, hr]

/-- The key that the parsers of the resolver compare is the same for two strings that
differ only in the case of their ASCII letters. -/
theorem key_fold (lower : Char → Char) (s t : GoStr) (h : sameFold s t) :
    strings.ToLower lower (strings.TrimSpace s) = strings.ToLower lower (strings.TrimSpace t) := by
  unfold sameFold at h
  rw [← ToLower_map_toLower lower (strings.TrimSpace s), ← TrimSpace_map_toLower, h,
    TrimSpace_map_toLower, ToLower_map_toLower]

theorem TrimSpace_cons (c : Char) (s : GoStr) (h : strings.isSpace c = true) :
    strings.TrimSpace (c :: s) = strings.TrimSpace s := by
  unfold strings.TrimSpace
  rw [List.dropWhile_cons_of_pos h]

theorem TrimSpace_concat (s : GoStr) (c : Char) (h : strings.isSpace c = true) :
    strings.TrimSpace (s ++ [c]) = strings.TrimSpace s := by
  induction s with
  | nil =>
    unfold strings.TrimSpace
    rw [List.nil_append, List.dropWhile_cons_of_pos h]
  | cons d ds ih =>
    by_cases hd : strings.isSpace d = true
    · rw [List.cons_append, TrimSpace_cons _ _ hd, TrimSpace_cons _ _ hd, ih]
    · unfold strings.TrimSpace
      rw [List.cons_append, List.dropWhile_cons_of_neg hd, List.dropWhile_cons_of_neg hd,
        ← List.cons_append, List.rdropWhile_concat_pos _ _ _ h]

/-- The key that the parsers of the resolver compare does not change when white space is
put around the string. -/
theorem TrimSpace_pad (a s b : GoStr) (ha : ∀ c ∈ a, strings.isSpace c = true)
    (hb : ∀ c ∈ b, strings.isSpace c = true) :
    strings.TrimSpace (a ++ s ++ b) = strings.TrimSpace s := by
  induction a with
  | nil =>
    rw [List.nil_append]
    induction b using List.reverseRecOn with
    | nil => rw [List.append_nil]
    | append_singleton bs c ih =>
      rw [← List.append_assoc, TrimSpace_concat _ _ (hb c (by simp))]
      exact ih (fun x hx => hb x (by simp [hx]))
  | cons c cs ih =>
    rw [List.cons_append, List.cons_append, TrimSpace_cons _ _ (ha c (List.mem_cons_self _ _))]
    exact ih (fun x hx => ha x (List.mem_cons_of_mem _ hx))

theorem ParseLevel_nil (lib : Lib) : logrus.ParseLevel lib [] = none := rfl

theorem setOutput_eq (c : Config) (lib : Lib) (environ : Environ) (l : Logger) :
    c.setOutput lib environ l =
      if c.outputKind lib environ = OutputFile then
        { l with Out := Writer.File (NewLumberjackLogger c.Filename DefaultLogFileConfig) }
      else if c.outputKind lib environ = OutputMulti then
        { l with
          Out := Writer.Discard,
          Hooks := l.Hooks ++ [CustomHook.mk
            (((NewMultiWriter (MultiWriterWithFormattersConfig.mk (c.getFormat lib environ)
              c.ShowCaller c.CustomFormat)).AddWriter Writer.Stdout true false).AddWriter
              (Writer.File (NewLumberjackLogger c.Filename DefaultLogFileConfig)) false true)] }
      else { l with Out := Writer.Stdout } := by
  unfold Config.setOutput Config.outputKind
  cases c.Output with
  | some o => rfl
  | none => rfl

/-- The method `setLevel` changes the level of the logger and nothing else. -/
theorem setLevel_eq (c : Config) (lib : Lib) (environ : Environ) (l : Logger) :
    c.setLevel lib environ l = { l with Level := (c.setLevel lib environ l).Level } := by
  unfold Config.setLevel
  cases c.Level with
  | some lv => rfl
  | none =>
    simp only []
    split_ifs
    · split <;> rfl
    · rfl

/-! ## C21: the result of `Format` -/

theorem not_suffix_of_tail (x : Char) (a s : GoStr) (hs : s ≠ []) (h : ∀ c ∈ s, c ≠ x) :
    ¬ [x] <:+ a ++ s := by
  rintro ⟨t, ht⟩
  have hr := congrArg List.reverse ht
  rw [List.reverse_append, List.reverse_append] at hr
  cases hsr : s.reverse with
  | nil => exact hs (List.reverse_eq_nil_iff.mp hsr)
  | cons y ys =>
    rw [hsr] at hr
    simp only [List.reverse_cons, List.reverse_nil, List.nil_append, List.singleton_append,
      List.cons_append, List.cons.injEq] at hr
    have hy : y ∈ s := by
      rw [← List.mem_reverse, hsr]
      exact List.mem_cons_self _ _
    exact h y hy hr.1.symm

theorem fieldsSegment_ne_nil (f : CustomFormatter) (data : Fields) (h : data.length > 0) :
    f.fieldsSegment data ≠ [] := by
  unfold CustomFormatter.fieldsSegment
  rw [if_pos h]
  unfold CustomFormatter.appendFields
  simp only []
  rw [appendFields_loop_builder]
  simp

/-- C21, as stated, fails: for the message `done\n`, which has no tag, `Format` returns
the message verbatim and then its own newline, so that the output is terminated by two
newlines and not by a single one. -/
theorem C21_counterexample :
    Sample.formatter.Format Sample.env Sample.newlineEntry =
      some ("INFO                   done\n\n".toList, none) ∧
    ¬ endsInSingleNewline "INFO                   done\n\n".toList := by
  refine ⟨by decide, ?_⟩
  rintro ⟨body, hb, hn⟩
  have hb' : "INFO                   done\n".toList ++ ['\n'] = body ++ ['\n'] := by
    rw [← hb]; rfl
  have := List.append_cancel_right hb'
  rw [← this] at hn
  exact hn (by decide)

/-- C21, amended: for every formatter configuration and every entry, `Format` returns a
nil error together with a non-empty byte sequence that ends in a newline; `Format` writes
that newline once after the last segment, and the output ends in exactly one newline
whenever the message, the field keys and values and the displayed caller path hold no
newline. -/
theorem C21_newline_terminated (f : CustomFormatter) (env : Env) (entry : Entry) :
    ∃ out : GoStr, f.Format env entry = some (out, none) ∧ out ≠ [] ∧
      (∃ body : GoStr, out = body ++ ['\n']) ∧
      ('\n' ∉ entry.Message →
        (∀ p ∈ entry.Data, '\n' ∉ p.1 ∧ '\n' ∉ fmt.v (some p.2)) →
        (∀ caller, entry.Caller = some caller → '\n' ∉ f.callerPath env caller) →
        endsInSingleNewline out) := by
  refine ⟨f.line env entry, Format_eq f env entry, ?_, ⟨_, rfl⟩, ?_⟩
  · unfold CustomFormatter.line
    simp
  intro hm hd hp
  refine ⟨_, rfl, ?_⟩
  have hseg := segmental_ne '\n' (by decide) (by decide)
  have hmsg : ∀ c ∈ entry.Message, c ≠ '\n' := fun c hc h => hm (h ▸ hc)
  by_cases hshow : (f.ShowCaller && decide (entry.Level ≤ f.CallerLevel)) = true
  · -- the caller line comes last: its indentation is not empty
    have hcs : f.callerSegment env entry = "\n".toList ++
        (List.replicate f.prefixWidth.toNat ' ' ++ f.formatCallerInfo env entry) := by
      unfold CustomFormatter.callerSegment
      rw [if_pos hshow, List.append_assoc]
    rw [hcs, ← List.append_assoc]
    apply not_suffix_of_tail
    · have hpos : 0 < f.prefixWidth.toNat := by
        have := maxPadding_pos f
        unfold CustomFormatter.prefixWidth
        split_ifs <;> omega
      intro h
      have hl := congrArg List.length h
      simp only [List.length_append, List.length_replicate, List.length_nil] at hl
      omega
    · have hinfo := hseg.formatCallerInfo f env entry
        (fun caller hcl c hc h => hp caller hcl (h ▸ hc))
      exact List.forall_mem_append.mpr ⟨fun c hc => by
        rw [List.eq_of_mem_replicate hc]; decide, hinfo⟩
  · have hcs : f.callerSegment env entry = [] := by
      unfold CustomFormatter.callerSegment
      rw [if_neg hshow]
    rw [hcs, List.append_nil]
    by_cases hdata : entry.Data.length > 0
    · -- the fields come last
      apply not_suffix_of_tail _ _ _ (fieldsSegment_ne_nil f _ hdata)
      exact hseg.fieldsSegment f entry.Data (fun p hp' =>
        ⟨fun c hc h => (hd p hp').1 (h ▸ hc), fun c hc h => (hd p hp').2 (h ▸ hc)⟩)
    · -- the message comes last, after the separating space
      have hfs : f.fieldsSegment entry.Data = [] := by
        unfold CustomFormatter.fieldsSegment
        rw [if_neg hdata]
      rw [hfs, List.append_nil, List.append_assoc]
      apply not_suffix_of_tail _ _ _ (by simp)
      have hrem := forall_remainingMessage (fun c => c ≠ '\n') _ hmsg
      exact List.forall_mem_append.mpr ⟨by decide, hrem⟩

theorem C21_newline_terminated_witness :
    ∃ out : GoStr, Sample.formatter.Format Sample.env Sample.callerEntry = some (out, none) ∧
      out ≠ [] ∧ (∃ body : GoStr, out = body ++ ['\n']) ∧ endsInSingleNewline out := by
  obtain ⟨out, h1, h2, h3, h4⟩ :=
    C21_newline_terminated Sample.formatter Sample.env Sample.callerEntry
  refine ⟨out, h1, h2, h3, h4 (by decide) (by decide) ?_⟩
  intro caller hc
  have : caller = Sample.caller := by
    have h : some Sample.caller = some caller := hc
    exact (Option.some.inj h).symm
  rw [this]
  decide

/-! ## C22 to C26: the dispatcher -/

/-- C22: a new `MultiWriter` holds no destination; `AddWriter` appends exactly one pair,
with the given sink, after the existing ones; and when every formatter and every sink of
the pairs succeeds, `WriteEntry` performs exactly one `Write` per pair and nothing else, in
the order of the pairs, each with the bytes that the formatter of that pair returns for
the entry, and returns nil. -/
theorem C22_dispatch_in_order (lib : Lib) (env : Env) (cfg : MultiWriterWithFormattersConfig)
    (mw : MultiWriter) (w : Writer) (useColors showTime : Bool) (e : Entry) :
    (NewMultiWriter cfg).pairs = [] ∧
    (∃ f : Formatter,
      (mw.AddWriter w useColors showTime).pairs = mw.pairs ++ [{ w := w, f := f }]) ∧
    ((∀ p ∈ mw.pairs, ∃ buf : GoStr, p.f.Format lib env e = some (buf, none) ∧
        ∀ log : List Event, lib.Write log p.w buf = none) →
      ∃ evs : List Event, mw.WriteEntry lib env e = some (evs, none) ∧
        List.Forall₂ (fun p ev => ∃ buf : GoStr, p.f.Format lib env e = some (buf, none) ∧
          ev = Event.write p.w buf) mw.pairs evs) := by
  refine ⟨rfl, ⟨_, rfl⟩, ?_⟩
  intro hok
  obtain ⟨evs, h1, h2⟩ := loop_success lib env e mw.pairs hok []
  refine ⟨evs, ?_, h2⟩
  unfold MultiWriter.WriteEntry
  rw [h1]
  rfl

set_option maxRecDepth 8000 in
theorem C22_dispatch_in_order_witness :
    (NewMultiWriter Sample.plainConfig).pairs = [] ∧
    (∃ f : Formatter, (Sample.twoWriters.AddWriter (Writer.Buffer 3) false false).pairs =
      Sample.twoWriters.pairs ++ [{ w := Writer.Buffer 3, f := f }]) ∧
    ∃ evs : List Event, Sample.twoWriters.WriteEntry Sample.lib Sample.env Sample.entry =
        some (evs, none) ∧
      List.Forall₂ (fun p ev => ∃ buf : GoStr,
          p.f.Format Sample.lib Sample.env Sample.entry = some (buf, none) ∧
          ev = Event.write p.w buf) Sample.twoWriters.pairs evs := by
  have h := C22_dispatch_in_order Sample.lib Sample.env Sample.plainConfig Sample.twoWriters
    (Writer.Buffer 3) false false Sample.entry
  refine ⟨h.1, h.2.1, h.2.2 ?_⟩
  intro p hp
  refine ⟨(p.f.Format Sample.lib Sample.env Sample.entry).elim [] Prod.fst, ?_, fun _ => rfl⟩
  revert p
  decide

/-- C23: for every entry and every list of destinations, whatever the formatters and the
sinks return, `WriteEntry` returns nil, and the `Write` calls it performs are, in the order
of the destinations, exactly one for each destination whose own formatter succeeds, with
the bytes of that formatter: a failure of the formatter or of the sink of one destination
takes no write away from another. -/
theorem C23_failure_isolation (lib : Lib) (env : Env) (mw : MultiWriter) (e : Entry) :
    ∃ log : List Event, mw.WriteEntry lib env e = some (log, none) ∧
      writes log = mw.pairs.filterMap (writerPair.output lib env e) ∧
      ∀ p ∈ mw.pairs, ∀ buf : GoStr, p.f.Format lib env e = some (buf, none) →
        (p.w, buf) ∈ writes log := by
  obtain ⟨log, h1, h2⟩ := loop_writes lib env e mw.pairs []
  have h3 : writes log = mw.pairs.filterMap (writerPair.output lib env e) := by
    rw [h2]; rfl
  refine ⟨log, ?_, h3, ?_⟩
  · unfold MultiWriter.WriteEntry
    rw [h1]
    rfl
  · intro p hp buf hf
    rw [h3, List.mem_filterMap]
    refine ⟨p, hp, ?_⟩
    simp only [writerPair.output, hf]

set_option maxRecDepth 8000 in
/-- The sink `Buffer 1` rejects its write; `Buffer 2`, bound after it, still receives the
line. -/
theorem C23_failure_isolation_witness :
    Sample.buffers.WriteEntry Sample.failingLib Sample.env Sample.entry = some (
      [Event.write (Writer.Buffer 1) "INFO   [Server]        Starting\n".toList,
        Event.diag "log write err: disk full\n".toList,
        Event.write (Writer.Buffer 2) "INFO   [Server]        Starting\n".toList], none) ∧
    ∃ log : List Event,
      Sample.buffers.WriteEntry Sample.failingLib Sample.env Sample.entry = some (log, none) ∧
      writes log =
        Sample.buffers.pairs.filterMap (writerPair.output Sample.failingLib Sample.env Sample.entry) := by
  obtain ⟨log, h1, h2, -⟩ :=
    C23_failure_isolation Sample.failingLib Sample.env Sample.buffers Sample.entry
  exact ⟨by decide, log, h1, h2⟩

/-- C24: with a custom formatter configured, `AddWriter(w, useColors, showTime)` appends the
pair of `w` and a copy of the base formatter whose `UseColors` and `ShowTimestamp` are the
arguments and whose other seven fields are those of the base formatter; the configuration,
with the base formatter in it, and the pairs bound before stay as they were. -/
theorem C24_override_two_axes (mw : MultiWriter) (base : CustomFormatter) (w : Writer)
    (useColors showTime : Bool) (h : mw.cfg.customFormat = some base) :
    ∃ f : CustomFormatter,
      mw.AddWriter w useColors showTime =
        { pairs := mw.pairs ++ [{ w := w, f := Formatter.custom f }], cfg := mw.cfg } ∧
      f.UseColors = useColors ∧ f.ShowTimestamp = showTime ∧
      f.ShowCaller = base.ShowCaller ∧ f.CallerLevel = base.CallerLevel ∧
      f.UseRelativePath = base.UseRelativePath ∧ f.BracketPadding = base.BracketPadding ∧
      f.ColorBrackets = base.ColorBrackets ∧ f.TagStyle = base.TagStyle ∧
      f.PaddingChar = base.PaddingChar ∧
      (mw.AddWriter w useColors showTime).cfg.customFormat = some base ∧
      mw.pairs <+: (mw.AddWriter w useColors showTime).pairs := by
  refine ⟨{ base with UseColors := useColors, ShowTimestamp := showTime }, ?_, rfl, rfl, rfl,
    rfl, rfl, rfl, rfl, rfl, rfl, h, List.prefix_append _ _⟩
  unfold MultiWriter.AddWriter
  simp only [h]

theorem C24_override_two_axes_witness :
    ∃ f : CustomFormatter,
      Sample.customWriter.AddWriter (Writer.Buffer 1) true true =
        { pairs := Sample.customWriter.pairs ++
            [{ w := Writer.Buffer 1, f := Formatter.custom f }],
          cfg := Sample.customWriter.cfg } ∧
      f.UseColors = true ∧ f.ShowTimestamp = true ∧
      f.ShowCaller = Sample.formatter.ShowCaller ∧
      f.CallerLevel = Sample.formatter.CallerLevel ∧
      f.UseRelativePath = Sample.formatter.UseRelativePath ∧
      f.BracketPadding = Sample.formatter.BracketPadding ∧
      f.ColorBrackets = Sample.formatter.ColorBrackets ∧
      f.TagStyle = Sample.formatter.TagStyle ∧ f.PaddingChar = Sample.formatter.PaddingChar ∧
      (Sample.customWriter.AddWriter (Writer.Buffer 1) true true).cfg.customFormat =
        some Sample.formatter ∧
      Sample.customWriter.pairs <+:
        (Sample.customWriter.AddWriter (Writer.Buffer 1) true true).pairs :=
  C24_override_two_axes Sample.customWriter Sample.formatter (Writer.Buffer 1) true true rfl

theorem no_tag_of_no_bracket (message : GoStr) (h : '[' ∉ message) :
    tagInner message = none ∧ remainingMessage message = message := by
  rcases tag_cases message with ⟨-, -, h1, h2⟩ | ⟨pre, mid, post, hsplit, -⟩
  · exact ⟨h1, h2⟩
  · exfalso
    apply h
    rw [hsplit.1]
    simp

/-- A line written with colors, without timestamp, for an entry whose texts hold no `[`:
it starts with a color code, contains the reset code, and none of its brackets opens a
timestamp. -/
theorem colored_line (f : CustomFormatter) (env : Env) (e : Entry) (hc : f.UseColors = true)
    (hts : f.ShowTimestamp = false) (hm : '[' ∉ e.Message)
    (hd : ∀ p ∈ e.Data, '[' ∉ p.1 ∧ '[' ∉ fmt.v (some p.2))
    (hp : ∀ caller, e.Caller = some caller → '[' ∉ f.callerPath env caller) :
    (∃ code ∈ colorCodes, code <+: f.line env e) ∧ ColorReset <:+: f.line env e ∧
    stampFree (f.line env e) = true := by
  have hseg := segmental_stampFree
  have hhead : f.lineHead e = (f.formatCommon e).2.2.2.1 ++ (displayLevel e ++
      List.replicate (6 - len (displayLevel e)) ' ') ++ (ColorReset ++ " ".toList) := by
    unfold CustomFormatter.lineHead
    rw [hts, (colorCode_mem f e hc).2]
    simp only [Bool.false_eq_true, if_false, List.nil_append, List.append_assoc]
  refine ⟨⟨_, (colorCode_mem f e hc).1, ?_⟩, ?_, ?_⟩
  · unfold CustomFormatter.line
    rw [hhead]
    simp only [List.append_assoc]
    exact List.prefix_append _ _
  · unfold CustomFormatter.line
    rw [hhead]
    refine ⟨(f.formatCommon e).2.2.2.1 ++ (displayLevel e ++
      List.replicate (6 - len (displayLevel e)) ' '), " ".toList ++ (f.displayTag e.Message ++
      f.gutter e.Message ++ [' '] ++ remainingMessage e.Message ++ f.fieldsSegment e.Data ++
      f.callerSegment env e ++ ['\n']), ?_⟩
    simp only [List.append_assoc]
  · have h1 : stampFree (f.lineHead e) = true := by
      rw [lineHead_eq]
      have : f.timestampSegment e = [] := by
        unfold CustomFormatter.timestampSegment
        rw [hts]
        rfl
      rw [this, List.nil_append]
      exact hseg.levelSegment f e
    have h2 : stampFree (f.displayTag e.Message) = true := by
      rw [displayTag_of_no_tag f _ (no_tag_of_no_bracket _ hm).1]
      rfl
    have h3 : stampFree (f.gutter e.Message) = true := hseg.spaces _
    have h4 : stampFree [' '] = true := rfl
    have h5 : stampFree (remainingMessage e.Message) = true := by
      rw [(no_tag_of_no_bracket _ hm).2]
      exact hseg.ofChars _ (fun c hc h => hm (h ▸ hc))
    have h6 : stampFree (f.fieldsSegment e.Data) = true :=
      hseg.fieldsSegment f e.Data (fun p hp' =>
        ⟨fun c hc h => (hd p hp').1 (h ▸ hc), fun c hc h => (hd p hp').2 (h ▸ hc)⟩)
    have h7 : stampFree (f.callerSegment env e) = true := by
      unfold CustomFormatter.callerSegment
      split_ifs
      · exact hseg.append _ _ (hseg.append _ _ rfl (hseg.spaces _))
          (hseg.formatCallerInfo f env e (fun caller hcl c hc h => hp caller hcl (h ▸ hc)))
      · rfl
    have h8 : stampFree ['\n'] = true := rfl
    unfold CustomFormatter.line
    exact hseg.append _ _ (hseg.append _ _ (hseg.append _ _ (hseg.append _ _ (hseg.append _ _
      (hseg.append _ _ (hseg.append _ _ h1 h2) h3) h4) h5) h6) h7) h8

/-- A line written without colors, with timestamp, for an entry whose texts hold no
escape character: it starts with the timestamp in brackets and holds no escape character. -/
theorem stamped_line (f : CustomFormatter) (env : Env) (e : Entry) (hc : f.UseColors = false)
    (hts : f.ShowTimestamp = true) (hfill : ESC ∉ f.PaddingChar) (hm : ESC ∉ e.Message)
    (hd : ∀ p ∈ e.Data, ESC ∉ p.1 ∧ ESC ∉ fmt.v (some p.2))
    (hp : ∀ caller, e.Caller = some caller → ESC ∉ f.callerPath env caller) :
    ("[".toList ++ e.Time.Format ++ "] ".toList) <+: f.line env e ∧ ESC ∉ f.line env e := by
  refine ⟨?_, ?_⟩
  · refine ⟨f.levelSegment e ++ (f.displayTag e.Message ++ f.gutter e.Message ++ [' '] ++
      remainingMessage e.Message ++ f.fieldsSegment e.Data ++ f.callerSegment env e ++ ['\n']),
      ?_⟩
    unfold CustomFormatter.line
    rw [lineHead_eq]
    unfold CustomFormatter.timestampSegment
    rw [hts]
    simp only [if_true, List.append_assoc]
  · have hplain : ∀ c, isPlain c = true → c ≠ ESC := by
      intro c hpc h
      rw [h] at hpc
      exact absurd hpc (by decide)
    have hall : ∀ c ∈ f.line env e, c ≠ ESC := by
      apply forall_line (fun c => c ≠ ESC) f env e hplain
      · intro h
        rw [hc] at h
        cases h
      · unfold CustomFormatter.fill
        split_ifs
        · decide
        · exact fun c hcm h => hfill (h ▸ hcm)
      · exact fun c hcm h => hm (h ▸ hcm)
      · exact fun p hp' => ⟨fun c hcm h => (hd p hp').1 (h ▸ hcm),
          fun c hcm h => (hd p hp').2 (h ▸ hcm)⟩
      · exact forall_callerSegment_plain (fun c => c ≠ ESC) f env e hc hplain (by decide)
          (by decide) (fun caller hcl c hcm h => hp caller hcl (h ▸ hcm))
    exact fun h => hall ESC h rfl

/-- C25: a dispatcher for the plain format, without custom formatter, with a console
destination bound with colors and without timestamp and a file destination bound without
colors and with timestamp, writes for every entry (of any level) whose message, field keys
and values and displayed caller path hold neither an escape character nor a `[`: to the
console a line that starts with a color code `\x1b[...`, contains the reset code and
contains no timestamp in brackets, and to the file a line that starts with the timestamp
in brackets and contains no escape character, hence no color code. -/
theorem C25_console_and_file (lib : Lib) (env : Env) (cfg : MultiWriterWithFormattersConfig)
    (console file : Writer) (e : Entry) (hf : cfg.format = FormatPlain)
    (hcf : cfg.customFormat = none) (hm : ESC ∉ e.Message ∧ '[' ∉ e.Message)
    (hd : ∀ p ∈ e.Data, (ESC ∉ p.1 ∧ '[' ∉ p.1) ∧
      (ESC ∉ fmt.v (some p.2) ∧ '[' ∉ fmt.v (some p.2)))
    (hp : ∀ caller, e.Caller = some caller →
      ESC ∉ (plainFormatter cfg.showCaller true false).callerPath env caller ∧
      '[' ∉ (plainFormatter cfg.showCaller true false).callerPath env caller) :
    ∃ (log : List Event) (out₁ out₂ : GoStr),
      (((NewMultiWriter cfg).AddWriter console true false).AddWriter file false true).WriteEntry
        lib env e = some (log, none) ∧
      writes log = [(console, out₁), (file, out₂)] ∧
      "\x1b[".toList <+: out₁ ∧ ColorReset <:+: out₁ ∧
      (∀ t : Time, ¬ ("[".toList ++ t.Format ++ "]".toList) <:+: out₁) ∧
      ("[".toList ++ e.Time.Format ++ "] ".toList) <+: out₂ ∧
      ESC ∉ out₂ ∧ ¬ "\x1b[".toList <:+: out₂ := by
  have hpairs : (((NewMultiWriter cfg).AddWriter console true false).AddWriter file false
      true).pairs = [{ w := console, f := Formatter.custom (plainFormatter cfg.showCaller true
        false) }, { w := file, f := Formatter.custom (plainFormatter cfg.showCaller false true) }] := by
    simp only [MultiWriter.AddWriter, NewMultiWriter, hcf, hf, plainFormatter]
    rfl
  obtain ⟨log, h1, h2⟩ := loop_writes lib env e (((NewMultiWriter cfg).AddWriter console true
    false).AddWriter file false true).pairs []
  have h3 : writes log = [(console, (plainFormatter cfg.showCaller true false).line env e),
      (file, (plainFormatter cfg.showCaller false true).line env e)] := by
    rw [h2, hpairs]
    simp only [writes, List.nil_append, List.filterMap_cons, List.filterMap_nil,
      writerPair.output, Formatter.Format, Format_eq]
  obtain ⟨⟨code, hcode, hpre⟩, hreset, hfree⟩ := colored_line
    (plainFormatter cfg.showCaller true false) env e rfl rfl hm.2
    (fun p hp' => ⟨(hd p hp').1.2, (hd p hp').2.2⟩) (fun caller hcl => (hp caller hcl).2)
  obtain ⟨hstamp, hesc⟩ := stamped_line (plainFormatter cfg.showCaller false true) env e rfl rfl
    (List.not_mem_nil _) hm.1 (fun p hp' => ⟨(hd p hp').1.1, (hd p hp').2.1⟩)
    (fun caller hcl => (hp caller hcl).1)
  refine ⟨log, _, _, ?_, h3, ?_, hreset, stampFree_no_timestamp _ hfree, hstamp, hesc, ?_⟩
  · unfold MultiWriter.WriteEntry
    rw [h1]
    rfl
  · have hstart : ∀ c ∈ colorCodes, "\x1b[".toList <+: c := by decide
    exact (hstart code hcode).trans hpre
  · rintro ⟨a, b, hab⟩
    apply hesc
    rw [← hab]
    simp [ESC]

set_option maxRecDepth 8000 in
theorem C25_console_and_file_witness :
    ∃ (log : List Event) (out₁ out₂ : GoStr),
      Sample.twoWriters.WriteEntry Sample.lib Sample.env Sample.plainEntry = some (log, none) ∧
      writes log = [(Writer.Stdout, out₁),
        (Writer.File (NewLumberjackLogger "app.log".toList DefaultLogFileConfig), out₂)] ∧
      "\x1b[".toList <+: out₁ ∧ ColorReset <:+: out₁ ∧
      (∀ t : Time, ¬ ("[".toList ++ t.Format ++ "]".toList) <:+: out₁) ∧
      ("[".toList ++ Sample.plainEntry.Time.Format ++ "] ".toList) <+: out₂ ∧
      ESC ∉ out₂ ∧ ¬ "\x1b[".toList <:+: out₂ := by
  refine C25_console_and_file Sample.lib Sample.env Sample.plainConfig Writer.Stdout
    (Writer.File (NewLumberjackLogger "app.log".toList DefaultLogFileConfig)) Sample.plainEntry
    rfl rfl (by decide) (by decide) ?_
  intro caller hc
  have : caller = Sample.caller := by
    have h : some Sample.caller = some caller := hc
    exact (Option.some.inj h).symm
  rw [this]
  decide

/-- C26: the formatter that `AddWriter` binds to the new destination is the copy of the
custom formatter whenever one is configured, whatever the format kind; without custom
formatter it is the JSON formatter for `FormatJSON`, a `CustomFormatter` with `ShowCaller`
taken from the configuration of the dispatcher for `FormatPlain`, and the text formatter of
the library for `FormatRaw` and every other value. -/
theorem C26_formatter_selection (mw : MultiWriter) (w : Writer) (useColors showTime : Bool) :
    ∃ f : Formatter,
      (mw.AddWriter w useColors showTime).pairs = mw.pairs ++ [{ w := w, f := f }] ∧
      (∀ base : CustomFormatter, mw.cfg.customFormat = some base →
        f = Formatter.custom { base with UseColors := useColors, ShowTimestamp := showTime }) ∧
      (mw.cfg.customFormat = none → mw.cfg.format = FormatJSON → f = Formatter.json) ∧
      (mw.cfg.customFormat = none → mw.cfg.format = FormatPlain →
        f = Formatter.custom
          { UseColors := useColors, ShowCaller := mw.cfg.showCaller, ShowTimestamp := showTime,
            CallerLevel := WarnLevel, UseRelativePath := true, BracketPadding := 15,
            ColorBrackets := true, TagStyle := StyleDefault, PaddingChar := [] }) ∧
      (mw.cfg.customFormat = none → mw.cfg.format ≠ FormatJSON →
        mw.cfg.format ≠ FormatPlain → f = Formatter.text useColors) := by
  refine ⟨_, rfl, ?_, ?_, ?_, ?_⟩
  · intro base h
    simp only [h]
  · intro h1 h2
    simp only [h1, h2, if_true]
  · intro h1 h2
    simp only [h1, h2]
    rfl
  · intro h1 h2 h3
    simp only [h1, if_neg h2, if_neg h3]

theorem C26_formatter_selection_witness :
    ∃ f : Formatter,
      (Sample.customWriter.AddWriter (Writer.Buffer 1) true false).pairs =
        Sample.customWriter.pairs ++ [{ w := Writer.Buffer 1, f := f }] ∧
      Sample.customWriter.cfg.format = FormatJSON ∧
      f = Formatter.custom { Sample.formatter with UseColors := true, ShowTimestamp := false } := by
  obtain ⟨f, h1, h2, -⟩ :=
    C26_formatter_selection Sample.customWriter (Writer.Buffer 1) true false
  exact ⟨f, h1, rfl, h2 Sample.formatter rfl⟩

/-! ## C27 to C30: the resolver -/

/-- C27: `setLevel` sets the explicit `Level` when there is one, whatever the environment
holds; without it, the level that `logrus.ParseLevel` reads from the value of the level
variable when that value parses; and `Info` when it does not parse, which is the case of a
variable that is not set or empty. It changes nothing else in the logger and has no error
result. -/
theorem C27_level_precedence (c : Config) (lib : Lib) (environ : Environ) (l : Logger) :
    (∀ lv : Level, c.Level = some lv → (c.setLevel lib environ l).Level = lv) ∧
    (c.Level = none → ∀ p : Level,
      logrus.ParseLevel lib (os.Getenv environ c.EnvLevel) = some p →
      (c.setLevel lib environ l).Level = p) ∧
    (c.Level = none → logrus.ParseLevel lib (os.Getenv environ c.EnvLevel) = none →
      (c.setLevel lib environ l).Level = InfoLevel) ∧
    (environ.lookup c.EnvLevel = none ∨ environ.lookup c.EnvLevel = some [] →
      logrus.ParseLevel lib (os.Getenv environ c.EnvLevel) = none) ∧
    c.setLevel lib environ l = { l with Level := (c.setLevel lib environ l).Level } := by
  refine ⟨?_, ?_, ?_, ?_, ?_⟩
  · intro lv h
    unfold Config.setLevel
    rw [h]
  · intro h p hp
    have hne : os.Getenv environ c.EnvLevel ≠ [] := by
      intro he
      rw [he, ParseLevel_nil] at hp
      cases hp
    unfold Config.setLevel
    rw [h]
    simp only [if_pos hne, hp]
  · intro h hp
    unfold Config.setLevel
    rw [h]
    simp only [hp]
    split_ifs <;> rfl
  · intro h
    have he : os.Getenv environ c.EnvLevel = [] := by
      unfold os.Getenv
      rcases h with h | h <;> rw [h] <;> rfl
    rw [he, ParseLevel_nil]
  · exact setLevel_eq c lib environ l

theorem C27_level_precedence_witness :
    ({ Sample.envConfig with Level := some WarnLevel }.setLevel Sample.lib Sample.environ
      logrus.New).Level = WarnLevel ∧
    (Sample.envConfig.setLevel Sample.lib Sample.environ logrus.New).Level = DebugLevel ∧
    (Sample.envConfig.setLevel Sample.lib
      [("TEST_LOG_LEVEL_ENV".toList, "loud".toList)] logrus.New).Level = InfoLevel ∧
    (Sample.envConfig.setLevel Sample.lib [] logrus.New).Level = InfoLevel := by
  refine ⟨(C27_level_precedence _ Sample.lib Sample.environ logrus.New).1 WarnLevel rfl,
    (C27_level_precedence Sample.envConfig Sample.lib Sample.environ logrus.New).2.1 rfl
      DebugLevel (by decide),
    (C27_level_precedence Sample.envConfig Sample.lib
      [("TEST_LOG_LEVEL_ENV".toList, "loud".toList)] logrus.New).2.2.1 rfl (by decide),
    (C27_level_precedence Sample.envConfig Sample.lib [] logrus.New).2.2.1 rfl (by decide)⟩

/-- C28: `getFormat` returns the explicit `Format` when there is one, whatever the
environment holds; without it, the value of the format variable parsed by
`parseFormatType`, which compares the value in lower case and without the white space
around it: `multi` is JSON, `console` is plain, and every other value, the empty value and
the variable that is not set are raw. -/
theorem C28_format_resolution (c : Config) (lib : Lib) (environ : Environ) :
    (∀ fm : FormatType, c.Format = some fm → c.getFormat lib environ = fm) ∧
    (c.Format = none →
      c.getFormat lib environ = parseFormatType lib (os.Getenv environ c.EnvFormat)) ∧
    (∀ s : GoStr, parseFormatType lib s =
      if strings.ToLower lib.ToLower (strings.TrimSpace s) = "multi".toList then FormatJSON
      else if strings.ToLower lib.ToLower (strings.TrimSpace s) = "console".toList then
        FormatPlain
      else FormatRaw) ∧
    (∀ s t : GoStr, sameFold s t → parseFormatType lib s = parseFormatType lib t) ∧
    (∀ a s b : GoStr, (∀ x ∈ a, strings.isSpace x = true) →
      (∀ x ∈ b, strings.isSpace x = true) →
      parseFormatType lib (a ++ s ++ b) = parseFormatType lib s) ∧
    parseFormatType lib "multi".toList = FormatJSON ∧
    parseFormatType lib "console".toList = FormatPlain ∧
    parseFormatType lib [] = FormatRaw ∧
    (c.Format = none → environ.lookup c.EnvFormat = none →
      c.getFormat lib environ = FormatRaw) := by
  refine ⟨?_, ?_, fun _ => rfl, ?_, ?_, rfl, rfl, rfl, ?_⟩
  · intro fm h
    unfold Config.getFormat
    rw [h]
  · intro h
    unfold Config.getFormat
    rw [h]
    by_cases he : os.Getenv environ c.EnvFormat = []
    · simp only [he, ne_eq, not_true_eq_false, if_false]
      rfl
    · simp only [ne_eq, he, not_false_eq_true, if_true]
  · intro s t hst
    unfold parseFormatType
    simp only [key_fold lib.ToLower s t hst]
  · intro a s b ha hb
    unfold parseFormatType
    simp only [TrimSpace_pad a s b ha hb]
  · intro h he
    unfold Config.getFormat os.Getenv
    rw [h, he]
    rfl

theorem C28_format_resolution_witness :
    ({ Sample.envConfig with Format := some FormatJSON }.getFormat Sample.lib Sample.environ) =
      FormatJSON ∧
    Sample.envConfig.getFormat Sample.lib Sample.environ = FormatPlain ∧
    Sample.envConfig.getFormat Sample.lib [] = FormatRaw := by
  refine ⟨(C28_format_resolution _ Sample.lib Sample.environ).1 FormatJSON rfl,
    ((C28_format_resolution Sample.envConfig Sample.lib Sample.environ).2.1 rfl).trans
      (by decide),
    (C28_format_resolution Sample.envConfig Sample.lib []).2.2.2.2.2.2.2.2 rfl rfl⟩

/-- C29: `parseOutputType` returns an output kind for every string and has no error
result; it compares the string in lower case and without the white space around it: `file`
is the file output, `multi` the two destinations, and `console` and every other string the
console. `setOutput` resolves the explicit `Output` when there is one, else the parsed
value of the output variable, which is the console when the variable is not set or empty;
it then installs the rotating file for the file kind, the hook with the console and the
file destination for `multi`, and the standard output for every other kind. -/
theorem C29_output_resolution (c : Config) (lib : Lib) (environ : Environ) (l : Logger) :
    (∀ s : GoStr, parseOutputType lib s =
      if strings.ToLower lib.ToLower (strings.TrimSpace s) = "file".toList then OutputFile
      else if strings.ToLower lib.ToLower (strings.TrimSpace s) = "multi".toList then
        OutputMulti
      else OutputConsole) ∧
    (∀ s t : GoStr, sameFold s t → parseOutputType lib s = parseOutputType lib t) ∧
    (∀ a s b : GoStr, (∀ x ∈ a, strings.isSpace x = true) →
      (∀ x ∈ b, strings.isSpace x = true) →
      parseOutputType lib (a ++ s ++ b) = parseOutputType lib s) ∧
    (parseOutputType lib "file".toList = OutputFile ∧
      parseOutputType lib "multi".toList = OutputMulti ∧
      parseOutputType lib "console".toList = OutputConsole ∧
      parseOutputType lib [] = OutputConsole) ∧
    (∀ o : OutputType, c.Output = some o → c.outputKind lib environ = o) ∧
    (c.Output = none →
      c.outputKind lib environ = parseOutputType lib (os.Getenv environ c.EnvOutput)) ∧
    (c.Output = none → environ.lookup c.EnvOutput = none →
      c.outputKind lib environ = OutputConsole) ∧
    (c.outputKind lib environ = OutputFile →
      c.setOutput lib environ l =
        { l with Out := Writer.File (NewLumberjackLogger c.Filename DefaultLogFileConfig) }) ∧
    (c.outputKind lib environ = OutputMulti →
      ∃ mw : MultiWriter,
        c.setOutput lib environ l =
          { l with Out := Writer.Discard, Hooks := l.Hooks ++ [CustomHook.mk mw] } ∧
        mw.pairs.map (fun p => p.w) = [Writer.Stdout,
          Writer.File (NewLumberjackLogger c.Filename DefaultLogFileConfig)]) ∧
    (c.outputKind lib environ ≠ OutputFile → c.outputKind lib environ ≠ OutputMulti →
      c.setOutput lib environ l = { l with Out := Writer.Stdout }) := by
  refine ⟨?_, ?_, ?_, ⟨rfl, rfl, rfl, rfl⟩, ?_, ?_, ?_, ?_, ?_, ?_⟩
  · intro s
    unfold parseOutputType
    simp only []
    split_ifs <;> rfl
  · intro s t hst
    unfold parseOutputType
    simp only [key_fold lib.ToLower s t hst]
  · intro a s b ha hb
    unfold parseOutputType
    simp only [TrimSpace_pad a s b ha hb]
  · intro o h
    unfold Config.outputKind
    rw [h]
  · intro h
    unfold Config.outputKind
    rw [h]
    by_cases he : os.Getenv environ c.EnvOutput = []
    · simp only [he, ne_eq, not_true_eq_false, if_false]
      rfl
    · simp only [ne_eq, he, not_false_eq_true, if_true]
  · intro h he
    unfold Config.outputKind os.Getenv
    rw [h, he]
    rfl
  · intro h
    rw [setOutput_eq, if_pos h]
  · intro h
    have hne : c.outputKind lib environ ≠ OutputFile := by
      rw [h]
      decide
    refine ⟨((NewMultiWriter (MultiWriterWithFormattersConfig.mk (c.getFormat lib environ)
      c.ShowCaller c.CustomFormat)).AddWriter Writer.Stdout true false).AddWriter
      (Writer.File (NewLumberjackLogger c.Filename DefaultLogFileConfig)) false true, ?_, rfl⟩
    rw [setOutput_eq, if_neg hne, if_pos h]
  · intro h1 h2
    rw [setOutput_eq, if_neg h1, if_neg h2]

theorem C29_output_resolution_witness :
    ({ Sample.envConfig with Output := some OutputConsole }.outputKind Sample.lib
      Sample.environ) = OutputConsole ∧
    Sample.envConfig.outputKind Sample.lib Sample.environ = OutputFile ∧
    (Sample.envConfig.setOutput Sample.lib Sample.environ logrus.New).Out =
      Writer.File (NewLumberjackLogger "test.log".toList DefaultLogFileConfig) ∧
    (Sample.envConfig.setOutput Sample.lib [] logrus.New).Out = Writer.Stdout := by
  have h := C29_output_resolution Sample.envConfig Sample.lib Sample.environ logrus.New
  have h0 := C29_output_resolution Sample.envConfig Sample.lib [] logrus.New
  have hk : Sample.envConfig.outputKind Sample.lib Sample.environ = OutputFile :=
    (h.2.2.2.2.2.1 rfl).trans (by decide)
  refine ⟨(C29_output_resolution _ Sample.lib Sample.environ logrus.New).2.2.2.2.1
    OutputConsole rfl, hk, ?_, ?_⟩
  · rw [h.2.2.2.2.2.2.2.1 hk]
    rfl
  · rw [h0.2.2.2.2.2.2.2.2.2 (by decide) (by decide)]

/-- C30 fails on the code: `New` fills `Output` with `OutputConsole` and `Format` with
`FormatPlain` before it applies the options, so that `setOutput` and `getFormat` always
find an explicit value and never read the output and the format variable. For every
environment a logger built without options writes to the standard output with the plain
formatter; with `LOG_LEVEL=debug`, `LOG_OUTPUT=file` and `LOG_FORMAT=multi` only the level
follows the environment, while the same environment does select the file output and the
JSON format for a configuration whose `Output` and `Format` are not set. -/
theorem C30_output_and_format_variables_ignored (lib : Lib) (environ : Environ) :
    (New lib environ []).Out = Writer.Stdout ∧ (New lib environ []).Hooks = [] ∧
    (New lib environ []).Formatter = Formatter.custom (plainFormatter true true false) ∧
    (New lib environ [WithLevel InfoLevel]).Out = Writer.Stdout ∧
    (New lib Sample.logEnviron []).Level = DebugLevel ∧
    (New lib Sample.logEnviron []).Out = Writer.Stdout ∧
    (New lib Sample.logEnviron []).Formatter = Formatter.custom (plainFormatter true true false) ∧
    (Config.setOutput { EnvOutput := "LOG_OUTPUT".toList } lib Sample.logEnviron logrus.New).Out =
      Writer.File (NewLumberjackLogger [] DefaultLogFileConfig) ∧
    Config.getFormat { EnvFormat := "LOG_FORMAT".toList } lib Sample.logEnviron = FormatJSON := by
  have hooks : (New lib environ []).Hooks = [] := by
    unfold New setup
    simp only [List.foldl_nil]
    rw [setLevel_eq]
    rfl
  exact ⟨rfl, hooks, rfl, rfl, rfl, rfl, rfl, rfl, rfl⟩
/-! ## The colored tag and the fill string -/

theorem coloredTagWithPadding_eq (f : CustomFormatter) (inner : GoStr) (W : Int)
    (style : TagStyle) :
    f.coloredTagWithPadding inner W style = some (
      if style = StyleCenter then
        if (len inner : Int) ≥ (W - 2) - 2 then
          ColorYellow ++ "[".toList ++ inner ++ "]".toList ++ ColorReset
        else ColorYellow ++ ['['] ++ ColorVeryDimGray ++
          (List.replicate ((W - 2 - (len inner : Int) - 2) / 2).toNat f.fill).flatten ++
          ColorYellow ++ [' '] ++ inner ++ [' '] ++ ColorVeryDimGray ++
          (List.replicate ((W - 2 - (len inner : Int) - 2) -
            (W - 2 - (len inner : Int) - 2) / 2).toNat f.fill).flatten ++
          ColorYellow ++ [']'] ++ ColorReset
      else if style = StyleRight then
        if (len inner : Int) ≥ (W - 2) - 1 then
          ColorYellow ++ "[".toList ++ inner ++ "]".toList ++ ColorReset
        else ColorYellow ++ ['['] ++ inner ++ [']'] ++ ColorVeryDimGray ++
          (List.replicate (W - 2 - (len inner : Int) - 1).toNat f.fill).flatten ++
          ColorYellow ++ [' '] ++ ColorReset
      else ColorYellow ++ "[".toList ++ inner ++ "]".toList ++ ColorReset) := by
  unfold CustomFormatter.coloredTagWithPadding
  by_cases hc : style = StyleCenter
  · simp only [hc, if_true]
    by_cases h : (len inner : Int) ≥ (W - 2) - 2
    · simp only [h, if_true]
    · simp only [h, if_false]
      have hpos : 0 ≤ W - 2 - (len inner : Int) - 2 := by omega
      have hdiv : Int.tdiv (W - 2 - (len inner : Int) - 2) 2 =
          (W - 2 - (len inner : Int) - 2) / 2 := Int.tdiv_eq_ediv hpos (by decide)
      rw [hdiv, Repeat_of_nonneg _ _ (by omega), Repeat_of_nonneg _ _ (by omega)]
      rfl
  · simp only [hc, if_false]
    by_cases hr : style = StyleRight
    · simp only [hr, if_true]
      by_cases h : (len inner : Int) ≥ (W - 2) - 1
      · simp only [h, if_true]
      · simp only [h, if_false]
        rw [Repeat_of_nonneg _ _ (by omega)]
        rfl
    · simp only [hr, if_false]

theorem not_mem_flatten_replicate (x : Char) (s : GoStr) (n : Nat) (h : x ∉ s) :
    x ∉ (List.replicate n s).flatten := by
  intro hx
  obtain ⟨l, hl, hxl⟩ := List.mem_flatten.mp hx
  rw [List.eq_of_mem_replicate hl] at hxl
  exact h hxl

theorem stripANSI_ColorReset_nil : stripANSI ColorReset = [] := rfl

/-- The plain colored tag without its color codes. -/
theorem stripANSI_plainTag (inner : GoStr) (hi : ESC ∉ inner) :
    stripANSI (ColorYellow ++ "[".toList ++ inner ++ "]".toList ++ ColorReset) =
      "[".toList ++ inner ++ "]".toList := by
  simp only [List.append_assoc]
  rw [stripANSI_ColorYellow, stripANSI_append_noesc _ _ (by decide),
    stripANSI_append_noesc _ _ hi, stripANSI_append_noesc _ _ (by decide),
    stripANSI_ColorReset_nil, List.append_nil]

/-- The colored tag without its color codes is the uncolored tag of the same style. -/
theorem stripANSI_coloredTag (f : CustomFormatter) (inner : GoStr) (W : Int) (style : TagStyle)
    (hi : ESC ∉ inner) (hf : ESC ∉ f.fill) :
    (f.coloredTagWithPadding inner W style).map stripANSI =
      if style = StyleCenter then f.centerTag inner W
      else if style = StyleRight then f.rightPadTag inner W
      else some ("[".toList ++ inner ++ "]".toList) := by
  rw [coloredTagWithPadding_eq, centerTag_eq, rightPadTag_eq, Option.map_some']
  by_cases hc : style = StyleCenter
  · simp only [hc, if_true]
    by_cases h : (len inner : Int) ≥ (W - 2) - 2
    · simp only [h, if_true]
      rw [stripANSI_plainTag _ hi]
    · simp only [h, if_false, List.append_assoc]
      rw [stripANSI_ColorYellow, stripANSI_append_noesc _ _ (by decide),
        stripANSI_ColorVeryDimGray,
        stripANSI_append_noesc _ _ (not_mem_flatten_replicate _ _ _ hf),
        stripANSI_ColorYellow, stripANSI_append_noesc _ _ (by decide),
        stripANSI_append_noesc _ _ hi, stripANSI_append_noesc _ _ (by decide),
        stripANSI_ColorVeryDimGray,
        stripANSI_append_noesc _ _ (not_mem_flatten_replicate _ _ _ hf),
        stripANSI_ColorYellow, stripANSI_append_noesc _ _ (by decide),
        stripANSI_ColorReset_nil]
      rfl
  · simp only [hc, if_false]
    by_cases hr : style = StyleRight
    · simp only [hr, if_true]
      by_cases h : (len inner : Int) ≥ (W - 2) - 1
      · simp only [h, if_true]
        rw [stripANSI_plainTag _ hi]
      · simp only [h, if_false, List.append_assoc]
        rw [stripANSI_ColorYellow, stripANSI_append_noesc _ _ (by decide),
          stripANSI_append_noesc _ _ hi, stripANSI_append_noesc _ _ (by decide),
          stripANSI_ColorVeryDimGray,
          stripANSI_append_noesc _ _ (not_mem_flatten_replicate _ _ _ hf),
          stripANSI_ColorYellow, stripANSI_append_noesc _ _ (by decide),
          stripANSI_ColorReset_nil]
        rfl
    · simp only [hr, if_false]
      rw [stripANSI_plainTag _ hi]

/-- The styled tag depends on the formatter through the two color flags, the width, the
style and the fill string. -/
theorem styleTag_congr (f g : CustomFormatter) (inner : GoStr) (hu : f.UseColors = g.UseColors)
    (hc : f.ColorBrackets = g.ColorBrackets) (hw : f.BracketPadding = g.BracketPadding)
    (hst : f.TagStyle = g.TagStyle) (hfill : f.fill = g.fill) :
    f.styleTag inner = g.styleTag inner := by
  have hmp : f.maxPadding = g.maxPadding := by
    unfold CustomFormatter.maxPadding
    rw [hw]
  unfold CustomFormatter.styleTag
  rw [coloredTagWithPadding_eq, coloredTagWithPadding_eq, centerTag_eq, centerTag_eq,
    rightPadTag_eq, rightPadTag_eq, hmp, hfill, hst, hu, hc]

/-- The output of `Format` depends on the padding character through the fill string
only. -/
theorem line_congr_fill (f g : CustomFormatter) (env : Env) (e : Entry)
    (h : g = { f with PaddingChar := g.PaddingChar }) (hfill : f.fill = g.fill) :
    f.line env e = g.line env e := by
  have hst : ∀ inner, f.styleTag inner = g.styleTag inner := by
    intro inner
    apply styleTag_congr f g inner _ _ _ _ hfill <;> rw [h]
  have hdt : f.displayTag e.Message = g.displayTag e.Message := by
    unfold CustomFormatter.displayTag
    cases tagInner e.Message with
    | none => rfl
    | some inner => simp only [hst]
  have hmp : f.maxPadding = g.maxPadding := by rw [h]; rfl
  have hg : f.gutter e.Message = g.gutter e.Message := by
    unfold CustomFormatter.gutter
    rw [hdt, hmp]
  have h1 : f.lineHead e = g.lineHead e := by rw [h]; rfl
  have h2 : f.fieldsSegment e.Data = g.fieldsSegment e.Data := by
    unfold CustomFormatter.fieldsSegment
    rw [appendFields_congr f g (by rw [h])]
  have h3 : f.callerSegment env e = g.callerSegment env e := by rw [h]; rfl
  unfold CustomFormatter.line
  rw [h1, hdt, hg, h2, h3]
/-! ## The uncolored tags: escape characters and byte length -/

theorem stripANSI_cons_ne (c : Char) (s : GoStr) (h : c ≠ ESC) :
    stripANSI (c :: s) = c :: stripANSI s :=
  stripANSI_go_cons_ne c s h

theorem stripANSI_esc_ne (d : Char) (t : GoStr) (hd : d ≠ '[') :
    stripANSI (ESC :: d :: t) = ESC :: stripANSI (d :: t) := by
  unfold stripANSI
  rw [stripANSI.go.eq_4 _ _ (by intro u hu; cases hu; exact hd rfl)]
  simp

/-- A run of one repeated code point before a code point that is not `[` holds no color
code, whatever the repeated code point is. -/
theorem stripANSI_run (x : Char) (n : Nat) (c : Char) (rest : GoStr) (hc : c ≠ '[') :
    stripANSI (List.replicate n x ++ c :: rest) =
      List.replicate n x ++ stripANSI (c :: rest) := by
  by_cases hx : x = ESC
  · subst hx
    induction n with
    | zero => rfl
    | succ n ih =>
      cases n with
      | zero =>
        show stripANSI (ESC :: c :: rest) = ESC :: stripANSI (c :: rest)
        exact stripANSI_esc_ne c rest hc
      | succ m =>
        show stripANSI (ESC :: ESC :: (List.replicate m ESC ++ c :: rest)) =
          ESC :: (List.replicate (m + 1) ESC ++ stripANSI (c :: rest))
        rw [stripANSI_esc_ne _ _ (by decide)]
        exact congrArg (List.cons ESC) ih
  · exact stripANSI_append_noesc _ _ (fun h => hx (List.eq_of_mem_replicate h).symm)

theorem single_of_len_one (s : GoStr) (h : len s = 1) : ∃ x : Char, s = [x] ∧ x.utf8Size = 1 := by
  cases s with
  | nil => exact absurd h (by decide)
  | cons x t =>
    cases t with
    | nil =>
      refine ⟨x, rfl, ?_⟩
      rw [len_cons, len_nil] at h
      omega
    | cons y u =>
      rw [len_cons, len_cons] at h
      have h1 := x.utf8Size_pos
      have h2 := y.utf8Size_pos
      omega

theorem len_replicate_char (n : Nat) (x : Char) :
    len (List.replicate n x) = n * x.utf8Size := by
  induction n with
  | zero => simp [len_nil]
  | succ n ih =>
    rw [List.replicate_succ, len_cons, ih]
    ring

/-- The centered tag with a fill of one code point, written code point by code point. -/
theorem centerTag_single (f : CustomFormatter) (inner : GoStr) (W : Int) (x : Char)
    (hx : f.fill = [x]) (h : ¬ (len inner : Int) ≥ (W - 2) - 2) :
    f.centerTag inner W = some ('[' ::
      (List.replicate ((W - 2 - (len inner : Int) - 2) / 2).toNat x ++ ' ' :: (inner ++ ' ' ::
        (List.replicate ((W - 2 - (len inner : Int) - 2) -
          (W - 2 - (len inner : Int) - 2) / 2).toNat x ++ [']'])))) := by
  rw [centerTag_eq, if_neg h, hx, flatten_replicate_single, flatten_replicate_single]
  simp only [List.append_assoc]
  rfl

/-- The right-padded tag with a fill of one code point, written code point by code
point. -/
theorem rightPadTag_single (f : CustomFormatter) (inner : GoStr) (W : Int) (x : Char)
    (hx : f.fill = [x]) (h : ¬ (len inner : Int) ≥ (W - 2) - 1) :
    f.rightPadTag inner W = some ('[' :: (inner ++ ']' ::
      (List.replicate (W - 2 - (len inner : Int) - 1).toNat x ++ [' ']))) := by
  rw [rightPadTag_eq, if_neg h, hx, flatten_replicate_single]
  simp only [List.append_assoc]
  rfl

theorem stripANSI_bracketed (inner : GoStr) (hi : ESC ∉ inner) :
    stripANSI ("[".toList ++ inner ++ "]".toList) = "[".toList ++ inner ++ "]".toList := by
  apply stripANSI_noesc
  intro h
  rcases List.mem_append.mp h with h | h
  · rcases List.mem_append.mp h with h | h
    · exact absurd h (by decide)
    · exact hi h
  · exact absurd h (by decide)

/-- The uncolored tags are not changed by `stripANSI` when the inner text and the fill
string hold no escape character. -/
theorem stripANSI_uncolored (f : CustomFormatter) (inner : GoStr) (W : Int) (hi : ESC ∉ inner)
    (hf : ESC ∉ f.fill) :
    (f.centerTag inner W).map stripANSI = f.centerTag inner W ∧
    (f.rightPadTag inner W).map stripANSI = f.rightPadTag inner W := by
  have hrep : ∀ n : Nat, ESC ∉ (List.replicate n f.fill).flatten :=
    fun n => not_mem_flatten_replicate _ _ n hf
  refine ⟨?_, ?_⟩
  · rw [centerTag_eq, Option.map_some']
    congr 1
    split_ifs
    · exact stripANSI_bracketed inner hi
    · apply stripANSI_noesc
      simp only [List.mem_append, not_or]
      exact ⟨⟨⟨⟨⟨⟨by decide, hrep _⟩, by decide⟩, hi⟩, by decide⟩, hrep _⟩, by decide⟩
  · rw [rightPadTag_eq, Option.map_some']
    congr 1
    split_ifs
    · exact stripANSI_bracketed inner hi
    · apply stripANSI_noesc
      simp only [List.mem_append, not_or]
      exact ⟨⟨⟨⟨by decide, hi⟩, by decide⟩, hrep _⟩, by decide⟩

/-- The styled tag without its color codes is the uncolored tag of the same style, width
and fill. -/
theorem stripANSI_styleTag (f : CustomFormatter) (inner : GoStr) (hi : ESC ∉ inner)
    (hf : ESC ∉ f.fill) :
    (f.styleTag inner).map stripANSI =
      if f.TagStyle = StyleCenter then f.centerTag inner f.maxPadding
      else if f.TagStyle = StyleRight then f.rightPadTag inner f.maxPadding
      else some ("[".toList ++ inner ++ "]".toList) := by
  unfold CustomFormatter.styleTag
  by_cases hcol : (f.UseColors && f.ColorBrackets) = true
  · rw [if_pos hcol]
    by_cases hcr : f.TagStyle = StyleCenter ∨ f.TagStyle = StyleRight
    · rw [if_pos hcr, stripANSI_coloredTag f inner _ _ hi hf]
    · rw [if_neg hcr, Option.map_some', stripANSI_plainTag inner hi]
      rw [if_neg (fun h => hcr (Or.inl h)), if_neg (fun h => hcr (Or.inr h))]
  · rw [if_neg hcol]
    split_ifs
    · exact (stripANSI_uncolored f inner _ hi hf).1
    · exact (stripANSI_uncolored f inner _ hi hf).2
    · rw [Option.map_some', stripANSI_bracketed inner hi]

theorem stripANSI_displayTag (f : CustomFormatter) (message inner : GoStr)
    (h : tagInner message = some inner) :
    some (stripANSI (f.displayTag message)) = (f.styleTag inner).map stripANSI := by
  rw [displayTag_of_inner f message inner h]
  rfl

/-! ## The formatter on machine integers -/

theorem wrap_eq (x : Int) (h1 : minInt ≤ x) (h2 : x ≤ maxInt) : wrap x = x := by
  unfold wrap
  simp only [minInt, maxInt] at h1 h2
  omega

theorem len_eq_zero (s : GoStr) (h : len s = 0) : s = [] := by
  cases s with
  | nil => rfl
  | cons c cs =>
    exfalso
    have hc : 0 < c.utf8Size := Char.utf8Size_pos c
    unfold len at h
    simp only [List.map_cons, List.sum_cons] at h
    omega

theorem flatten_replicate_nil (n : Nat) : (List.replicate n ([] : GoStr)).flatten = [] := by
  induction n with
  | zero => rfl
  | succ n ih => rw [List.replicate_succ, List.flatten_cons, ih]; rfl

/-- Within the allocation limit `strings.Repeat64` is `strings.Repeat`. -/
theorem Repeat64_eq (limit : Nat) (s : GoStr) (c : Int) (hl : (limit : Int) ≤ maxInt)
    (h : 0 ≤ c → (len s : Int) * c ≤ limit) :
    strings.Repeat64 limit s c = strings.Repeat s c := by
  unfold strings.Repeat64 strings.Repeat
  by_cases h0 : c = 0
  · subst h0; rfl
  by_cases h1 : c = 1
  · subst h1
    simp
  by_cases hneg : c < 0
  · simp only [if_neg h0, if_neg h1, if_pos hneg]
  have hb := h (by omega)
  have hov : ¬ (len s : Int) * c > maxInt := by omega
  simp only [if_neg h0, if_neg h1, if_neg hneg, if_neg hov]
  by_cases hs : len s = 0
  · rw [if_pos hs, len_eq_zero s hs, flatten_replicate_nil]
  · rw [if_neg hs, if_neg (by omega)]

/-- A run of at most `W` copies of `s`, when `W` copies fit the limit. -/
theorem Repeat64_le (limit : Nat) (s : GoStr) (W c : Int) (hl : (limit : Int) ≤ maxInt)
    (hs : W * (len s : Int) ≤ limit) (hc : c ≤ W) :
    strings.Repeat64 limit s c = strings.Repeat s c := by
  apply Repeat64_eq limit s c hl
  intro _
  have h1 : (len s : Int) * c ≤ (len s : Int) * W :=
    Int.mul_le_mul_of_nonneg_left hc (Int.ofNat_nonneg _)
  rw [mul_comm (len s : Int) W] at h1
  exact le_trans h1 hs

theorem centerTag64_eq (f : CustomFormatter) (limit : Nat) (inner : GoStr) (W : Int)
    (hl : (limit : Int) ≤ maxInt) (hW : minInt + 4 ≤ W) (hs : W ≤ limit)
    (hfl : W * (len f.fill : Int) ≤ limit) :
    f.centerTag64 limit inner W = f.centerTag inner W := by
  have hmax : maxInt = 9223372036854775807 := rfl
  have hmin : minInt = -9223372036854775808 := rfl
  have e1 : wrap (W - 2) = W - 2 := wrap_eq _ (by omega) (by omega)
  have e2 : wrap (W - 2 - 2) = W - 2 - 2 := wrap_eq _ (by omega) (by omega)
  unfold CustomFormatter.centerTag64 CustomFormatter.centerTag
  simp only [e1, e2]
  by_cases hc : (len inner : Int) ≥ W - 2 - 2
  · simp only [if_pos hc]
  · have e3 : wrap (W - 2 - (len inner : Int)) = W - 2 - (len inner : Int) :=
      wrap_eq _ (by omega) (by omega)
    have e4 : wrap (W - 2 - (len inner : Int) - 2) = W - 2 - (len inner : Int) - 2 :=
      wrap_eq _ (by omega) (by omega)
    have hpos : 0 ≤ W - 2 - (len inner : Int) - 2 := by omega
    have hd : Int.tdiv (W - 2 - (len inner : Int) - 2) 2 = (W - 2 - (len inner : Int) - 2) / 2 :=
      Int.tdiv_eq_ediv hpos (by decide)
    have e5 : wrap (W - 2 - (len inner : Int) - 2 - Int.tdiv (W - 2 - (len inner : Int) - 2) 2) =
        W - 2 - (len inner : Int) - 2 - Int.tdiv (W - 2 - (len inner : Int) - 2) 2 :=
      wrap_eq _ (by omega) (by omega)
    have r1 := Repeat64_le limit f.fill W (Int.tdiv (W - 2 - (len inner : Int) - 2) 2) hl hfl
      (by omega)
    have r2 := Repeat64_le limit f.fill W
      (W - 2 - (len inner : Int) - 2 - Int.tdiv (W - 2 - (len inner : Int) - 2) 2) hl hfl
      (by omega)
    unfold CustomFormatter.fill at r1 r2
    simp only [if_neg hc, e3, e4, e5, r1, r2]

theorem rightPadTag64_eq (f : CustomFormatter) (limit : Nat) (inner : GoStr) (W : Int)
    (hl : (limit : Int) ≤ maxInt) (hW : minInt + 4 ≤ W) (hs : W ≤ limit)
    (hfl : W * (len f.fill : Int) ≤ limit) :
    f.rightPadTag64 limit inner W = f.rightPadTag inner W := by
  have hmax : maxInt = 9223372036854775807 := rfl
  have hmin : minInt = -9223372036854775808 := rfl
  have e1 : wrap (W - 2) = W - 2 := wrap_eq _ (by omega) (by omega)
  have e2 : wrap (W - 2 - 1) = W - 2 - 1 := wrap_eq _ (by omega) (by omega)
  unfold CustomFormatter.rightPadTag64 CustomFormatter.rightPadTag
  simp only [e1, e2]
  by_cases hc : (len inner : Int) ≥ W - 2 - 1
  · simp only [if_pos hc]
  · have e3 : wrap (W - 2 - (len inner : Int)) = W - 2 - (len inner : Int) :=
      wrap_eq _ (by omega) (by omega)
    have e4 : wrap (W - 2 - (len inner : Int) - 1) = W - 2 - (len inner : Int) - 1 :=
      wrap_eq _ (by omega) (by omega)
    have r1 := Repeat64_le limit f.fill W (W - 2 - (len inner : Int) - 1) hl hfl (by omega)
    unfold CustomFormatter.fill at r1
    simp only [if_neg hc, e3, e4, r1]

theorem coloredTagWithPadding64_eq (f : CustomFormatter) (limit : Nat) (inner : GoStr) (W : Int)
    (style : TagStyle) (hl : (limit : Int) ≤ maxInt) (hW : minInt + 4 ≤ W) (hs : W ≤ limit)
    (hfl : W * (len f.fill : Int) ≤ limit) :
    f.coloredTagWithPadding64 limit inner W style = f.coloredTagWithPadding inner W style := by
  have hmax : maxInt = 9223372036854775807 := rfl
  have hmin : minInt = -9223372036854775808 := rfl
  have e1 : wrap (W - 2) = W - 2 := wrap_eq _ (by omega) (by omega)
  have e2 : wrap (W - 2 - 2) = W - 2 - 2 := wrap_eq _ (by omega) (by omega)
  have e2r : wrap (W - 2 - 1) = W - 2 - 1 := wrap_eq _ (by omega) (by omega)
  unfold CustomFormatter.coloredTagWithPadding64 CustomFormatter.coloredTagWithPadding
  simp only [e1, e2, e2r]
  by_cases hsc : style = StyleCenter
  · simp only [if_pos hsc]
    by_cases hc : (len inner : Int) ≥ W - 2 - 2
    · simp only [if_pos hc]
    · have e3 : wrap (W - 2 - (len inner : Int)) = W - 2 - (len inner : Int) :=
        wrap_eq _ (by omega) (by omega)
      have e4 : wrap (W - 2 - (len inner : Int) - 2) = W - 2 - (len inner : Int) - 2 :=
        wrap_eq _ (by omega) (by omega)
      have hpos : 0 ≤ W - 2 - (len inner : Int) - 2 := by omega
      have hd : Int.tdiv (W - 2 - (len inner : Int) - 2) 2 =
          (W - 2 - (len inner : Int) - 2) / 2 := Int.tdiv_eq_ediv hpos (by decide)
      have e5 : wrap (W - 2 - (len inner : Int) - 2 -
            Int.tdiv (W - 2 - (len inner : Int) - 2) 2) =
          W - 2 - (len inner : Int) - 2 - Int.tdiv (W - 2 - (len inner : Int) - 2) 2 :=
        wrap_eq _ (by omega) (by omega)
      have r1 := Repeat64_le limit f.fill W (Int.tdiv (W - 2 - (len inner : Int) - 2) 2) hl hfl
        (by omega)
      have r2 := Repeat64_le limit f.fill W
        (W - 2 - (len inner : Int) - 2 - Int.tdiv (W - 2 - (len inner : Int) - 2) 2) hl hfl
        (by omega)
      unfold CustomFormatter.fill at r1 r2
      simp only [if_neg hc, e3, e4, e5, r1, r2]
  · simp only [if_neg hsc]
    by_cases hsr : style = StyleRight
    · simp only [if_pos hsr]
      by_cases hc : (len inner : Int) ≥ W - 2 - 1
      · simp only [if_pos hc]
      · have e3 : wrap (W - 2 - (len inner : Int)) = W - 2 - (len inner : Int) :=
          wrap_eq _ (by omega) (by omega)
        have e4 : wrap (W - 2 - (len inner : Int) - 1) = W - 2 - (len inner : Int) - 1 :=
          wrap_eq _ (by omega) (by omega)
        have r1 := Repeat64_le limit f.fill W (W - 2 - (len inner : Int) - 1) hl hfl (by omega)
        unfold CustomFormatter.fill at r1
        simp only [if_neg hc, e3, e4, r1]
    · simp only [if_neg hsr]

theorem len_displayLevel_le (entry : Entry) : len (displayLevel entry) ≤ 7 := by
  by_cases h : entry.Level ≤ 6
  · exact le_trans (len_displayLevel entry h) (by decide)
  · unfold displayLevel
    rw [Level_String_unknown _ (not_le.mp h)]
    decide

/-- Within the limits `Format64` is `Format`: no operation wraps and no allocation
fails. -/
theorem Format64_eq (f : CustomFormatter) (limit : Nat) (env : Env) (entry : Entry)
    (hl : (limit : Int) ≤ maxInt) (hs : f.maxPadding + 30 ≤ limit)
    (hfl : f.maxPadding * (len f.fill : Int) ≤ limit) :
    f.Format64 limit env entry = f.Format env entry := by
  have hmax : maxInt = 9223372036854775807 := rfl
  have hmin : minInt = -9223372036854775808 := rfl
  have hpos := maxPadding_pos f
  have h7 := len_displayLevel_le entry
  have hdl : (if strings.ToUpper entry.Level.String = "WARNING".toList then "WARN".toList
      else strings.ToUpper entry.Level.String) = displayLevel entry := rfl
  have hmp : (if f.BracketPadding ≤ 0 then (15 : Int) else f.BracketPadding) = f.maxPadding := rfl
  have hlev : strings.Repeat64 limit " ".toList
        (max 0 (wrap (6 - (len (displayLevel entry) : Int)))) =
      strings.Repeat " ".toList (max 0 (6 - (len (displayLevel entry) : Int))) := by
    rw [wrap_eq _ (by omega) (by omega)]
    apply Repeat64_eq _ _ _ hl
    intro _
    have : len " ".toList = 1 := rfl
    rw [this]
    have : max 0 (6 - (len (displayLevel entry) : Int)) ≤ 6 := max_le (by decide) (by omega)
    omega
  have hgut : ∀ (b : GoStr) (n : Nat),
      (if (n : Int) < f.maxPadding then
        Option.map (fun x => b ++ x)
          (strings.Repeat64 limit " ".toList (wrap (f.maxPadding - (n : Int))))
      else some b) =
      (if (n : Int) < f.maxPadding then
        Option.map (fun x => b ++ x) (strings.Repeat " ".toList (f.maxPadding - (n : Int)))
      else some b) := by
    intro b n
    split_ifs with h
    · rw [wrap_eq _ (by omega) (by omega)]
      rw [Repeat64_eq _ _ _ hl]
      intro _
      have : len " ".toList = 1 := rfl
      rw [this]
      omega
    · rfl
  have hpw : wrap (wrap (wrap ((if f.ShowTimestamp = true then wrap ((0 : Int) + 22) else 0) + 7) +
      f.maxPadding) + 1) =
      ((if f.ShowTimestamp = true then (0 : Int) + 22 else 0) + 7 + f.maxPadding) + 1 := by
    have a1 : wrap ((0 : Int) + 22) = 0 + 22 := by decide
    rw [a1]
    split_ifs
    · have a2 : wrap ((0 : Int) + 22 + 7) = 0 + 22 + 7 := by decide
      rw [a2, wrap_eq (0 + 22 + 7 + f.maxPadding) (by omega) (by omega),
        wrap_eq _ (by omega) (by omega)]
    · have a2 : wrap ((0 : Int) + 7) = 0 + 7 := by decide
      rw [a2, wrap_eq (0 + 7 + f.maxPadding) (by omega) (by omega),
        wrap_eq _ (by omega) (by omega)]
  have hind : strings.Repeat64 limit " ".toList
        (((if f.ShowTimestamp = true then (0 : Int) + 22 else 0) + 7 + f.maxPadding) + 1) =
      strings.Repeat " ".toList
        (((if f.ShowTimestamp = true then (0 : Int) + 22 else 0) + 7 + f.maxPadding) + 1) := by
    apply Repeat64_eq _ _ _ hl
    intro _
    have : len " ".toList = 1 := rfl
    rw [this]
    split_ifs <;> omega
  have hc := fun inner => coloredTagWithPadding64_eq f limit inner f.maxPadding f.TagStyle hl
    (by omega) (by omega) hfl
  have hce := fun inner => centerTag64_eq f limit inner f.maxPadding hl (by omega) (by omega) hfl
  have hri := fun inner => rightPadTag64_eq f limit inner f.maxPadding hl (by omega) (by omega) hfl
  unfold CustomFormatter.Format64 CustomFormatter.Format
  simp only [CustomFormatter.formatCommon, hdl, hmp, hlev, hgut, hpw, hind, hc, hce, hri]

/-! ## C31, C32, C34, C35, C40: the configured logger -/

/-- C31: when `CustomFormat` is set, for every explicit `Format`, every environment and
every other field of the configuration, `setFormatter` installs exactly that custom
formatter and sets caller reporting to its `ShowCaller` flag; the format kind is not
resolved, and nothing else in the logger changes. -/
theorem C31_custom_format_wins (c : Config) (lib : Lib) (environ : Environ) (l : Logger)
    (cf : CustomFormatter) (h : c.CustomFormat = some cf) :
    (c.setFormatter lib environ l).Formatter = Formatter.custom cf ∧
    (c.setFormatter lib environ l).ReportCaller = cf.ShowCaller ∧
    c.setFormatter lib environ l =
      { l with Formatter := Formatter.custom cf, ReportCaller := cf.ShowCaller } ∧
    (∀ (fm : Option FormatType) (environ' : Environ),
      ({ c with Format := fm } : Config).setFormatter lib environ' l =
        c.setFormatter lib environ l) := by
  have key : ∀ (fm : Option FormatType) (environ' : Environ),
      ({ c with Format := fm } : Config).setFormatter lib environ' l =
        { l with Formatter := Formatter.custom cf, ReportCaller := cf.ShowCaller } := by
    intro fm environ'
    unfold Config.setFormatter
    simp only [h]
  have h0 : c.setFormatter lib environ l =
      { l with Formatter := Formatter.custom cf, ReportCaller := cf.ShowCaller } := by
    unfold Config.setFormatter
    simp only [h]
  refine ⟨?_, ?_, h0, ?_⟩
  · rw [h0]
  · rw [h0]
  · intro fm environ'
    rw [key, h0]

theorem C31_custom_format_wins_witness :
    ((WithCustomFormat Sample.quietFormatter { Format := some FormatJSON }).setFormatter
      Sample.lib Sample.logEnviron logrus.New).Formatter =
      Formatter.custom Sample.quietFormatter ∧
    ((WithCustomFormat Sample.quietFormatter { Format := some FormatJSON }).setFormatter
      Sample.lib Sample.logEnviron logrus.New).ReportCaller = false := by
  have h := C31_custom_format_wins
    (WithCustomFormat Sample.quietFormatter { Format := some FormatJSON }) Sample.lib
    Sample.logEnviron logrus.New Sample.quietFormatter rfl
  exact ⟨h.1, h.2.1⟩

/-- C32: with `LOG_LEVEL`, `LOG_OUTPUT` and `LOG_FORMAT` empty or not set, `New` without
options yields a logger of level `Info` with caller reporting on, the plain
`CustomFormatter` (colors on, caller shown, no timestamp, width 15) and the standard output
as output, without hook; `New(WithoutCaller())` has caller reporting off, also in its
formatter, and `New(WithLevel(l))` has level `l`, whatever the environment holds. -/
theorem C32_new_defaults (lib : Lib) (environ : Environ) (lv : Level)
    (h : os.Getenv environ "LOG_LEVEL".toList = []) :
    New lib environ [] =
      { Out := Writer.Stdout, Hooks := [],
        Formatter := Formatter.custom (plainFormatter true true false),
        ReportCaller := true, Level := InfoLevel } ∧
    (New lib environ [WithoutCaller]).ReportCaller = false ∧
    (New lib environ [WithoutCaller]).Formatter =
      Formatter.custom (plainFormatter false true false) ∧
    (∀ environ' : Environ, (New lib environ' [WithLevel lv]).Level = lv) := by
  refine ⟨?_, rfl, rfl, fun _ => rfl⟩
  unfold New setup
  simp only [List.foldl_nil]
  unfold Config.setLevel
  simp only [h]
  rfl

theorem C32_new_defaults_witness :
    New Sample.lib [("LOG_LEVEL".toList, []), ("LOG_OUTPUT".toList, []),
      ("LOG_FORMAT".toList, [])] [] =
      { Out := Writer.Stdout, Hooks := [],
        Formatter := Formatter.custom (plainFormatter true true false),
        ReportCaller := true, Level := InfoLevel } ∧
    (New Sample.lib [] [WithLevel TraceLevel]).Level = TraceLevel := by
  have h := C32_new_defaults Sample.lib [("LOG_LEVEL".toList, []), ("LOG_OUTPUT".toList, []),
    ("LOG_FORMAT".toList, [])] TraceLevel (by decide)
  exact ⟨h.1, h.2.2.2 []⟩

/-- C34 fails on the code: `New` leaves `Filename` empty, and `setOutput` passes the
empty name to `NewLumberjackLogger`: with the file output selected and no `WithFile`
option the file name of the sink is empty, not `logs/service.log`, for every environment. -/
theorem C34_file_name_empty (lib : Lib) (environ : Environ) :
    (New lib environ [WithOutput OutputFile]).Out =
      Writer.File (NewLumberjackLogger [] DefaultLogFileConfig) ∧
    (NewLumberjackLogger [] DefaultLogFileConfig).Filename = [] ∧
    (NewLumberjackLogger [] DefaultLogFileConfig).Filename ≠ "logs/service.log".toList ∧
    (New lib environ [WithOutput OutputFile, WithFile "logs/service.log".toList]).Out =
      Writer.File (NewLumberjackLogger "logs/service.log".toList DefaultLogFileConfig) :=
  ⟨rfl, rfl, by decide, rfl⟩

/-- C35: `DefaultLogFileConfig` is 10 MB, 5 backups, 31 days and compression on, and
`NewLumberjackLogger(name, cfg)` returns the sink whose file name is `name` and whose
maximum size, backup count, maximum age and compress flag are the four fields of `cfg`;
`NewLogFileConfig` stores its four arguments. -/
theorem C35_file_sink (name : GoStr) (cfg : LogFileConfig) (a b c : Int) (z : Bool) :
    DefaultLogFileConfig.MaxSize = 10 ∧ DefaultLogFileConfig.MaxBackups = 5 ∧
    DefaultLogFileConfig.MaxAge = 31 ∧ DefaultLogFileConfig.Compress = true ∧
    (NewLumberjackLogger name cfg).Filename = name ∧
    (NewLumberjackLogger name cfg).MaxSize = cfg.MaxSize ∧
    (NewLumberjackLogger name cfg).MaxBackups = cfg.MaxBackups ∧
    (NewLumberjackLogger name cfg).MaxAge = cfg.MaxAge ∧
    (NewLumberjackLogger name cfg).Compress = cfg.Compress ∧
    NewLogFileConfig a b c z = { MaxSize := a, MaxBackups := b, MaxAge := c, Compress := z } :=
  ⟨rfl, rfl, rfl, rfl, rfl, rfl, rfl, rfl, rfl, rfl⟩

/-- C40: for a configuration without custom formatter whose format kind resolves to
plain, `setFormatter` installs, unless the output kind is explicitly `OutputMulti`, the
plain `CustomFormatter` whose `UseColors` is true exactly when `Output` is explicitly
`OutputConsole`: colors are off for the explicit file output and for an output kind that
is not set, whatever the output variable holds; for the explicit `OutputMulti` it leaves
the formatter of the logger as it is. -/
theorem C40_plain_colors (c : Config) (lib : Lib) (environ : Environ) (l : Logger)
    (hcf : c.CustomFormat = none) (hf : c.getFormat lib environ = FormatPlain) :
    (c.Output ≠ some OutputMulti →
      ∃ cf : CustomFormatter,
        (c.setFormatter lib environ l).Formatter = Formatter.custom cf ∧
        cf = plainFormatter c.ShowCaller cf.UseColors false ∧
        (cf.UseColors = true ↔ c.Output = some OutputConsole)) ∧
    (c.Output = some OutputFile → (c.setFormatter lib environ l).Formatter =
      Formatter.custom (plainFormatter c.ShowCaller false false)) ∧
    (c.Output = none → (c.setFormatter lib environ l).Formatter =
      Formatter.custom (plainFormatter c.ShowCaller false false)) ∧
    (c.Output = some OutputMulti →
      (c.setFormatter lib environ l).Formatter = l.Formatter) ∧
    (c.setFormatter lib environ l).ReportCaller = c.ShowCaller := by
  have hne : ¬ FormatPlain = FormatJSON := by decide
  have key : ∀ b : Bool, decide (c.Output = some OutputMulti) = false →
      decide (c.Output = some OutputConsole) = b →
      c.setFormatter lib environ l =
        { l with
          ReportCaller := c.ShowCaller,
          Formatter := Formatter.custom (plainFormatter c.ShowCaller b false) } := by
    intro b h1 h2
    unfold Config.setFormatter
    simp only [hcf, hf, hne, if_false, if_true, h1, h2, Bool.not_false]
    rfl
  refine ⟨?_, ?_, ?_, ?_, ?_⟩
  · intro h
    have h1 : decide (c.Output = some OutputMulti) = false := decide_eq_false h
    refine ⟨plainFormatter c.ShowCaller (decide (c.Output = some OutputConsole)) false, ?_,
      rfl, ?_⟩
    · rw [key _ h1 rfl]
    · show decide (c.Output = some OutputConsole) = true ↔ _
      exact decide_eq_true_iff
  · intro h
    rw [key false (by rw [h]; rfl) (by rw [h]; rfl)]
  · intro h
    rw [key false (by rw [h]; rfl) (by rw [h]; rfl)]
  · intro h
    unfold Config.setFormatter
    simp only [hcf, hf, hne, if_false, if_true, h, decide_True, Bool.not_true]
    rfl
  · unfold Config.setFormatter
    simp only [hcf, hf, hne, if_false, if_true]
    split_ifs <;> rfl

theorem C40_plain_colors_witness :
    ({ Sample.plainUnset with Output := some OutputConsole } : Config).setFormatter Sample.lib
      [] logrus.New =
      { logrus.New with
        ReportCaller := true,
        Formatter := Formatter.custom (plainFormatter true true false) } ∧
    (Sample.plainUnset.setFormatter Sample.lib
      [("LOG_OUTPUT".toList, "console".toList)] logrus.New).Formatter =
      Formatter.custom (plainFormatter true false false) ∧
    (({ Sample.plainUnset with Output := some OutputMulti } : Config).setFormatter Sample.lib []
      logrus.New).Formatter = Formatter.text false := by
  refine ⟨by decide, ?_, ?_⟩
  · exact (C40_plain_colors Sample.plainUnset Sample.lib
      [("LOG_OUTPUT".toList, "console".toList)] logrus.New rfl rfl).2.2.1 rfl
  · exact (C40_plain_colors { Sample.plainUnset with Output := some OutputMulti } Sample.lib []
      logrus.New rfl rfl).2.2.2.1 rfl

/-! ## C33, C36 to C39: tags, fill and totality -/

/-- C33: for every formatter (hence every tag style and both color settings), every
environment and every entry, `Format` with the padding character `""` returns the same
output as with `"•"`; `WithTagStyle` and `WithCenterBrackets` called with an empty
character store `"•"`, and a character that is not empty is stored as it is. -/
theorem C33_default_fill (f : CustomFormatter) (env : Env) (entry : Entry) (style : TagStyle)
    (enabled : Bool) (char : GoStr) :
    ({ f with PaddingChar := [] } : CustomFormatter).Format env entry =
      ({ f with PaddingChar := "•".toList } : CustomFormatter).Format env entry ∧
    (WithTagStyle style [] f).PaddingChar = "•".toList ∧
    (WithTagStyle style char f).TagStyle = style ∧
    (WithCenterBrackets enabled [] f).PaddingChar = "•".toList ∧
    (WithCenterBrackets enabled char f).TagStyle =
      (if enabled = true then StyleCenter else StyleDefault) ∧
    (char ≠ [] → (WithTagStyle style char f).PaddingChar = char ∧
      (WithCenterBrackets enabled char f).PaddingChar = char) ∧
    (NewCustomFormatter [WithTagStyle style []]).PaddingChar = "•".toList := by
  refine ⟨?_, rfl, ?_, rfl, ?_, ?_, rfl⟩
  · rw [Format_eq, Format_eq]
    rw [line_congr_fill { f with PaddingChar := [] } { f with PaddingChar := "•".toList }
      env entry rfl rfl]
  · unfold WithTagStyle
    simp only []
    split_ifs <;> rfl
  · unfold WithCenterBrackets
    cases enabled <;> simp only [] <;> split_ifs <;> rfl
  · intro h
    unfold WithTagStyle WithCenterBrackets
    simp only [h, ne_eq, not_false_eq_true, if_true, and_self]

set_option maxRecDepth 8000 in
theorem C33_default_fill_witness :
    ({ Sample.formatter with TagStyle := StyleCenter, PaddingChar := [] } :
      CustomFormatter).Format Sample.env Sample.entry =
      some ("INFO   [•• Server •••] Starting\n".toList, none) ∧
    ({ Sample.formatter with TagStyle := StyleCenter, PaddingChar := "•".toList } :
      CustomFormatter).Format Sample.env Sample.entry =
      some ("INFO   [•• Server •••] Starting\n".toList, none) ∧
    (WithTagStyle StyleRight "=".toList Sample.formatter).PaddingChar = "=".toList := by
  have h := C33_default_fill { Sample.formatter with TagStyle := StyleCenter } Sample.env
    Sample.entry StyleRight true "=".toList
  have h1 : ({ Sample.formatter with TagStyle := StyleCenter, PaddingChar := [] } :
      CustomFormatter).Format Sample.env Sample.entry =
      some ("INFO   [•• Server •••] Starting\n".toList, none) := by decide
  refine ⟨h1, ?_, (h.2.2.2.2.2.1 (by decide)).1⟩
  exact h.1.symm.trans h1

/-- C36, as stated, fails: for the tag `Auth`, width 15 and the bullet as fill,
`rightPadTag` returns `[Auth]`, eight bullets and a space; the padding stands after the
closing bracket, and `[Auth •` occurs neither in the tag nor in the line that `Format`
writes. -/
theorem C36_counterexample :
    Sample.rightBulletFormatter.rightPadTag "Auth".toList 15 =
      some "[Auth]•••••••• ".toList ∧
    ¬ "[Auth •".toList <:+: "[Auth]•••••••• ".toList ∧
    Sample.rightBulletFormatter.Format Sample.env Sample.authEntry =
      some ("INFO   [Auth]••••••••  Login\n".toList, none) ∧
    ¬ "[Auth •".toList <:+: "INFO   [Auth]••••••••  Login\n".toList := by
  refine ⟨by decide, by decide, by decide, by decide⟩

/-- C36, amended: `StyleRight` renders the decorative padding after the closing bracket:
for every inner text, width `W` and fill, `rightPadTag` returns a string that starts with
`[text]`; when `len(text) < W-3` it is `[text]`, then `W-3-len(text)` copies of the fill,
then one space, so that the tag `Auth` with width 15 and the bullet is `[Auth]` followed
by eight bullets and a space. -/
theorem C36_right_padding_after_bracket (f : CustomFormatter) (inner : GoStr) (W : Int) :
    ∃ t : GoStr, f.rightPadTag inner W = some t ∧
      ("[".toList ++ inner ++ "]".toList) <+: t ∧
      ((len inner : Int) < W - 3 → 0 < W - 3 - (len inner : Int) ∧
        t = "[".toList ++ inner ++ "]".toList ++
          (List.replicate (W - 3 - (len inner : Int)).toNat f.fill).flatten ++ " ".toList) ∧
      (f.fill = "•".toList →
        f.rightPadTag "Auth".toList 15 = some "[Auth]•••••••• ".toList) := by
  refine ⟨_, rightPadTag_eq f inner W, ?_, ?_, ?_⟩
  · split_ifs
    · exact List.prefix_refl _
    · exact (List.prefix_append _ _).trans (List.prefix_append _ _)
  · intro h
    have hn : ¬ (len inner : Int) ≥ W - 2 - 1 := by omega
    have he : W - 2 - (len inner : Int) - 1 = W - 3 - (len inner : Int) := by omega
    rw [if_neg hn, he]
    exact ⟨by omega, rfl⟩
  · intro hfill
    rw [rightPadTag_eq, hfill]
    decide

theorem C36_right_padding_after_bracket_witness :
    ∃ t : GoStr, Sample.rightFormatter.rightPadTag "Auth".toList 15 = some t ∧
      "[Auth]".toList <+: t ∧ t = "[Auth]======== ".toList := by
  obtain ⟨t, h1, h2, h3, -⟩ :=
    C36_right_padding_after_bracket Sample.rightFormatter "Auth".toList 15
  refine ⟨t, h1, h2, ?_⟩
  rw [(h3 (by decide)).2]
  decide

/-- C37 fails on the 64-bit integers of Go: `WithBracketPadding` admits the width
`math.MaxInt64`, and with it `Format` panics in `strings.Repeat`. With the default style
the gutter after `[Server]` is `MaxInt64 - 8` spaces, more than the runtime allocates
(`2^48` bytes here); with the centered style the left run is `(MaxInt64 - 10) / 2` copies
of the three-byte bullet, whose length overflows `int`, whatever the runtime allocates.
Called with the width `math.MinInt64`, `centerTag`, `rightPadTag` and
`coloredTagWithPadding` panic too: `maxPadding - 2` wraps around to a large positive
width. -/
theorem C37_counterexample :
    Sample.hugeFormatter.BracketPadding = maxInt ∧
    Sample.hugeFormatter.Format64 Sample.limit Sample.env Sample.entry = none ∧
    Sample.hugeCenterFormatter.BracketPadding = maxInt ∧
    Sample.hugeCenterFormatter.Format64 Sample.limit Sample.env Sample.entry = none ∧
    Sample.hugeCenterFormatter.Format64 maxInt.toNat Sample.env Sample.entry = none ∧
    Sample.formatter.centerTag64 Sample.limit "A".toList minInt = none ∧
    Sample.formatter.rightPadTag64 Sample.limit "A".toList minInt = none ∧
    Sample.formatter.coloredTagWithPadding64 Sample.limit "A".toList minInt StyleCenter =
      none := by
  decide

/-- C37, amended: on 64-bit integers `Format` is total whenever the runtime can allocate
`limit` bytes, with `limit` at most `math.MaxInt64`, and the tag width `maxPadding`
(`BracketPadding`, or 15 when that is zero or negative) is so small that `maxPadding + 30`
spaces and `maxPadding` copies of the fill fit in `limit` bytes. Then, for every other
setting (a negative or zero `BracketPadding`, an unnamed `TagStyle`, an empty
`PaddingChar`), every environment and every entry (an empty message, the tag `[]`, a tag
longer than the width, a level without name), `Format` returns the line and a nil error;
no operation wraps around, and the counts passed to `strings.Repeat` are not negative: the
level padding, the gutter when it is written, the indentation of the caller line. The
offsets of the tag match are in order and within the message. `centerTag`, `rightPadTag`
and `coloredTagWithPadding` return a string for every inner text and every width `W`
from `math.MinInt64 + 4` on such that `W` bytes and `W` copies of the fill fit in `limit`
bytes, and outside the fallback their fill runs are not negative. -/
theorem C37_format_total_bounded (f : CustomFormatter) (limit : Nat) (env : Env)
    (entry : Entry) (inner : GoStr) (W : Int) (style : TagStyle)
    (hlimit : (limit : Int) ≤ maxInt)
    (hspaces : f.maxPadding + 30 ≤ (limit : Int))
    (hfill : f.maxPadding * (len f.fill : Int) ≤ (limit : Int))
    (hW : minInt + 4 ≤ W) (hWs : W ≤ (limit : Int))
    (hWf : W * (len f.fill : Int) ≤ (limit : Int)) :
    f.Format64 limit env entry = some (f.line env entry, none) ∧
    (f.centerTag64 limit inner W).isSome = true ∧
    (f.rightPadTag64 limit inner W).isSome = true ∧
    (f.coloredTagWithPadding64 limit inner W style).isSome = true ∧
    0 ≤ max 0 (wrap (6 - (len (displayLevel entry) : Int))) ∧
    0 < f.maxPadding ∧
    ((len (stripANSI (f.displayTag entry.Message)) : Int) < f.maxPadding →
      0 ≤ wrap (f.maxPadding - (len (stripANSI (f.displayTag entry.Message)) : Int))) ∧
    0 ≤ wrap (wrap (wrap ((if f.ShowTimestamp = true then wrap ((0 : Int) + 22) else 0) + 7) +
      f.maxPadding) + 1) ∧
    (¬ (len inner : Int) ≥ wrap (wrap (W - 2) - 2) →
      0 ≤ Int.tdiv (wrap (wrap (wrap (W - 2) - (len inner : Int)) - 2)) 2 ∧
      0 ≤ wrap (wrap (wrap (wrap (W - 2) - (len inner : Int)) - 2) -
        Int.tdiv (wrap (wrap (wrap (W - 2) - (len inner : Int)) - 2)) 2)) ∧
    (¬ (len inner : Int) ≥ wrap (wrap (W - 2) - 1) →
      0 ≤ wrap (wrap (wrap (W - 2) - (len inner : Int)) - 1)) ∧
    (∀ loc : Nat × Nat, bracketRegex.FindStringIndex entry.Message = some loc →
      0 ≤ loc.1 ∧ loc.1 ≤ loc.2 ∧ loc.2 ≤ entry.Message.length) := by
  have hmax : maxInt = 9223372036854775807 := rfl
  have hmin : minInt = -9223372036854775808 := rfl
  have hmp := maxPadding_pos f
  have e1 : wrap (W - 2) = W - 2 := wrap_eq _ (by omega) (by omega)
  have e2 : wrap (W - 2 - 2) = W - 2 - 2 := wrap_eq _ (by omega) (by omega)
  have e2r : wrap (W - 2 - 1) = W - 2 - 1 := wrap_eq _ (by omega) (by omega)
  refine ⟨?_, ?_, ?_, ?_, le_max_left _ _, hmp, ?_, ?_, ?_, ?_, ?_⟩
  · rw [Format64_eq f limit env entry hlimit hspaces hfill, Format_eq]
  · rw [centerTag64_eq f limit inner W hlimit hW hWs hWf, centerTag_eq]; rfl
  · rw [rightPadTag64_eq f limit inner W hlimit hW hWs hWf, rightPadTag_eq]; rfl
  · rw [coloredTagWithPadding64_eq f limit inner W style hlimit hW hWs hWf]
    exact coloredTagWithPadding_isSome f inner W style
  · intro h
    rw [wrap_eq _ (by omega) (by omega)]
    omega
  · have a1 : wrap ((0 : Int) + 22) = 22 := by decide
    rw [a1]
    split_ifs
    · have a2 : wrap ((22 : Int) + 7) = 29 := by decide
      rw [a2, wrap_eq (29 + f.maxPadding) (by omega) (by omega),
        wrap_eq _ (by omega) (by omega)]
      omega
    · have a2 : wrap ((0 : Int) + 7) = 7 := by decide
      rw [a2, wrap_eq (7 + f.maxPadding) (by omega) (by omega),
        wrap_eq _ (by omega) (by omega)]
      omega
  · rw [e1, e2]
    intro h
    have e3 : wrap (W - 2 - (len inner : Int)) = W - 2 - (len inner : Int) :=
      wrap_eq _ (by omega) (by omega)
    have e4 : wrap (W - 2 - (len inner : Int) - 2) = W - 2 - (len inner : Int) - 2 :=
      wrap_eq _ (by omega) (by omega)
    have hpos : 0 ≤ W - 2 - (len inner : Int) - 2 := by omega
    have hd : Int.tdiv (W - 2 - (len inner : Int) - 2) 2 = (W - 2 - (len inner : Int) - 2) / 2 :=
      Int.tdiv_eq_ediv hpos (by decide)
    rw [e3, e4, wrap_eq _ (by omega) (by omega)]
    omega
  · rw [e1, e2r]
    intro h
    rw [wrap_eq (W - 2 - (len inner : Int)) (by omega) (by omega),
      wrap_eq _ (by omega) (by omega)]
    omega
  · intro loc hloc
    have := findDelimited_bounds _ _ _ _ hloc
    exact ⟨Nat.zero_le _, le_of_lt this.1, this.2⟩

set_option maxRecDepth 8000 in
/-- A negative `BracketPadding`, an unnamed style, an empty padding character, a level
without name and the empty tag `[]`, with `2^48` bytes to allocate; the tag functions at
the inner text `Init` and the width 15. -/
theorem C37_format_total_bounded_witness :
    ((Sample.limit : Nat) : Int) ≤ maxInt ∧
    Sample.oddFormatter.maxPadding + 30 ≤ ((Sample.limit : Nat) : Int) ∧
    Sample.oddFormatter.maxPadding * (len Sample.oddFormatter.fill : Int) ≤
      ((Sample.limit : Nat) : Int) ∧
    minInt + 4 ≤ (15 : Int) ∧ (15 : Int) ≤ ((Sample.limit : Nat) : Int) ∧
    (15 : Int) * (len Sample.oddFormatter.fill : Int) ≤ ((Sample.limit : Nat) : Int) ∧
    Sample.oddFormatter.Format64 Sample.limit Sample.env Sample.oddEntry = some (
      ("[2024-01-01 09:30:00] \x1b[0mUNKNOWN\x1b[0m \x1b[33m[]\x1b[0m              \n" ++
        "                                             \n").toList, none) ∧
    (Sample.oddFormatter.centerTag64 Sample.limit "Init".toList 15).isSome = true :=
  have h := C37_format_total_bounded Sample.oddFormatter Sample.limit Sample.env
    Sample.oddEntry "Init".toList 15 StyleCenter (by decide) (by decide) (by decide)
    (by decide) (by decide) (by decide)
  ⟨by decide, by decide, by decide, by decide, by decide, by decide,
    h.1.trans (by decide), h.2.1⟩

/-- C38: for every inner text and padding character without escape character, every
width and every style, `coloredTagWithPadding` stripped of its color codes is `centerTag`
for `StyleCenter`, `rightPadTag` for `StyleRight` and `[inner]` otherwise; hence two
formatters of the same width, style and padding character, whatever their color flags,
render for a message with that tag text tags that agree once the colors are stripped, and
write the same gutter after them. -/
theorem C38_colored_uncolored_agree (f : CustomFormatter) (inner : GoStr) (W : Int)
    (style : TagStyle) (hi : ESC ∉ inner) (hf : ESC ∉ f.PaddingChar) :
    ((f.coloredTagWithPadding inner W style).map stripANSI =
      if style = StyleCenter then f.centerTag inner W
      else if style = StyleRight then f.rightPadTag inner W
      else some ("[".toList ++ inner ++ "]".toList)) ∧
    (∀ (g : CustomFormatter) (message : GoStr), tagInner message = some inner →
      g.BracketPadding = f.BracketPadding → g.TagStyle = f.TagStyle →
      g.PaddingChar = f.PaddingChar →
      stripANSI (g.displayTag message) = stripANSI (f.displayTag message) ∧
      g.gutter message = f.gutter message) := by
  have hfill : ESC ∉ f.fill := by
    unfold CustomFormatter.fill
    split_ifs
    · decide
    · exact hf
  refine ⟨stripANSI_coloredTag f inner W style hi hfill, ?_⟩
  intro g message hm hw hs hp
  have hgf : g.fill = f.fill := by
    unfold CustomFormatter.fill
    rw [hp]
  have hmp : g.maxPadding = f.maxPadding := by
    unfold CustomFormatter.maxPadding
    rw [hw]
  have hstrip : stripANSI (g.displayTag message) = stripANSI (f.displayTag message) := by
    have h1 := stripANSI_displayTag g message inner hm
    have h2 := stripANSI_displayTag f message inner hm
    rw [stripANSI_styleTag g inner hi (hgf ▸ hfill)] at h1
    rw [stripANSI_styleTag f inner hi hfill] at h2
    rw [centerTag_eq, rightPadTag_eq, hs, hmp, hgf] at h1
    rw [centerTag_eq, rightPadTag_eq] at h2
    exact Option.some.inj (h1.trans h2.symm)
  refine ⟨hstrip, ?_⟩
  unfold CustomFormatter.gutter
  rw [hstrip, hmp]

set_option maxRecDepth 8000 in
theorem C38_colored_uncolored_agree_witness :
    (Sample.colorFormatter.coloredTagWithPadding "Init".toList 15 StyleCenter).map stripANSI =
      some "[••• Init ••••]".toList ∧
    Sample.formatter.centerTag "Init".toList 15 = some "[••• Init ••••]".toList ∧
    Sample.formatter.gutter Sample.entry.Message =
      Sample.colorFormatter.gutter Sample.entry.Message := by
  have h := C38_colored_uncolored_agree Sample.colorFormatter "Init".toList 15 StyleCenter
    (by decide) (by decide)
  have hc : Sample.colorFormatter.centerTag "Init".toList 15 = some "[••• Init ••••]".toList := by
    decide
  refine ⟨h.1.trans hc, by decide, ?_⟩
  exact ((C38_colored_uncolored_agree Sample.colorFormatter "Server".toList 15 StyleCenter
    (by decide) (by decide)).2 Sample.formatter Sample.entry.Message (by decide) rfl rfl rfl).2

theorem stripANSI_center_single (x : Char) (l r : Nat) (inner : GoStr) (hi : ESC ∉ inner) :
    stripANSI ('[' :: (List.replicate l x ++ ' ' :: (inner ++ ' ' ::
        (List.replicate r x ++ [']'])))) =
      '[' :: (List.replicate l x ++ ' ' :: (inner ++ ' ' :: (List.replicate r x ++ [']']))) := by
  rw [stripANSI_cons_ne _ _ (by decide), stripANSI_run x l ' ' _ (by decide),
    stripANSI_cons_ne _ _ (by decide), stripANSI_append_noesc inner _ hi,
    stripANSI_cons_ne _ _ (by decide), stripANSI_run x r ']' [] (by decide),
    stripANSI_cons_ne _ _ (by decide), stripANSI_nil]

theorem stripANSI_right_single (x : Char) (n : Nat) (inner : GoStr) (hi : ESC ∉ inner) :
    stripANSI ('[' :: (inner ++ ']' :: (List.replicate n x ++ [' ']))) =
      '[' :: (inner ++ ']' :: (List.replicate n x ++ [' '])) := by
  rw [stripANSI_cons_ne _ _ (by decide), stripANSI_append_noesc inner _ hi,
    stripANSI_cons_ne _ _ (by decide), stripANSI_run x n ' ' [] (by decide),
    stripANSI_cons_ne _ _ (by decide), stripANSI_nil]

theorem len_center_single (x : Char) (hx : x.utf8Size = 1) (l r : Nat) (inner : GoStr) :
    len ('[' :: (List.replicate l x ++ ' ' :: (inner ++ ' ' :: (List.replicate r x ++ [']'])))) =
      l + r + len inner + 4 := by
  have h1 : Char.utf8Size '[' = 1 := by decide
  have h2 : Char.utf8Size ' ' = 1 := by decide
  have h3 : Char.utf8Size ']' = 1 := by decide
  simp only [len_cons, len_append, len_replicate_char, len_nil, hx, h1, h2, h3]
  omega

theorem len_right_single (x : Char) (hx : x.utf8Size = 1) (n : Nat) (inner : GoStr) :
    len ('[' :: (inner ++ ']' :: (List.replicate n x ++ [' ']))) = n + len inner + 3 := by
  have h1 : Char.utf8Size '[' = 1 := by decide
  have h2 : Char.utf8Size ' ' = 1 := by decide
  have h3 : Char.utf8Size ']' = 1 := by decide
  simp only [len_cons, len_append, len_replicate_char, len_nil, hx, h1, h2, h3]
  omega

/-- C39, as stated, fails in its consequence for `Format`: with the single-byte fill `=`,
width 15 and the right-padded style, the inner text `\x1b[mA` of 4 bytes gives a tag of
exactly 15 bytes, but `Format` measures the tag without the escape sequence and writes
three gutter spaces after it. -/
theorem C39_counterexample :
    len Sample.rightFormatter.PaddingChar = 1 ∧
    tagInner Sample.escEntry.Message = some "\x1b[mA".toList ∧
    (len "\x1b[mA".toList : Int) < 15 - 3 ∧
    Sample.rightFormatter.rightPadTag "\x1b[mA".toList 15 =
      some "[\x1b[mA]======== ".toList ∧
    len "[\x1b[mA]======== ".toList = 15 ∧
    Sample.rightFormatter.gutter Sample.escEntry.Message = "   ".toList ∧
    Sample.rightFormatter.Format Sample.env Sample.escEntry =
      some ("INFO   [\x1b[mA]========     x\n".toList, none) := by
  refine ⟨by decide, by decide, by decide, by decide, by decide, by decide, by decide⟩

/-- C39, amended: for a single-byte fill character, every width `W` and every inner
text of byte length `L`, `centerTag` returns a string of exactly `W` bytes when `L < W-4`
and `rightPadTag` returns a string of exactly `W` bytes when `L < W-3`, and in the
fallback case each returns `[text]`, of `L+2` bytes; when the inner text holds no escape
character, `Format` (which uses the two functions when the tag is not colored) adds no
gutter spaces after such a decorated tag. -/
theorem C39_decorated_tag_width (f : CustomFormatter) (inner : GoStr) (W : Int)
    (hfill : len f.PaddingChar = 1) :
    ((len inner : Int) < W - 4 →
      ∃ t : GoStr, f.centerTag inner W = some t ∧ (len t : Int) = W) ∧
    (W - 4 ≤ (len inner : Int) →
      f.centerTag inner W = some ("[".toList ++ inner ++ "]".toList) ∧
      len ("[".toList ++ inner ++ "]".toList) = len inner + 2) ∧
    ((len inner : Int) < W - 3 →
      ∃ t : GoStr, f.rightPadTag inner W = some t ∧ (len t : Int) = W) ∧
    (W - 3 ≤ (len inner : Int) →
      f.rightPadTag inner W = some ("[".toList ++ inner ++ "]".toList) ∧
      len ("[".toList ++ inner ++ "]".toList) = len inner + 2) ∧
    (∀ message : GoStr, tagInner message = some inner → ESC ∉ inner →
      (f.UseColors && f.ColorBrackets) = false →
      (f.TagStyle = StyleCenter ∧ (len inner : Int) < f.maxPadding - 4 ∨
        f.TagStyle = StyleRight ∧ (len inner : Int) < f.maxPadding - 3) →
      f.gutter message = []) := by
  obtain ⟨x, hx, hsz⟩ := single_of_len_one _ hfill
  have hfx : f.fill = [x] := by
    unfold CustomFormatter.fill
    rw [hx]
    rfl
  have hcenter : ∀ V : Int, (len inner : Int) < V - 4 →
      ∃ t : GoStr, f.centerTag inner V = some t ∧ (len t : Int) = V ∧
        (ESC ∉ inner → stripANSI t = t) := by
    intro V h
    have hn : ¬ (len inner : Int) ≥ (V - 2) - 2 := by omega
    refine ⟨_, centerTag_single f inner V x hfx hn, ?_,
      fun hi => stripANSI_center_single x _ _ inner hi⟩
    rw [len_center_single x hsz]
    have h1 : 0 ≤ (V - 2 - (len inner : Int) - 2) / 2 := by omega
    have h2 : 0 ≤ (V - 2 - (len inner : Int) - 2) - (V - 2 - (len inner : Int) - 2) / 2 := by
      omega
    push_cast
    rw [Int.toNat_of_nonneg h1, Int.toNat_of_nonneg h2]
    omega
  have hright : ∀ V : Int, (len inner : Int) < V - 3 →
      ∃ t : GoStr, f.rightPadTag inner V = some t ∧ (len t : Int) = V ∧
        (ESC ∉ inner → stripANSI t = t) := by
    intro V h
    have hn : ¬ (len inner : Int) ≥ (V - 2) - 1 := by omega
    refine ⟨_, rightPadTag_single f inner V x hfx hn, ?_,
      fun hi => stripANSI_right_single x _ inner hi⟩
    rw [len_right_single x hsz]
    have h1 : 0 ≤ V - 2 - (len inner : Int) - 1 := by omega
    push_cast
    rw [Int.toNat_of_nonneg h1]
    omega
  refine ⟨?_, ?_, ?_, ?_, ?_⟩
  · intro h
    obtain ⟨t, ht⟩ := hcenter W h
    exact ⟨t, ht.1, ht.2.1⟩
  · intro h
    rw [centerTag_eq, if_pos (by omega)]
    exact ⟨rfl, len_brackets inner⟩
  · intro h
    obtain ⟨t, ht⟩ := hright W h
    exact ⟨t, ht.1, ht.2.1⟩
  · intro h
    rw [rightPadTag_eq, if_pos (by omega)]
    exact ⟨rfl, len_brackets inner⟩
  · intro message hm hi hcol hstyle
    have hd := displayTag_of_inner f message inner hm
    have key : ∀ t : GoStr, f.styleTag inner = some t → (len t : Int) = f.maxPadding →
        stripANSI t = t → f.gutter message = [] := by
      intro t ht hl hs
      rw [ht] at hd
      have hdt : f.displayTag message = t := (Option.some.inj hd).symm
      unfold CustomFormatter.gutter
      rw [hdt, hs, hl]
      simp
    rcases hstyle with ⟨hst, hl⟩ | ⟨hst, hl⟩
    · obtain ⟨t, ht⟩ := hcenter f.maxPadding hl
      apply key t _ ht.2.1 (ht.2.2 hi)
      unfold CustomFormatter.styleTag
      rw [hcol]
      simp only [Bool.false_eq_true, if_false, hst, if_true]
      exact ht.1
    · obtain ⟨t, ht⟩ := hright f.maxPadding hl
      apply key t _ ht.2.1 (ht.2.2 hi)
      have hne : ¬ StyleRight = StyleCenter := by decide
      unfold CustomFormatter.styleTag
      rw [hcol]
      simp only [Bool.false_eq_true, if_false, hst, hne, if_true]
      exact ht.1

set_option maxRecDepth 8000 in
theorem C39_decorated_tag_width_witness :
    len Sample.rightFormatter.PaddingChar = 1 ∧
    (∃ t : GoStr, Sample.rightFormatter.centerTag "Auth".toList 15 = some t ∧
      (len t : Int) = 15) ∧
    (∃ t : GoStr, Sample.rightFormatter.rightPadTag "Auth".toList 15 = some t ∧
      (len t : Int) = 15) ∧
    Sample.rightFormatter.gutter "[Auth] Login".toList = [] := by
  have h := C39_decorated_tag_width Sample.rightFormatter "Auth".toList 15 (by decide)
  refine ⟨by decide, h.1 (by decide), h.2.2.1 (by decide), ?_⟩
  exact h.2.2.2.2 "[Auth] Login".toList (by decide) (by decide) rfl
    (Or.inr ⟨rfl, by decide⟩)

end Pretty
